import Mathlib

/-! The keyword schema engine of opm-parser (`ParserKeyword.cpp`).

A shallow embedding of `Opm::ParserKeyword` and the properties of it that the
specification states.  Functions of the translation unit become Lean functions
with the same names; a member function takes the object as an explicit
argument and, when it mutates, returns the new object.  An exception becomes
`Except.error`.  Reading a `string_view` outside its bounds becomes `none`.

C++ strings are Lean strings, one `Char` per `char`.  `size_t` is `Nat` with
an explicit reduction modulo `2^64` where a conversion can wrap.
-/

namespace Opm

/-! ## What the translation unit takes from elsewhere -/

/-- The two exception classes the translation unit throws. -/
inductive Error where
  | invalid_argument
  | logic_error
deriving DecidableEq, Repr

/-- The values of the C++ type `int`: 32 bits, two's complement. -/
structure CInt where
  val : Int
  lo : -2147483648 ≤ val
  hi : val < 2147483648
deriving DecidableEq

/-- The `int` value 0. -/
def CInt.zero : CInt := ⟨0, by decide, by decide⟩

/-- A `double`, carried around and never computed with: its 64-bit pattern. -/
structure Double where
  bits : Nat
deriving DecidableEq, Repr

/-- The conversion `(size_t) i` of an `int`: reduction modulo `2^64`. -/
def CInt.toSizeT (i : CInt) : Nat := (i.val % 18446744073709551616).toNat

/-- The enumeration `ParserKeywordSizeEnum` (`ParserEnums.hpp`). -/
inductive ParserKeywordSizeEnum where
  | SLASH_TERMINATED
  | FIXED
  | OTHER_KEYWORD_IN_DECK
  | UNKNOWN
deriving DecidableEq, Repr

/-- The enumeration `ParserValueTypeEnum` (`ParserEnums.hpp`). -/
inductive ParserValueTypeEnum where
  | INT
  | STRING
  | DOUBLE
deriving DecidableEq, Repr

/-- The C function `isalpha`, in the "C" locale. -/
def isalpha (c : Char) : Bool := c.isAlpha

/-- The C function `isalnum`, in the "C" locale. -/
def isalnum (c : Char) : Bool := c.isAlphanum

/-- The struct `KeywordSize`: the keyword and item a record count is read
from, and the shift added to it. -/
structure KeywordSize where
  keyword : String
  item : String
  shift : CInt
deriving DecidableEq

/-- Modelled from the spec: the schema config object (`Json::JsonObject`, whose
source is not in this translation unit), "a hierarchical value supporting
membership test by key, type tests (string/number/array/object), and typed
extraction (string/int/float/array element/object)".  A number carries the
value its `int` extraction gives and the value its `double` extraction
gives. -/
inductive JsonObject where
  | null
  | boolean (b : Bool)
  | number (valueint : CInt) (valuedouble : Double)
  | string (s : String)
  | array (elements : List JsonObject)
  | object (members : List (String × JsonObject))

namespace JsonObject

/-- Membership test by key; no key is a member of a value that is not an
object. -/
def has_item (j : JsonObject) (key : String) : Bool :=
  match j with
  | object members => (members.lookup key).isSome
  | _ => false

/-- The member stored under a key; an error when there is none. -/
def get_item (j : JsonObject) (key : String) : Except Error JsonObject :=
  match j with
  | object members =>
    match members.lookup key with
    | some v => .ok v
    | none => .error .invalid_argument
  | _ => .error .invalid_argument

def is_number : JsonObject → Bool
  | number _ _ => true
  | _ => false

def is_string : JsonObject → Bool
  | string _ => true
  | _ => false

def is_array : JsonObject → Bool
  | array _ => true
  | _ => false

def is_object : JsonObject → Bool
  | object _ => true
  | _ => false

/-- Typed extraction of an `int`; an error on a value that is not a number. -/
def as_int : JsonObject → Except Error CInt
  | number i _ => .ok i
  | _ => .error .invalid_argument

/-- Typed extraction of a `double`; an error on a value that is not a number. -/
def as_double : JsonObject → Except Error Double
  | number _ d => .ok d
  | _ => .error .invalid_argument

/-- Typed extraction of a string; an error on a value that is not a string. -/
def as_string : JsonObject → Except Error String
  | string s => .ok s
  | _ => .error .invalid_argument

def get_string (j : JsonObject) (key : String) : Except Error String :=
  match j.get_item key with
  | .ok v => v.as_string
  | .error e => .error e

def get_int (j : JsonObject) (key : String) : Except Error CInt :=
  match j.get_item key with
  | .ok v => v.as_int
  | .error e => .error e

def get_double (j : JsonObject) (key : String) : Except Error Double :=
  match j.get_item key with
  | .ok v => v.as_double
  | .error e => .error e

/-- The elements of an array, in order; a value that is not an array has
none. -/
def elements? : JsonObject → List JsonObject
  | array xs => xs
  | _ => []

/-- The number of elements of an array. -/
def size (j : JsonObject) : Nat := j.elements?.length

/-- Extraction of an array element; an error outside the array. -/
def get_array_item (j : JsonObject) (i : Nat) : Except Error JsonObject :=
  match j.elements?[i]? with
  | some v => .ok v
  | none => .error .invalid_argument

end JsonObject

/-- A typed value: what an item default holds and what a parsed token
becomes. -/
inductive Value where
  | int (i : CInt)
  | string (s : String)
  | double (d : Double)
deriving DecidableEq

/-- The cardinality of an item (`ParserItem::item_size`): one token, or all
remaining tokens of the record. -/
inductive item_size where
  | ALL
  | SINGLE
deriving DecidableEq, Repr

/-- Modelled from the spec: the item description (`ParserItem`, whose source is
not in this translation unit): "name, value type, cardinality, optional
default value, ordered list of physical-dimension tags".  The value type is
absent until `setType` gives one.  The description is the text that
`getDescription()` returns, which `createCode` reads. -/
structure ParserItem where
  m_name : String
  m_sizeType : item_size
  m_type : Option ParserValueTypeEnum
  m_default : Option Value
  m_dimensions : List String
  m_description : String
deriving DecidableEq

namespace ParserItem

/-- The constructor `ParserItem(name, size)`. -/
def create (name : String) (sizeType : item_size) : ParserItem :=
  { m_name := name, m_sizeType := sizeType, m_type := none, m_default := none,
    m_dimensions := [], m_description := "" }

def setType (item : ParserItem) (t : ParserValueTypeEnum) : ParserItem :=
  { item with m_type := some t }

def setDefault (item : ParserItem) (v : Value) : ParserItem :=
  { item with m_default := some v }

def push_backDimension (item : ParserItem) (dim : String) : ParserItem :=
  { item with m_dimensions := item.m_dimensions ++ [dim] }

def setDescription (item : ParserItem) (description : String) : ParserItem :=
  { item with m_description := description }

end ParserItem

/-- Modelled from the spec: the record template (`ParserRecord`, whose source
is not in this translation unit): "an ordered sequence of ItemSpec, or exactly
one data ItemSpec with variadic cardinality", item names being "unique within
its record". -/
structure ParserRecord where
  m_dataRecord : Bool
  m_items : List ParserItem
deriving DecidableEq

namespace ParserRecord

/-- The constructor `ParserRecord()`. -/
def empty : ParserRecord := { m_dataRecord := false, m_items := [] }

/-- Appends an item; an error when the record has an item of that name. -/
def addItem (r : ParserRecord) (item : ParserItem) : Except Error ParserRecord :=
  if r.m_items.any (fun i => i.m_name == item.m_name) then .error .invalid_argument
  else .ok { r with m_items := r.m_items ++ [item] }

/-- Appends the item of a data record and marks the record as one. -/
def addDataItem (r : ParserRecord) (item : ParserItem) : Except Error ParserRecord :=
  match r.addItem item with
  | .ok r1 => .ok { r1 with m_dataRecord := true }
  | .error e => .error e

def isDataRecord (r : ParserRecord) : Bool := r.m_dataRecord

end ParserRecord

/-- Modelled from the spec: a raw record, "an ordered sequence of raw
tokens". -/
structure RawRecord where
  tokens : List String
deriving DecidableEq

/-- The record length `RawRecord::size()`. -/
def RawRecord.size (r : RawRecord) : Nat := r.tokens.length

/-- Modelled from the spec: a raw keyword occurrence, "a name token plus an
ordered sequence of raw records", the source location, and the "finished"
flag. -/
structure RawKeyword where
  keywordName : String
  filename : String
  lineNR : Nat
  isFinished : Bool
  records : List RawRecord
deriving DecidableEq

/-- Modelled from the spec: an output record, "an ordered sequence of typed
values mirroring its RecordTemplate", one list of values per item. -/
structure DeckRecord where
  items : List (List Value)
deriving DecidableEq

/-- Modelled from the spec: the output keyword, "name, source location,
ordered sequence of output records, a fixed-size flag, and an
is-data-keyword flag". -/
structure DeckKeyword where
  name : String
  fileName : String
  lineNumber : Nat
  records : List DeckRecord
  isDataKeyword : Bool
  fixedSize : Bool
deriving DecidableEq

namespace DeckKeyword

/-- The constructor `DeckKeyword(name)`. -/
def create (name : String) : DeckKeyword :=
  { name := name, fileName := "", lineNumber := 0, records := [],
    isDataKeyword := false, fixedSize := false }

def setLocation (k : DeckKeyword) (fileName : String) (lineNumber : Nat) : DeckKeyword :=
  { k with fileName := fileName, lineNumber := lineNumber }

def setDataKeyword (k : DeckKeyword) (b : Bool) : DeckKeyword :=
  { k with isDataKeyword := b }

def addRecord (k : DeckKeyword) (r : DeckRecord) : DeckKeyword :=
  { k with records := k.records ++ [r] }

def setFixedSize (k : DeckKeyword) : DeckKeyword :=
  { k with fixedSize := true }

end DeckKeyword

/-- The parts of the program and of its libraries that `ParserKeyword.cpp`
uses and does not define: constants, the regular-expression library, and the
functions of sibling translation units.  Every theorem below holds for every
choice of them. -/
structure Extern where
  /-- The constant `ParserConst::maxKeywordLength`. -/
  maxKeywordLength : Nat
  /-- The predicate `RawConsts::is_separator`. -/
  is_separator : Char → Bool
  /-- The type `boost::regex` of compiled regular expressions. -/
  Regex : Type
  /-- The default-constructed `boost::regex`. -/
  emptyRegex : Regex
  /-- The constructor `boost::regex(pattern)`; `none` when it throws. -/
  compile : String → Option Regex
  /-- The function `boost::regex_match`: the whole string matches. -/
  regex_match : String → Regex → Bool
  /-- The type `ParseContext`. -/
  ParseContext : Type
  /-- The constructor `ParserItem(jsonConfig)`. -/
  itemFromJson : JsonObject → Except Error ParserItem
  /-- The function `ParserRecord::parse`, without the messages it logs. -/
  recordParse : ParseContext → ParserRecord → RawRecord → Except Error DeckRecord
  /-- The function `ParserKeywordSizeEnumFromString`. -/
  ParserKeywordSizeEnumFromString : String → Except Error ParserKeywordSizeEnum
  /-- The function `ParserValueTypeEnumFromString`. -/
  ParserValueTypeEnumFromString : String → Except Error ParserValueTypeEnum
  /-- The default-constructed `KeywordSize`. -/
  defaultKeywordSize : KeywordSize

/-- The data members of `ParserKeyword`. -/
structure ParserKeyword (X : Extern) where
  m_name : String
  keyword_size : KeywordSize
  m_deckNames : Finset String
  m_validSectionNames : Finset String
  m_matchRegexString : String
  m_matchRegex : X.Regex
  m_records : List ParserRecord
  m_keywordSizeType : ParserKeywordSizeEnum
  m_fixedSize : Nat
  m_isTableCollection : Bool
  m_Description : String

namespace ParserKeyword

variable {X : Extern}

def setSizeType (kw : ParserKeyword X) (sizeType : ParserKeywordSizeEnum) : ParserKeyword X :=
  { kw with m_keywordSizeType := sizeType }

def setFixedSize (kw : ParserKeyword X) (keywordSize : Nat) : ParserKeyword X :=
  { kw with m_keywordSizeType := .FIXED, m_fixedSize := keywordSize }

def setTableCollection (kw : ParserKeyword X) (isTableCollection : Bool) : ParserKeyword X :=
  { kw with m_isTableCollection := isTableCollection }

/-- The object before the body of a constructor runs: every container empty,
every string empty.  The members `commonInit` assigns have no value yet; they
are given the ones `commonInit` is about to give. -/
def fresh (X : Extern) : ParserKeyword X :=
  { m_name := "", keyword_size := X.defaultKeywordSize, m_deckNames := ∅,
    m_validSectionNames := ∅, m_matchRegexString := "", m_matchRegex := X.emptyRegex,
    m_records := [], m_keywordSizeType := .UNKNOWN, m_fixedSize := 0,
    m_isTableCollection := false, m_Description := "" }

def commonInit (kw : ParserKeyword X) (name : String) (sizeType : ParserKeywordSizeEnum) :
    ParserKeyword X :=
  { kw with
    m_isTableCollection := false
    m_name := name
    m_keywordSizeType := sizeType
    m_Description := ""
    m_fixedSize := 0
    m_deckNames := insert name kw.m_deckNames }

def clearDeckNames (kw : ParserKeyword X) : ParserKeyword X :=
  { kw with m_deckNames := ∅ }

def addDeckName (kw : ParserKeyword X) (deckName : String) : ParserKeyword X :=
  { kw with m_deckNames := insert deckName kw.m_deckNames }

def isTableCollection (kw : ParserKeyword X) : Bool := kw.m_isTableCollection

/-- The overload `initSizeKeyword(sizeKeyword, sizeItem, size_shift)`. -/
def initSizeKeyword (kw : ParserKeyword X) (sizeKeyword sizeItem : String) (size_shift : CInt) :
    ParserKeyword X :=
  { kw with
    keyword_size := { keyword := sizeKeyword, item := sizeItem, shift := size_shift }
    m_keywordSizeType := .OTHER_KEYWORD_IN_DECK }

/-- The overload `initSizeKeyword(sizeObject)`. -/
def initSizeKeywordJson (kw : ParserKeyword X) (sizeObject : JsonObject) :
    Except Error (ParserKeyword X) :=
  if sizeObject.is_object then
    match sizeObject.get_string "keyword" with
    | .error e => .error e
    | .ok sizeKeyword =>
    match sizeObject.get_string "item" with
    | .error e => .error e
    | .ok sizeItem =>
    if sizeObject.has_item "shift" then
      match sizeObject.get_int "shift" with
      | .error e => .error e
      | .ok size_shift => .ok (kw.initSizeKeyword sizeKeyword sizeItem size_shift)
    else
      .ok (kw.initSizeKeyword sizeKeyword sizeItem CInt.zero)
  else
    match sizeObject.as_string with
    | .error e => .error e
    | .ok str =>
    match X.ParserKeywordSizeEnumFromString str with
    | .error e => .error e
    | .ok t => .ok { kw with m_keywordSizeType := t }

def initSize (kw : ParserKeyword X) (jsonConfig : JsonObject) : Except Error (ParserKeyword X) :=
  if jsonConfig.has_item "size" then
    match jsonConfig.get_item "size" with
    | .error e => .error e
    | .ok sizeObject =>
    if sizeObject.is_number then
      match sizeObject.as_int with
      | .error e => .error e
      | .ok n => .ok { kw with m_fixedSize := n.toSizeT, m_keywordSizeType := .FIXED }
    else
      kw.initSizeKeywordJson sizeObject
  else if jsonConfig.has_item "num_tables" then
    match jsonConfig.get_item "num_tables" with
    | .error e => .error e
    | .ok numTablesObject =>
    if !numTablesObject.is_object then .error .invalid_argument
    else
      match kw.initSizeKeywordJson numTablesObject with
      | .error e => .error e
      | .ok kw1 => .ok { kw1 with m_isTableCollection := true }
  else if jsonConfig.has_item "items" || jsonConfig.has_item "records" then
    .ok { kw with m_keywordSizeType := .SLASH_TERMINATED }
  else if jsonConfig.has_item "data" then
    .ok { kw with m_keywordSizeType := .FIXED, m_fixedSize := 1 }
  else
    .ok { kw with m_keywordSizeType := .FIXED, m_fixedSize := 0 }

/-- The element `name[i]` of a `string_view`; `none` outside the view. -/
def charAt (name : String) (i : Nat) : Option Char := name.data[i]?

/-- The result is `none` when the function reads outside the view. -/
def validNameStart (X : Extern) (name : String) : Option Bool :=
  if name.length > X.maxKeywordLength then some false
  else
    match charAt name 0 with
    | none => none
    | some c => if !isalpha c then some false else some true

/-- The characters of the range `[name.begin() + 1, name.end())`; `none` when
the range starts behind its end. -/
def fromSecond (name : String) : Option (List Char) :=
  match name.data with
  | [] => none
  | _ :: rest => some rest

def validInternalName (name : String) : Bool :=
  if name.length < 2 then false
  else
    match name.data with
    | [] => false
    | c :: rest =>
      if !isalpha c then false
      else rest.all (fun c => isalnum c || c == '_')

/-- The algorithm `std::find_if` on a list: the position of the first element
that satisfies `p`, the length of the list when there is none. -/
def find_if (p : Char → Bool) : List Char → Nat
  | [] => 0
  | c :: rest => if p c then 0 else find_if p rest + 1

def getDeckName (X : Extern) (str : String) : String :=
  let first_sep := find_if X.is_separator str.data
  if first_sep < 9 then ⟨str.data.take first_sep⟩
  else ⟨str.data.take 9⟩

/-- The result is `none` when the function reads outside the view. -/
def validDeckName (X : Extern) (name : String) : Option Bool :=
  match validNameStart X name with
  | none => none
  | some false => some false
  | some true =>
    match fromSecond name with
    | none => none
    | some rest => some (rest.all (fun c => isalnum c || c == '-' || c == '_' || c == '+'))

def hasMultipleDeckNames (kw : ParserKeyword X) : Bool := kw.m_deckNames.card > 1

/-- The loop of `initDeckNames` over the elements of the array: an element
that is not a string is an error, a string is added to the deck names. -/
def initDeckNamesLoop (kw : ParserKeyword X) : List JsonObject → Except Error (ParserKeyword X)
  | [] => .ok kw
  | nameObject :: rest =>
    if !nameObject.is_string then .error .invalid_argument
    else
      match nameObject.as_string with
      | .error e => .error e
      | .ok deckName => initDeckNamesLoop (kw.addDeckName deckName) rest

def initDeckNames (kw : ParserKeyword X) (jsonObject : JsonObject) :
    Except Error (ParserKeyword X) :=
  if !jsonObject.has_item "deck_names" then .ok kw
  else
    match jsonObject.get_item "deck_names" with
    | .error e => .error e
    | .ok namesObject =>
    if !namesObject.is_array then .error .invalid_argument
    else
      let kw1 := if namesObject.size > 0 then { kw with m_deckNames := ∅ } else kw
      initDeckNamesLoop kw1 namesObject.elements?

def clearValidSectionNames (kw : ParserKeyword X) : ParserKeyword X :=
  { kw with m_validSectionNames := ∅ }

def addValidSectionName (kw : ParserKeyword X) (sectionName : String) : ParserKeyword X :=
  { kw with m_validSectionNames := insert sectionName kw.m_validSectionNames }

/-- The loop of `initSectionNames` over the elements of the array. -/
def initSectionNamesLoop (kw : ParserKeyword X) : List JsonObject → Except Error (ParserKeyword X)
  | [] => .ok kw
  | nameObject :: rest =>
    if !nameObject.is_string then .error .invalid_argument
    else
      match nameObject.as_string with
      | .error e => .error e
      | .ok sectionName => initSectionNamesLoop (kw.addValidSectionName sectionName) rest

def initSectionNames (kw : ParserKeyword X) (jsonObject : JsonObject) :
    Except Error (ParserKeyword X) :=
  if !jsonObject.has_item "sections" then .error .invalid_argument
  else
    match jsonObject.get_item "sections" with
    | .error e => .error e
    | .ok namesObject =>
    if !namesObject.is_array then .error .invalid_argument
    else initSectionNamesLoop kw.clearValidSectionNames namesObject.elements?

def hasMatchRegex (kw : ParserKeyword X) : Bool := !kw.m_matchRegexString.isEmpty

/-- A pattern that does not compile leaves the object as it is (the warning
written to `std::cerr` is not modelled). -/
def setMatchRegex (kw : ParserKeyword X) (deckNameRegexp : String) : ParserKeyword X :=
  match X.compile deckNameRegexp with
  | some r => { kw with m_matchRegex := r, m_matchRegexString := deckNameRegexp }
  | none => kw

def initMatchRegex (kw : ParserKeyword X) (jsonObject : JsonObject) :
    Except Error (ParserKeyword X) :=
  if !jsonObject.has_item "deck_name_regex" then .ok kw
  else
    match jsonObject.get_item "deck_name_regex" with
    | .error e => .error e
    | .ok regexStringObject =>
    if !regexStringObject.is_string then .error .invalid_argument
    else
      match regexStringObject.as_string with
      | .error e => .error e
      | .ok str => .ok (kw.setMatchRegex str)

def addRecord (kw : ParserKeyword X) (record : ParserRecord) : ParserKeyword X :=
  { kw with m_records := kw.m_records ++ [record] }

def addDataRecord (kw : ParserKeyword X) (record : ParserRecord) :
    Except Error (ParserKeyword X) :=
  if kw.m_keywordSizeType == .FIXED && kw.m_fixedSize == 1 then .ok (kw.addRecord record)
  else .error .invalid_argument

/-- The object as a call of `addDataRecord` leaves it, on return and on throw:
the branch that throws assigns to no member. -/
def addDataRecordAfter (kw : ParserKeyword X) (record : ParserRecord) : ParserKeyword X :=
  if kw.m_keywordSizeType == .FIXED && kw.m_fixedSize == 1 then kw.addRecord record
  else kw

/-- The loop of `addItems` over the elements of the array: each element is
made an item and added to the record. -/
def addItemsLoop (X : Extern) (record : ParserRecord) : List JsonObject → Except Error ParserRecord
  | [] => .ok record
  | itemConfig :: rest =>
    match X.itemFromJson itemConfig with
    | .error e => .error e
    | .ok item =>
      match record.addItem item with
      | .error e => .error e
      | .ok record1 => addItemsLoop X record1 rest

def addItems (kw : ParserKeyword X) (itemsConfig : JsonObject) : Except Error (ParserKeyword X) :=
  if !itemsConfig.is_array then .error .invalid_argument
  else
    match addItemsLoop X ParserRecord.empty itemsConfig.elements? with
    | .error e => .error e
    | .ok record => .ok (kw.addRecord record)

/-- The loop of `set_dimensions` over the elements of a `dimension` array. -/
def set_dimensionsLoop (item : ParserItem) : List JsonObject → Except Error ParserItem
  | [] => .ok item
  | dim :: rest =>
    match dim.as_string with
    | .error e => .error e
    | .ok str => set_dimensionsLoop (item.push_backDimension str) rest

def set_dimensions (item : ParserItem) (json : JsonObject) : Except Error ParserItem :=
  if !json.has_item "dimension" then .ok item
  else
    match json.get_item "dimension" with
    | .error e => .error e
    | .ok dim =>
    if dim.is_string then
      match dim.as_string with
      | .error e => .error e
      | .ok str => .ok (item.push_backDimension str)
    else if dim.is_array then set_dimensionsLoop item dim.elements?
    else .error .invalid_argument

/-- The record `initData` builds for a value type.  The `default:` branch of
the switch throws; the three enumerators leave nothing for it. -/
def initDataRecord (dataConfig : JsonObject) (valueType : ParserValueTypeEnum) :
    Except Error ParserRecord :=
  let hasDefault := dataConfig.has_item "default"
  let item := ParserItem.create "data" .ALL
  match valueType with
  | .INT =>
    let item1 := item.setType .INT
    if hasDefault then
      match dataConfig.get_int "default" with
      | .error e => .error e
      | .ok defaultValue => ParserRecord.empty.addDataItem (item1.setDefault (.int defaultValue))
    else ParserRecord.empty.addDataItem item1
  | .STRING =>
    let item1 := item.setType .STRING
    if hasDefault then
      match dataConfig.get_string "default" with
      | .error e => .error e
      | .ok defaultValue => ParserRecord.empty.addItem (item1.setDefault (.string defaultValue))
    else ParserRecord.empty.addItem item1
  | .DOUBLE =>
    let item1 := item.setType .DOUBLE
    if hasDefault then
      match dataConfig.get_double "default" with
      | .error e => .error e
      | .ok defaultValue =>
        match set_dimensions (item1.setDefault (.double defaultValue)) dataConfig with
        | .error e => .error e
        | .ok item2 => ParserRecord.empty.addDataItem item2
    else
      match set_dimensions item1 dataConfig with
      | .error e => .error e
      | .ok item2 => ParserRecord.empty.addDataItem item2

def initData (kw : ParserKeyword X) (jsonConfig : JsonObject) : Except Error (ParserKeyword X) :=
  let kw1 : ParserKeyword X := { kw with m_fixedSize := 1, m_keywordSizeType := .FIXED }
  match jsonConfig.get_item "data" with
  | .error e => .error e
  | .ok dataConfig =>
  if !dataConfig.has_item "value_type" then .error .invalid_argument
  else
    match dataConfig.get_string "value_type" with
    | .error e => .error e
    | .ok str =>
    match X.ParserValueTypeEnumFromString str with
    | .error e => .error e
    | .ok valueType =>
    match initDataRecord dataConfig valueType with
    | .error e => .error e
    | .ok record => kw1.addDataRecord record

def getRecord (kw : ParserKeyword X) (recordIndex : Nat) : Except Error ParserRecord :=
  if h : kw.m_records = [] then .error .invalid_argument
  else if h1 : recordIndex ≥ kw.m_records.length then .ok (kw.m_records.getLast h)
  else .ok (kw.m_records.get ⟨recordIndex, Nat.lt_of_not_ge h1⟩)

def isValidSection (kw : ParserKeyword X) (sectionName : String) : Bool :=
  kw.m_validSectionNames.card == 0 || decide (sectionName ∈ kw.m_validSectionNames)

def hasFixedSize (kw : ParserKeyword X) : Bool := kw.m_keywordSizeType == .FIXED

def getFixedSize (kw : ParserKeyword X) : Except Error Nat :=
  if !kw.hasFixedSize then .error .logic_error
  else .ok kw.m_fixedSize

def getSizeType (kw : ParserKeyword X) : ParserKeywordSizeEnum := kw.m_keywordSizeType

def getKeywordSize (kw : ParserKeyword X) : KeywordSize := kw.keyword_size

def isDataKeyword (kw : ParserKeyword X) : Bool :=
  match kw.m_records with
  | [] => false
  | front :: _ => front.isDataRecord

/-- The loop of `parse` over the raw records: `record_nr` counts them, `keyword`
collects the parsed records. -/
def parseLoop (kw : ParserKeyword X) (parseContext : X.ParseContext) :
    List RawRecord → Nat → DeckKeyword → Except Error DeckKeyword
  | [], _, keyword => .ok keyword
  | rawRecord :: rest, record_nr, keyword =>
    if kw.m_records.length == 0 && rawRecord.size > 0 then .error .invalid_argument
    else
      match kw.getRecord record_nr with
      | .error e => .error e
      | .ok parserRecord =>
        match X.recordParse parseContext parserRecord rawRecord with
        | .error e => .error e
        | .ok deckRecord => parseLoop kw parseContext rest (record_nr + 1) (keyword.addRecord deckRecord)

def parse (kw : ParserKeyword X) (parseContext : X.ParseContext) (rawKeyword : RawKeyword) :
    Except Error DeckKeyword :=
  if !rawKeyword.isFinished then .error .invalid_argument
  else
    let keyword := ((DeckKeyword.create rawKeyword.keywordName).setLocation
      rawKeyword.filename rawKeyword.lineNR).setDataKeyword kw.isDataKeyword
    match parseLoop kw parseContext rawKeyword.records 0 keyword with
    | .error e => .error e
    | .ok keyword1 =>
      let keyword2 := if kw.hasFixedSize then keyword1.setFixedSize else keyword1
      let keyword3 :=
        if kw.m_keywordSizeType == .OTHER_KEYWORD_IN_DECK then
          if !kw.m_isTableCollection then keyword2.setFixedSize else keyword2
        else keyword2
      let keyword4 := if kw.m_keywordSizeType == .UNKNOWN then keyword3.setFixedSize else keyword3
      .ok keyword4

/-- The result is `none` when the function reads outside the view. -/
def «matches» (kw : ParserKeyword X) (name : String) : Option Bool :=
  match validDeckName X name with
  | none => none
  | some false => some false
  | some true =>
    if decide (name ∈ kw.m_deckNames) then some true
    else if kw.hasMatchRegex then some (X.regex_match name kw.m_matchRegex)
    else some false

/-- The algorithm `std::equal(first1, last1, first2)` on two lists, with the
records compared by their `operator==`.  The last case would read behind the
end of the second range; `operatorEq` compares the sizes first. -/
def std_equal : List ParserRecord → List ParserRecord → Bool
  | [], _ => true
  | x :: xs, y :: ys => x == y && std_equal xs ys
  | _ :: _, [] => false

/-- The member `operator==`. -/
def operatorEq (kw rhs : ParserKeyword X) : Bool :=
  if kw.m_deckNames != rhs.m_deckNames then false
  else if kw.m_name != rhs.m_name
      || kw.m_matchRegexString != rhs.m_matchRegexString
      || kw.m_keywordSizeType != rhs.m_keywordSizeType
      || kw.isDataKeyword != rhs.isDataKeyword
      || kw.m_isTableCollection != rhs.m_isTableCollection then false
  else
    let sizeOk :=
      match kw.m_keywordSizeType with
      | .FIXED => !(kw.m_fixedSize != rhs.m_fixedSize)
      | .OTHER_KEYWORD_IN_DECK => !(kw.keyword_size != rhs.keyword_size)
      | _ => true
    if !sizeOk then false
    else kw.m_records.length == rhs.m_records.length && std_equal kw.m_records rhs.m_records

/-- The member `operator!=`. -/
def operatorNe (kw rhs : ParserKeyword X) : Bool := !(kw.operatorEq rhs)

/-- The constructor `ParserKeyword(name)`. -/
def new (X : Extern) (name : String) : ParserKeyword X :=
  (fresh X).commonInit name .FIXED

/-- The constructor `ParserKeyword(name, sizeKeyword, sizeItem, size_shift,
isTableCollection)`. -/
def newSized (X : Extern) (name sizeKeyword sizeItem : String) (size_shift : CInt)
    (isTableCollection : Bool) : ParserKeyword X :=
  let kw := (fresh X).commonInit name .OTHER_KEYWORD_IN_DECK
  let kw1 : ParserKeyword X := { kw with m_isTableCollection := isTableCollection }
  kw1.initSizeKeyword sizeKeyword sizeItem size_shift

/-- The loop of the constructor over the elements of the `records` array. -/
def recordsLoop (kw : ParserKeyword X) : List JsonObject → Except Error (ParserKeyword X)
  | [] => .ok kw
  | itemsConfig :: rest =>
    match kw.addItems itemsConfig with
    | .error e => .error e
    | .ok kw1 => recordsLoop kw1 rest

/-- The constructor `ParserKeyword(jsonConfig)`. -/
def newJson (X : Extern) (jsonConfig : JsonObject) : Except Error (ParserKeyword X) :=
  if !jsonConfig.has_item "name" then .error .invalid_argument
  else
  match jsonConfig.get_string "name" with
  | .error e => .error e
  | .ok name =>
  let kw0 := (fresh X).commonInit name .UNKNOWN
  let kw1 :=
    if jsonConfig.has_item "deck_names" || jsonConfig.has_item "deck_name_regex" then
      kw0.clearDeckNames
    else kw0
  match kw1.initSize jsonConfig with
  | .error e => .error e
  | .ok kw2 =>
  match kw2.initDeckNames jsonConfig with
  | .error e => .error e
  | .ok kw3 =>
  match kw3.initSectionNames jsonConfig with
  | .error e => .error e
  | .ok kw4 =>
  match kw4.initMatchRegex jsonConfig with
  | .error e => .error e
  | .ok kw5 =>
  if jsonConfig.has_item "items" && jsonConfig.has_item "records" then .error .invalid_argument
  else
  match (if jsonConfig.has_item "items" then
      match jsonConfig.get_item "items" with
      | .error e => .error e
      | .ok itemsConfig => kw5.addItems itemsConfig
    else .ok kw5 : Except Error (ParserKeyword X)) with
  | .error e => .error e
  | .ok kw6 =>
  match (if jsonConfig.has_item "records" then
      match jsonConfig.get_item "records" with
      | .error e => .error e
      | .ok recordsConfig =>
        if recordsConfig.is_array then recordsLoop kw6 recordsConfig.elements?
        else .error .invalid_argument
    else .ok kw6 : Except Error (ParserKeyword X)) with
  | .error e => .error e
  | .ok kw7 =>
  match (if jsonConfig.has_item "data" then kw7.initData jsonConfig else .ok kw7 :
      Except Error (ParserKeyword X)) with
  | .error e => .error e
  | .ok kw8 =>
  if jsonConfig.has_item "description" then
    match jsonConfig.get_string "description" with
    | .error e => .error e
    | .ok description => .ok { kw8 with m_Description := description }
  else .ok kw8

def setDescription (kw : ParserKeyword X) (description : String) : ParserKeyword X :=
  { kw with m_Description := description }

/-- Adding two deck names in either order gives the same set. -/
instance addDeckName_rightCommutative : RightCommutative (addDeckName (X := X)) :=
  ⟨fun kw a b => by
    unfold addDeckName
    simp only
    rw [Finset.Insert.comm]⟩

/-- Adding two valid sections in either order gives the same set. -/
instance addValidSectionName_rightCommutative :
    RightCommutative (addValidSectionName (X := X)) :=
  ⟨fun kw a b => by
    unfold addValidSectionName
    simp only
    rw [Finset.Insert.comm]⟩

/-- The members that hold the size strategy of a keyword: size type, fixed
size, keyword reference and table-collection flag. -/
def sizeFields (kw : ParserKeyword X) : ParserKeywordSizeEnum × Nat × KeywordSize × Bool :=
  (kw.m_keywordSizeType, kw.m_fixedSize, kw.keyword_size, kw.m_isTableCollection)

/-- The members that decide which names a keyword matches, and its own name:
name, accepted deck names, regex source string and compiled regex. -/
def matchFields (kw : ParserKeyword X) : String × Finset String × String × X.Regex :=
  (kw.m_name, kw.m_deckNames, kw.m_matchRegexString, kw.m_matchRegex)

end ParserKeyword

/-! ## The schemas a client can build -/

/-- The compiled regex of a keyword is the one its regex source string
compiles to; asked only of a keyword that `hasMatchRegex()`. -/
def regexCompiled {X : Extern} (kw : ParserKeyword X) : Prop :=
  kw.hasMatchRegex = true → X.compile kw.m_matchRegexString = some kw.m_matchRegex

/-- The schemas a client can get hold of: those the three constructors build,
and those that a member function of the translation unit which changes the
object leaves behind when it returns.  The header that tells the public
member functions from the private ones is not part of the translation unit;
all of them are listed.  The last rule is an assignment through the reference
the non-const `getRecord(index)` returns. -/
inductive Reachable {X : Extern} : ParserKeyword X → Prop where
  | new (name : String) : Reachable (ParserKeyword.new X name)
  | newSized (name sizeKeyword sizeItem : String) (size_shift : CInt) (isTableCollection : Bool) :
      Reachable (ParserKeyword.newSized X name sizeKeyword sizeItem size_shift isTableCollection)
  | newJson {jsonConfig : JsonObject} {kw : ParserKeyword X} :
      ParserKeyword.newJson X jsonConfig = .ok kw → Reachable kw
  | setSizeType {kw : ParserKeyword X} (sizeType : ParserKeywordSizeEnum) :
      Reachable kw → Reachable (kw.setSizeType sizeType)
  | setFixedSize {kw : ParserKeyword X} (keywordSize : Nat) :
      Reachable kw → Reachable (kw.setFixedSize keywordSize)
  | setTableCollection {kw : ParserKeyword X} (isTableCollection : Bool) :
      Reachable kw → Reachable (kw.setTableCollection isTableCollection)
  | commonInit {kw : ParserKeyword X} (name : String) (sizeType : ParserKeywordSizeEnum) :
      Reachable kw → Reachable (kw.commonInit name sizeType)
  | clearDeckNames {kw : ParserKeyword X} : Reachable kw → Reachable kw.clearDeckNames
  | addDeckName {kw : ParserKeyword X} (deckName : String) :
      Reachable kw → Reachable (kw.addDeckName deckName)
  | setDescription {kw : ParserKeyword X} (description : String) :
      Reachable kw → Reachable (kw.setDescription description)
  | initSize {kw kw1 : ParserKeyword X} (jsonConfig : JsonObject) :
      Reachable kw → kw.initSize jsonConfig = .ok kw1 → Reachable kw1
  | initSizeKeyword {kw : ParserKeyword X} (sizeKeyword sizeItem : String) (size_shift : CInt) :
      Reachable kw → Reachable (kw.initSizeKeyword sizeKeyword sizeItem size_shift)
  | initSizeKeywordJson {kw kw1 : ParserKeyword X} (sizeObject : JsonObject) :
      Reachable kw → kw.initSizeKeywordJson sizeObject = .ok kw1 → Reachable kw1
  | initDeckNames {kw kw1 : ParserKeyword X} (jsonObject : JsonObject) :
      Reachable kw → kw.initDeckNames jsonObject = .ok kw1 → Reachable kw1
  | initSectionNames {kw kw1 : ParserKeyword X} (jsonObject : JsonObject) :
      Reachable kw → kw.initSectionNames jsonObject = .ok kw1 → Reachable kw1
  | initMatchRegex {kw kw1 : ParserKeyword X} (jsonObject : JsonObject) :
      Reachable kw → kw.initMatchRegex jsonObject = .ok kw1 → Reachable kw1
  | addItems {kw kw1 : ParserKeyword X} (itemsConfig : JsonObject) :
      Reachable kw → kw.addItems itemsConfig = .ok kw1 → Reachable kw1
  | initData {kw kw1 : ParserKeyword X} (jsonConfig : JsonObject) :
      Reachable kw → kw.initData jsonConfig = .ok kw1 → Reachable kw1
  | addRecord {kw : ParserKeyword X} (record : ParserRecord) :
      Reachable kw → Reachable (kw.addRecord record)
  | addDataRecord {kw kw1 : ParserKeyword X} (record : ParserRecord) :
      Reachable kw → kw.addDataRecord record = .ok kw1 → Reachable kw1
  | clearValidSectionNames {kw : ParserKeyword X} :
      Reachable kw → Reachable kw.clearValidSectionNames
  | addValidSectionName {kw : ParserKeyword X} (sectionName : String) :
      Reachable kw → Reachable (kw.addValidSectionName sectionName)
  | setMatchRegex {kw : ParserKeyword X} (deckNameRegexp : String) :
      Reachable kw → Reachable (kw.setMatchRegex deckNameRegexp)
  | getRecord {kw : ParserKeyword X} (index : Nat) (record : ParserRecord) :
      Reachable kw → Reachable { kw with m_records := kw.m_records.set index record }

/-! ## The saturation function tables (`SatfuncPropertyInitializers.hpp`) -/

/-- The comparison `x > 0.0` of a `double`, read off its bit pattern (IEEE 754
binary64): the sign bit is clear, the value is not zero and it is no NaN. -/
def Double.isPositive (x : Double) : Bool :=
  decide (0 < x.bits) && decide (x.bits ≤ 0x7FF0000000000000)

/-- The enumeration `SaturationFunctionFamily`. -/
inductive SaturationFunctionFamily where
  | noFamily
  | FamilyI
  | FamilyII
deriving DecidableEq, Repr

/-- A row of an SWOF table (`SwofTable.hpp` is not part of the translation
unit): the columns the search for the critical saturations reads. -/
structure SwofRow where
  Sw : Double
  Krw : Double
  Krow : Double
deriving DecidableEq

/-- A row of an SGOF table. -/
structure SgofRow where
  Sg : Double
  Krg : Double
  Krog : Double
deriving DecidableEq

/-- A row of an SLGOF table. -/
structure SlgofRow where
  Sl : Double
  Krg : Double
  Krog : Double
deriving DecidableEq

/-- A row of an SWFN table. -/
structure SwfnRow where
  Sw : Double
  Krw : Double
deriving DecidableEq

/-- A row of an SGFN table. -/
structure SgfnRow where
  Sg : Double
  Krg : Double
deriving DecidableEq

/-- A row of an SOF3 table. -/
structure Sof3Row where
  So : Double
  Krow : Double
  Krog : Double
deriving DecidableEq

/-- A table is the list of its rows: `numRows()` is their number, and every
column has one entry for each row. -/
abbrev SimpleTable (Row : Type) := List Row

/-- The member function `numRows()` of a table. -/
def SimpleTable.numRows {Row : Type} (t : SimpleTable Row) : Nat := t.length

/-- The containers of the table manager that `getSaturationFunctionFamily`
and the searches read: one `TableContainer` for each keyword, empty when the
keyword is not in the deck. -/
structure TableManager where
  swofTables : List (SimpleTable SwofRow)
  sgofTables : List (SimpleTable SgofRow)
  slgofTables : List (SimpleTable SlgofRow)
  sof3Tables : List (SimpleTable Sof3Row)
  swfnTables : List (SimpleTable SwfnRow)
  sgfnTables : List (SimpleTable SgfnRow)

/-- The branches of a statement `switch (getSaturationFunctionFamily(...))`
with the labels `case FamilyI:`, `case FamilyII:` and `default:`, as in
`findSaturationEndpoints`, `findCriticalPoints` and `findVerticalPoints`. -/
inductive SwitchBranch where
  | caseFamilyI
  | caseFamilyII
  | caseDefault
deriving DecidableEq, Repr

namespace EndpointInitializer

/-- The function `getSaturationFunctionFamily`, on the table manager of its
argument. -/
def getSaturationFunctionFamily (tables : TableManager) :
    Except Error SaturationFunctionFamily :=
  let family1 := (!tables.sgofTables.isEmpty || !tables.slgofTables.isEmpty)
    && !tables.swofTables.isEmpty
  let family2 := !tables.swfnTables.isEmpty && !tables.sgfnTables.isEmpty
    && !tables.sof3Tables.isEmpty
  if family1 && family2 then .error .invalid_argument
  else if !family1 && !family2 then .error .invalid_argument
  else if family1 && !family2 then .ok .FamilyI
  else if family2 && !family1 then .ok .FamilyII
  else .ok .noFamily

/-- The branch a `switch` over the family takes. -/
def switchBranch : SaturationFunctionFamily → SwitchBranch
  | .FamilyI => .caseFamilyI
  | .FamilyII => .caseFamilyII
  | .noFamily => .caseDefault

/-- The branch that the statement `switch (getSaturationFunctionFamily(...))`
enters; the exception of `getSaturationFunctionFamily` leaves the function
before any branch is entered. -/
def enteredBranch (tables : TableManager) : Except Error SwitchBranch :=
  match getSaturationFunctionFamily tables with
  | .error e => .error e
  | .ok family => .ok (switchBranch family)

end EndpointInitializer

/-! ## The search for the critical saturations (`findCriticalPoints`) -/

namespace EndpointInitializer

/-- The row at which a loop
`for (rowIdx = 0; rowIdx < numRows; ++rowIdx) if (col[rowIdx] > 0.0) { ...; break; }`
runs its body: the first row with a positive entry, if there is one. -/
def firstPositiveRow : List Double → Option Nat
  | [] => none
  | x :: rest => if x.isPositive then some 0 else (firstPositiveRow rest).map (· + 1)

/-- The row at which a loop
`for (int rowIdx = numRows - 1; rowIdx >= 0; --rowIdx) if (col[rowIdx] > 0.0) { ...; break; }`
runs its body: the last row with a positive entry, if there is one. -/
def lastPositiveRow (col : List Double) : Option Nat :=
  (firstPositiveRow col.reverse).map (fun i => col.length - 1 - i)

/-- The index of the read `column[rowIdx - 1]` in the body of a forward loop
that reads under `if (rowIdx > 0)`; nothing is read at row 0 and when no
entry is positive. -/
def guardedReadBefore (col : List Double) : Option Int :=
  match firstPositiveRow col with
  | none => none
  | some rowIdx => if rowIdx > 0 then some ((rowIdx : Int) - 1) else none

/-- The index of the read `column[rowIdx - 1]` in the body of a forward loop
with `size_t rowIdx` that reads without a test: the difference is taken
modulo `2^64`. -/
def readBeforeFirst (col : List Double) : Option Int :=
  match firstPositiveRow col with
  | none => none
  | some rowIdx =>
    some (((rowIdx + 18446744073709551616 - 1) % 18446744073709551616 : Nat) : Int)

/-- The index of the read `column[rowIdx + 1]` in the body of a forward loop
with `int rowIdx`. -/
def readAfterFirst (col : List Double) : Option Int :=
  match firstPositiveRow col with
  | none => none
  | some rowIdx => some ((rowIdx : Int) + 1)

/-- The index of the read `column[rowIdx + 1]` in the body of a backward loop
with `int rowIdx`. -/
def readAfterLast (col : List Double) : Option Int :=
  match lastPositiveRow col with
  | none => none
  | some rowIdx => some ((rowIdx : Int) + 1)

/-- What the body of a loop does that runs `assert(rowIdx < numRows - 1);`
before it reads `column[rowIdx + 1]`. -/
inductive AssertedRead where
  | noRead
  | read (index : Int)
  | aborted
deriving DecidableEq

/-- The body of the backward loop that runs `assert(rowIdx < numRows - 1);`
before it reads `column[rowIdx + 1]`.  With `NDEBUG` defined the assertion is
no code and the read takes place; without it a failed assertion ends the
program before the read. -/
def assertedReadAfterLast (ndebug : Bool) (col : List Double) : AssertedRead :=
  match lastPositiveRow col with
  | none => .noRead
  | some rowIdx =>
    if !ndebug && !decide ((rowIdx : Int) < (col.length : Int) - 1) then .aborted
    else .read ((rowIdx : Int) + 1)

/-- The indices at which the two loops over an SWOF table read the column SW:
the critical water saturation, then the critical oil saturation of the
water-oil system. -/
def swofReads (swofTable : SimpleTable SwofRow) : List Int :=
  (guardedReadBefore (swofTable.map SwofRow.Krw)).toList
    ++ (readAfterLast (swofTable.map SwofRow.Krow)).toList

/-- The indices at which the two loops over an SGOF table read the column SG. -/
def sgofReads (sgofTable : SimpleTable SgofRow) : List Int :=
  (guardedReadBefore (sgofTable.map SgofRow.Krg)).toList
    ++ (readAfterLast (sgofTable.map SgofRow.Krog)).toList

/-- The indices at which the two loops over an SLGOF table read the column SL;
the second loop does not run when the assertion of the first has ended the
program. -/
def slgofReads (ndebug : Bool) (slgofTable : SimpleTable SlgofRow) : List Int :=
  match assertedReadAfterLast ndebug (slgofTable.map SlgofRow.Krg) with
  | .aborted => []
  | .noRead => (readAfterFirst (slgofTable.map SlgofRow.Krog)).toList
  | .read index => index :: (readAfterFirst (slgofTable.map SlgofRow.Krog)).toList

/-- The indices at which the loop over an SWFN table reads the column SW. -/
def swfnReads (swfnTable : SimpleTable SwfnRow) : List Int :=
  (guardedReadBefore (swfnTable.map SwfnRow.Krw)).toList

/-- The indices at which the loop over an SGFN table reads the column SG. -/
def sgfnReads (sgfnTable : SimpleTable SgfnRow) : List Int :=
  (guardedReadBefore (sgfnTable.map SgfnRow.Krg)).toList

/-- The indices at which the two loops over an SOF3 table read the column SO:
the critical oil saturation of the oil-gas system, then that of the
water-oil system. -/
def sof3Reads (sof3Table : SimpleTable Sof3Row) : List Int :=
  (readBeforeFirst (sof3Table.map Sof3Row.Krog)).toList
    ++ (readBeforeFirst (sof3Table.map Sof3Row.Krow)).toList

/-- An index is one of a row of a table with `numRows` rows. -/
def inRows (numRows : Nat) (index : Int) : Bool :=
  decide (0 ≤ index) && decide (index < (numRows : Int))

end EndpointInitializer

/-! ## Concrete inputs

An instance of the external parts and a few configs, schemas and raw
occurrences, on which the theorems below are applied. -/

/-- An instance of the external parts on which the definitions can be
evaluated: keywords of at most 8 characters, blank and tab as separators,
and a regular-expression library that knows literal texts only (a pattern
with an opening parenthesis does not compile). -/
def sampleExtern : Extern :=
  { maxKeywordLength := 8
    is_separator := fun c => c == ' ' || c == '\t'
    Regex := String
    emptyRegex := ""
    compile := fun p => if p.data.contains '(' then none else some p
    regex_match := fun name r => name == r
    ParseContext := Unit
    itemFromJson := fun j =>
      match j.get_string "name" with
      | .ok n => .ok (ParserItem.create n .SINGLE)
      | .error e => .error e
    recordParse := fun _ rec raw =>
      if raw.tokens.length ≤ rec.m_items.length then
        .ok ⟨raw.tokens.map (fun t => [Value.string t])⟩
      else .error .invalid_argument
    ParserKeywordSizeEnumFromString := fun _ => .error .invalid_argument
    ParserValueTypeEnumFromString := fun s =>
      if s == "INT" then .ok .INT
      else if s == "STRING" then .ok .STRING
      else if s == "DOUBLE" then .ok .DOUBLE
      else .error .invalid_argument
    defaultKeywordSize := ⟨"", "", CInt.zero⟩ }

/-- The keyword `newJson` builds on `sampleExtern`, for configs on which it
succeeds. -/
def sampleBuild (jsonConfig : JsonObject) : ParserKeyword sampleExtern :=
  match ParserKeyword.newJson sampleExtern jsonConfig with
  | .ok kw => kw
  | .error _ => ParserKeyword.fresh sampleExtern

/-- The config with `name` "ABC", no sections and `size` 3. -/
def sampleConfigFixed : JsonObject :=
  .object [("name", .string "ABC"), ("sections", .array []),
    ("size", .number ⟨3, by decide, by decide⟩ ⟨0⟩)]

/-- A keyword reference with keyword "EQLDIMS", item "NTEQUL" and shift -1. -/
def sampleReference : JsonObject :=
  .object [("keyword", .string "EQLDIMS"), ("item", .string "NTEQUL"),
    ("shift", .number ⟨-1, by decide, by decide⟩ ⟨0⟩)]

/-- A keyword reference with keyword "TABDIMS" and item "NTPVT", without
shift. -/
def sampleTables : JsonObject :=
  .object [("keyword", .string "TABDIMS"), ("item", .string "NTPVT")]

/-- A config with an object `size`, a `num_tables` object and one record of two
items. -/
def sampleConfigReference : JsonObject :=
  .object [("name", .string "EQUIL"), ("sections", .array [.string "SOLUTION"]),
    ("size", sampleReference), ("num_tables", sampleTables),
    ("items", .array [.object [("name", .string "DEPTH")], .object [("name", .string "PRESS")]])]

/-- A config with a `num_tables` object and no `size`. -/
def sampleConfigTables : JsonObject :=
  .object [("name", .string "PVTO"), ("sections", .array [.string "PROPS"]),
    ("num_tables", sampleTables),
    ("items", .array [.object [("name", .string "RS")]])]

/-- A config with `items` and neither `size` nor `num_tables`. -/
def sampleConfigItems : JsonObject :=
  .object [("name", .string "WELSPECS"), ("sections", .array [.string "SCHEDULE"]),
    ("items", .array [.object [("name", .string "WELL")], .object [("name", .string "GROUP")]])]

/-- A config with `data` and neither `size` nor `num_tables`. -/
def sampleConfigData : JsonObject :=
  .object [("name", .string "PORO"), ("sections", .array [.string "GRID"]),
    ("data", .object [("value_type", .string "INT"),
      ("default", .number ⟨7, by decide, by decide⟩ ⟨0⟩)])]

/-- A config with nothing but `name` and `sections`. -/
def sampleConfigEmpty : JsonObject :=
  .object [("name", .string "OIL"), ("sections", .array [.string "RUNSPEC"])]

/-- A record template of two single items, "WELL" and "GROUP". -/
def sampleRecordTwo : ParserRecord :=
  { m_dataRecord := false
    m_items := [ParserItem.create "WELL" .SINGLE, ParserItem.create "GROUP" .SINGLE] }

/-- A record template of one single item, "DEPTH". -/
def sampleRecordOne : ParserRecord :=
  { m_dataRecord := false, m_items := [ParserItem.create "DEPTH" .SINGLE] }

/-- A schema with the two record templates `sampleRecordTwo` and
`sampleRecordOne`, in this order. -/
def sampleKeyword : ParserKeyword sampleExtern :=
  (((ParserKeyword.new sampleExtern "WELSPECS").setSizeType .SLASH_TERMINATED).addRecord
    sampleRecordTwo).addRecord sampleRecordOne

/-- A finished raw occurrence with three records. -/
def sampleRaw : RawKeyword :=
  { keywordName := "WELSPECS", filename := "CASE.DATA", lineNR := 12, isFinished := true
    records := [⟨["W1", "G1"]⟩, ⟨["2000"]⟩, ⟨["2100"]⟩] }

/-- The records `sampleExtern.recordParse` makes of the records of
`sampleRaw`. -/
def sampleOut : List DeckRecord :=
  [⟨[[.string "W1"], [.string "G1"]]⟩, ⟨[[.string "2000"]]⟩, ⟨[[.string "2100"]]⟩]

/-- The schema named "SWAT" with the accepted names "SWAT" and "SWATINIT", the
second added after the first. -/
def sampleNamesA : ParserKeyword sampleExtern :=
  (ParserKeyword.new sampleExtern "SWAT").addDeckName "SWATINIT"

/-- The schema named "SWAT" with the accepted names "SWATINIT" and "SWAT",
the second added after the first. -/
def sampleNamesB : ParserKeyword sampleExtern :=
  (((ParserKeyword.new sampleExtern "SWAT").clearDeckNames).addDeckName "SWATINIT").addDeckName
    "SWAT"

/-- A schema of fixed size 3 with the one record template `sampleRecordOne`. -/
def sampleFixedThree : ParserKeyword sampleExtern :=
  ((ParserKeyword.new sampleExtern "EQUIL").setFixedSize 3).addRecord sampleRecordOne

/-- A finished raw occurrence with one record. -/
def sampleRawShort : RawKeyword :=
  { keywordName := "EQUIL", filename := "CASE.DATA", lineNR := 40, isFinished := true
    records := [⟨["2000"]⟩] }

/-- A raw occurrence that is not finished. -/
def sampleRawOpen : RawKeyword :=
  { keywordName := "EQUIL", filename := "CASE.DATA", lineNR := 40, isFinished := false
    records := [⟨["2000"]⟩] }

/-- A schema of size type `OTHER_KEYWORD_IN_DECK` that is a table collection,
with the one record template `sampleRecordOne`. -/
def sampleTableCollection : ParserKeyword sampleExtern :=
  (ParserKeyword.newSized sampleExtern "PVTO" "TABDIMS" "NTPVT" CInt.zero true).addRecord
    sampleRecordOne

/-- A schema of size type `OTHER_KEYWORD_IN_DECK` that is no table collection,
with the one record template `sampleRecordOne`. -/
def sampleSized : ParserKeyword sampleExtern :=
  (ParserKeyword.newSized sampleExtern "EQUIL" "EQLDIMS" "NTEQUL" CInt.zero false).addRecord
    sampleRecordOne

/-- A config with a `deck_names` list that does not hold the name of the
keyword. -/
def sampleConfigNames : JsonObject :=
  .object [("name", .string "SWAT"), ("sections", .array [.string "SOLUTION"]),
    ("deck_names", .array [.string "SWATINIT", .string "SWL"])]

/-- A config whose `deck_name_regex` does not compile on `sampleExtern`. -/
def sampleConfigBadRegex : JsonObject :=
  .object [("name", .string "TRACER"), ("sections", .array [.string "PROPS"]),
    ("deck_names", .array [.string "TVDPF"]), ("deck_name_regex", .string "TVDP(")]

/-- A config with a numeric `size` 3, with `items` and with `data`. -/
def sampleConfigSizeData : JsonObject :=
  .object [("name", .string "PORO"), ("sections", .array [.string "GRID"]),
    ("size", .number ⟨3, by decide, by decide⟩ ⟨0⟩),
    ("items", .array [.object [("name", .string "VALUE")]]),
    ("data", .object [("value_type", .string "INT")])]

/-- A config with a `deck_name_regex` and without `deck_names`. -/
def sampleConfigRegexOnly : JsonObject :=
  .object [("name", .string "TRACER"), ("sections", .array [.string "PROPS"]),
    ("deck_name_regex", .string "TVDPF")]

/-- A config with an empty `deck_names` list. -/
def sampleConfigNoNames : JsonObject :=
  .object [("name", .string "TRACER"), ("sections", .array [.string "PROPS"]),
    ("deck_names", .array [])]

/-- A config with both `items` and `records`. -/
def sampleConfigItemsRecords : JsonObject :=
  .object [("name", .string "EQUIL"), ("sections", .array []),
    ("items", .array [.object [("name", .string "DEPTH")]]),
    ("records", .array [.array [.object [("name", .string "PRESS")]]])]

/-- A schema whose first record template is a data record. -/
def sampleDataKeyword : ParserKeyword sampleExtern :=
  ((ParserKeyword.new sampleExtern "PORO").setFixedSize 1).addRecord
    { m_dataRecord := true, m_items := [ParserItem.create "data" .ALL] }

/-- A config without `sections`. -/
def sampleConfigNoSections : JsonObject :=
  .object [("name", .string "OIL")]

/-- A config whose `sections` list has an entry that is not a string. -/
def sampleConfigBadSections : JsonObject :=
  .object [("name", .string "OIL"), ("sections", .array [.string "RUNSPEC", .null])]

/-- A config with two sections. -/
def sampleConfigSections : JsonObject :=
  .object [("name", .string "SWAT"), ("sections", .array [.string "SOLUTION", .string "PROPS"])]

/-- A config with a `data` member of value type STRING. -/
def sampleConfigDataString : JsonObject :=
  .object [("name", .string "TITLE"), ("sections", .array [.string "RUNSPEC"]),
    ("data", .object [("value_type", .string "STRING")])]

/-- A finished raw occurrence whose one record is empty. -/
def sampleRawEmptyRecord : RawKeyword :=
  { keywordName := "PORO", filename := "CASE.DATA", lineNR := 7, isFinished := true
    records := [⟨[]⟩] }

/-- A finished raw occurrence without records. -/
def sampleRawNoRecords : RawKeyword :=
  { keywordName := "OIL", filename := "CASE.DATA", lineNR := 3, isFinished := true
    records := [] }

/-- The schema `sampleNamesA` with the regex "SWA". -/
def sampleRegexA : ParserKeyword sampleExtern := sampleNamesA.setMatchRegex "SWA"

/-- The schema `sampleNamesB` with the regex "SWA". -/
def sampleRegexB : ParserKeyword sampleExtern := sampleNamesB.setMatchRegex "SWA"

/-- A schema with the size reference keyword "FOO", item "N" and shift -1, and
the one record template `sampleRecordOne`. -/
def sampleDependent : ParserKeyword sampleExtern :=
  (ParserKeyword.newSized sampleExtern "BAR" "FOO" "N" ⟨-1, by decide, by decide⟩ false).addRecord
    sampleRecordOne

/-- A finished raw occurrence of "BAR" with one record. -/
def sampleRawDependent : RawKeyword :=
  { keywordName := "BAR", filename := "CASE.DATA", lineNR := 21, isFinished := true
    records := [⟨["2000"]⟩] }

/-- A table manager with one table for each of the keywords whose flag is
set. -/
def sampleTableManager (swof sgof slgof sof3 swfn sgfn : Bool) : TableManager :=
  { swofTables := if swof then [[]] else []
    sgofTables := if sgof then [[]] else []
    slgofTables := if slgof then [[]] else []
    sof3Tables := if sof3 then [[]] else []
    swfnTables := if swfn then [[]] else []
    sgfnTables := if sgfn then [[]] else [] }

/-- An SWOF table of two rows, (0.2, 0, 1) and (0.8, 1, 0.5): the oil
relative permeability of the last row is positive. -/
def sampleSwof : SimpleTable SwofRow :=
  [⟨⟨4596373779694328218⟩, ⟨0⟩, ⟨4607182418800017408⟩⟩,
   ⟨⟨4605380978949069210⟩, ⟨4607182418800017408⟩, ⟨4602678819172646912⟩⟩]

/-- An SOF3 table of two rows, (0.2, 0.5, 0.5) and (0.8, 1, 1): the relative
permeabilities of the first row are positive. -/
def sampleSof3 : SimpleTable Sof3Row :=
  [⟨⟨4596373779694328218⟩, ⟨4602678819172646912⟩, ⟨4602678819172646912⟩⟩,
   ⟨⟨4605380978949069210⟩, ⟨4607182418800017408⟩, ⟨4607182418800017408⟩⟩]

/-- An SLGOF table of two rows, (0.2, 1, 0) and (1, 0, 1): only the last row
has a positive oil relative permeability. -/
def sampleSlgof : SimpleTable SlgofRow :=
  [⟨⟨4596373779694328218⟩, ⟨4607182418800017408⟩, ⟨0⟩⟩,
   ⟨⟨4607182418800017408⟩, ⟨0⟩, ⟨4607182418800017408⟩⟩]

/-! ## Theorems -/

open ParserKeyword

/-! ### Name matching -/

/-- A digit is not alphabetic. -/
theorem isalpha_of_isDigit (c : Char) (h : c.isDigit = true) : isalpha c = false := by
  unfold isalpha
  simp only [Char.isDigit, Char.isAlpha, Char.isUpper, Char.isLower, Bool.and_eq_true,
    decide_eq_true_eq, Bool.or_eq_false_iff, Bool.and_eq_false_iff, decide_eq_false_iff_not,
    ge_iff_le, UInt32.le_def, BitVec.le_def] at *
  have h57 : (UInt32.toBitVec 57).toNat = 57 := rfl
  have h65 : (UInt32.toBitVec 65).toNat = 65 := rfl
  have h97 : (UInt32.toBitVec 97).toNat = 97 := rfl
  rw [h57] at h
  rw [h65, h97]
  omega

/-- A name that starts with a digit is rejected by `validDeckName`. -/
theorem validDeckName_digit (X : Extern) (d : Char) (rest : List Char)
    (h : d.isDigit = true) : validDeckName X ⟨d :: rest⟩ = some false := by
  have hstart : validNameStart X ⟨d :: rest⟩ = some false := by
    unfold validNameStart charAt
    split
    · rfl
    · simp [isalpha_of_isDigit d h]
  unfold validDeckName
  rw [hstart]

/-- C1: `matches(c)` is true exactly when `validDeckName(c)` holds and `c` is
in the accepted deck-name set or the schema has a match regex that `c` fully
matches; a name that `validDeckName` rejects is not matched, whatever the
set and the regex are; so a name that starts with a digit is not matched
after it was added to the accepted deck names. -/
theorem matches_iff (X : Extern) (kw : ParserKeyword X) (c : String) :
    (kw.matches c = some true ↔
      (validDeckName X c = some true ∧
        (c ∈ kw.m_deckNames ∨
          (kw.hasMatchRegex = true ∧ X.regex_match c kw.m_matchRegex = true)))) ∧
    (validDeckName X c = some false → kw.matches c = some false) ∧
    (∀ (d : Char) (rest : List Char), d.isDigit = true →
      (⟨d :: rest⟩ : String) ∈ (kw.addDeckName ⟨d :: rest⟩).m_deckNames ∧
      (kw.addDeckName ⟨d :: rest⟩).matches ⟨d :: rest⟩ = some false) := by
  refine ⟨?_, ?_, ?_⟩
  · unfold ParserKeyword.matches
    constructor
    · intro h
      split at h
      · simp at h
      · simp at h
      · rename_i hv
        refine ⟨hv, ?_⟩
        by_cases hm : c ∈ kw.m_deckNames
        · exact Or.inl hm
        · right
          simp only [hm, decide_False] at h
          by_cases hr : kw.hasMatchRegex = true
          · simp [hr] at h
            exact ⟨hr, h⟩
          · simp [hr] at h
    · rintro ⟨hv, h⟩
      rw [hv]
      rcases h with hm | ⟨hr, hx⟩
      · simp [hm]
      · by_cases hm : c ∈ kw.m_deckNames
        · simp [hm]
        · simp [hm, hr, hx]
  · intro hv
    unfold ParserKeyword.matches
    rw [hv]
  · intro d rest hd
    refine ⟨by simp [addDeckName], ?_⟩
    unfold ParserKeyword.matches
    rw [validDeckName_digit X d rest hd]

theorem matches_iff_witness :
    validDeckName sampleExtern "1ABC" = some false ∧
      ((ParserKeyword.new sampleExtern "ABC").addDeckName "1ABC").matches "1ABC" = some false ∧
      ((ParserKeyword.new sampleExtern "ABC").addDeckName "9XYZ").matches "9XYZ" = some false :=
  ⟨by decide,
   (matches_iff sampleExtern ((ParserKeyword.new sampleExtern "ABC").addDeckName "1ABC")
     "1ABC").2.1 (by decide),
   ((matches_iff sampleExtern (ParserKeyword.new sampleExtern "ABC") "ABC").2.2
     '9' ['X', 'Y', 'Z'] (by decide)).2⟩

/-! ### Record templates and `parse` -/

/-- The record `getRecord` returns from a non-empty template list is the one
at the index clamped to the last position. -/
theorem getRecord_clamp {X : Extern} (kw : ParserKeyword X) (i : Nat) (r : ParserRecord)
    (h : kw.m_records[min i (kw.m_records.length - 1)]? = some r) :
    kw.getRecord i = .ok r := by
  unfold getRecord
  have hne : kw.m_records ≠ [] := by
    intro h0
    rw [h0] at h
    simp at h
  simp only [hne, dite_false]
  by_cases hi : i ≥ kw.m_records.length
  · simp only [hi, dite_true]
    rw [Nat.min_eq_right (by omega)] at h
    rw [List.getLast_eq_getElem]
    congr 1
    have := List.getElem?_eq_some_iff.mp h
    obtain ⟨_, h2⟩ := this
    exact h2
  · simp only [hi, dite_false]
    rw [Nat.min_eq_left (by omega)] at h
    congr 1
    obtain ⟨_, h2⟩ := List.getElem?_eq_some_iff.mp h
    simpa using h2

/-- The loop of `parse`, started at record number `n`, appends the record-level
results to the keyword when every record-level parse succeeds. -/
theorem parseLoop_ok {X : Extern} (kw : ParserKeyword X) (ctx : X.ParseContext)
    (hT : kw.m_records ≠ []) :
    ∀ (rest : List RawRecord) (n : Nat) (keyword : DeckKeyword) (outs : List DeckRecord),
      outs.length = rest.length →
      (∀ j r d, rest[j]? = some r → outs[j]? = some d →
        ∀ tpl, kw.m_records[min (n + j) (kw.m_records.length - 1)]? = some tpl →
          X.recordParse ctx tpl r = .ok d) →
      parseLoop kw ctx rest n keyword =
        .ok { keyword with records := keyword.records ++ outs } := by
  intro rest
  induction rest with
  | nil =>
    intro n keyword outs hlen _
    have : outs = [] := List.length_eq_zero.mp (by simpa using hlen)
    subst this
    simp [parseLoop]
  | cons raw rest ih =>
    intro n keyword outs hlen hrec
    cases outs with
    | nil => simp at hlen
    | cons d outs =>
      have hpos : 0 < kw.m_records.length := List.length_pos.mpr hT
      have hidx : min n (kw.m_records.length - 1) < kw.m_records.length := by omega
      have hget : kw.m_records[min n (kw.m_records.length - 1)]? =
          some (kw.m_records.get ⟨_, hidx⟩) := by
        simp [List.getElem?_eq_getElem hidx]
      have hrecord := getRecord_clamp kw n _ hget
      have hparse := hrec 0 raw d (by simp) (by simp) (kw.m_records.get ⟨_, hidx⟩)
        (by rw [Nat.add_zero]; exact hget)
      have hnz : (kw.m_records.length == 0) = false := by
        simp only [beq_eq_false_iff_ne, ne_eq]
        omega
      unfold parseLoop
      simp only [hnz, Bool.false_and, Bool.false_eq_true, if_false, hrecord, hparse]
      rw [ih (n + 1) (keyword.addRecord d) outs (by simpa using hlen)
        (by
          intro j r d1 hr hd tpl htpl
          apply hrec (j + 1) r d1 (by simpa using hr) (by simpa using hd) tpl
          have : n + (j + 1) = n + 1 + j := by omega
          rw [this]
          exact htpl)]
      simp [DeckKeyword.addRecord]

/-- C2: on a schema with at least one record template and a finished raw
occurrence, when the record-level parse of every raw record `r_i` with template
number `min i (T - 1)` succeeds with result `d_i`, `parse` returns an output
keyword whose records are exactly `d_0, ..., d_(k-1)`, in that order. -/
theorem parse_records (X : Extern) (kw : ParserKeyword X) (ctx : X.ParseContext)
    (raw : RawKeyword) (out : List DeckRecord)
    (hT : 1 ≤ kw.m_records.length) (hfin : raw.isFinished = true)
    (hlen : out.length = raw.records.length)
    (hrec : ∀ i r d, raw.records[i]? = some r → out[i]? = some d →
      ∀ tpl, kw.m_records[min i (kw.m_records.length - 1)]? = some tpl →
        X.recordParse ctx tpl r = .ok d) :
    ∃ k, kw.parse ctx raw = .ok k ∧ k.records = out := by
  have hne : kw.m_records ≠ [] := by
    intro h0
    rw [h0] at hT
    simp at hT
  have hloop := parseLoop_ok kw ctx hne raw.records 0
    (((DeckKeyword.create raw.keywordName).setLocation raw.filename raw.lineNR).setDataKeyword
      kw.isDataKeyword) out hlen
    (by
      intro j r d hr hd tpl htpl
      apply hrec j r d hr hd tpl
      simpa using htpl)
  unfold parse
  simp only [hfin, Bool.not_true, Bool.false_eq_true, if_false, hloop]
  refine ⟨_, rfl, ?_⟩
  simp only [DeckKeyword.setFixedSize, DeckKeyword.create, DeckKeyword.setLocation,
    DeckKeyword.setDataKeyword]
  split_ifs <;> simp

theorem parse_records_witness :
    ∃ k, sampleKeyword.parse () sampleRaw = .ok k ∧ k.records = sampleOut :=
  parse_records sampleExtern sampleKeyword () sampleRaw sampleOut (by decide) rfl rfl
    (by
      intro i r d hr hd tpl ht
      have hrecords : sampleKeyword.m_records = [sampleRecordTwo, sampleRecordOne] := rfl
      rw [hrecords] at ht
      rcases i with _ | _ | _ | i
      · simp [sampleRaw, sampleOut] at hr hd ht
        subst hr hd ht
        rfl
      · simp [sampleRaw, sampleOut] at hr hd ht
        subst hr hd ht
        rfl
      · simp [sampleRaw, sampleOut] at hr hd ht
        subst hr hd ht
        rfl
      · simp [sampleRaw] at hr)

/-- C3: on a schema with at least one record template `getRecord(i)` returns
the template at index `i` when `i` is smaller than the number of templates and
the last template otherwise; on a schema without templates it raises an error
for every index. -/
theorem getRecord_spec (X : Extern) (kw : ParserKeyword X) (i : Nat) :
    (∀ r, kw.m_records[i]? = some r → kw.getRecord i = .ok r) ∧
    (∀ r, kw.m_records.length ≤ i → kw.m_records.getLast? = some r → kw.getRecord i = .ok r) ∧
    (kw.m_records = [] → kw.getRecord i = .error .invalid_argument) := by
  refine ⟨?_, ?_, ?_⟩
  · intro r hr
    apply getRecord_clamp
    have hlt : i < kw.m_records.length := (List.getElem?_eq_some_iff.mp hr).1
    rw [Nat.min_eq_left (by omega)]
    exact hr
  · intro r hi hr
    apply getRecord_clamp
    have hne : kw.m_records ≠ [] := by
      intro h0
      rw [h0] at hr
      simp at hr
    have hpos : 0 < kw.m_records.length := List.length_pos.mpr hne
    rw [Nat.min_eq_right (by omega)]
    rw [List.getLast?_eq_getElem?] at hr
    exact hr
  · intro h0
    unfold getRecord
    simp [h0]

theorem getRecord_spec_witness :
    sampleKeyword.getRecord 0 = .ok sampleRecordTwo ∧
    sampleKeyword.getRecord 5 = .ok sampleRecordOne ∧
    (ParserKeyword.new sampleExtern "OIL").getRecord 0 = .error .invalid_argument :=
  ⟨(getRecord_spec sampleExtern sampleKeyword 0).1 sampleRecordTwo rfl,
   (getRecord_spec sampleExtern sampleKeyword 5).2.1 sampleRecordOne (by decide) rfl,
   (getRecord_spec sampleExtern (ParserKeyword.new sampleExtern "OIL") 0).2.2 rfl⟩

/-! ### Construction from a config: the size strategy -/

theorem newJson_inv {X : Extern} {jsonConfig : JsonObject} {kw : ParserKeyword X}
    (h : newJson X jsonConfig = .ok kw) :
    ∃ name kw2 kw3 kw4 kw5 kw6 kw7 kw8,
      jsonConfig.get_string "name" = .ok name ∧
      ParserKeyword.initSize
        (if jsonConfig.has_item "deck_names" || jsonConfig.has_item "deck_name_regex" then
          ((fresh X).commonInit name .UNKNOWN).clearDeckNames
         else (fresh X).commonInit name .UNKNOWN) jsonConfig = .ok kw2 ∧
      kw2.initDeckNames jsonConfig = .ok kw3 ∧
      kw3.initSectionNames jsonConfig = .ok kw4 ∧
      kw4.initMatchRegex jsonConfig = .ok kw5 ∧
      (jsonConfig.has_item "items" && jsonConfig.has_item "records") = false ∧
      (if jsonConfig.has_item "items" then
        ∃ itemsConfig, jsonConfig.get_item "items" = .ok itemsConfig ∧
          kw5.addItems itemsConfig = .ok kw6
       else kw6 = kw5) ∧
      (if jsonConfig.has_item "records" then
        ∃ recordsConfig, jsonConfig.get_item "records" = .ok recordsConfig ∧
          recordsConfig.is_array = true ∧ recordsLoop kw6 recordsConfig.elements? = .ok kw7
       else kw7 = kw6) ∧
      (if jsonConfig.has_item "data" then kw7.initData jsonConfig = .ok kw8 else kw8 = kw7) ∧
      (if jsonConfig.has_item "description" then
        ∃ description, jsonConfig.get_string "description" = .ok description ∧
          kw = { kw8 with m_Description := description }
       else kw = kw8) := by
  unfold newJson at h
  split at h
  · cases h
  split at h
  · cases h
  rename_i name hname
  simp only at h
  split at h
  · cases h
  rename_i kw2 h2
  split at h
  · cases h
  rename_i kw3 h3
  split at h
  · cases h
  rename_i kw4 h4
  split at h
  · cases h
  rename_i kw5 h5
  split at h
  · cases h
  rename_i hir
  split at h
  · cases h
  rename_i kw6 h6
  split at h
  · cases h
  rename_i kw7 h7
  split at h
  · cases h
  rename_i kw8 h8
  refine ⟨name, kw2, kw3, kw4, kw5, kw6, kw7, kw8, hname, h2, h3, h4, h5, by simpa using hir,
    ?_, ?_, ?_, ?_⟩
  · split at h6
    · rename_i hi
      rw [if_pos hi]
      split at h6
      · cases h6
      · rename_i ic hic
        exact ⟨ic, hic, h6⟩
    · rename_i hi
      rw [if_neg hi]
      cases h6
      rfl
  · split at h7
    · rename_i hi
      rw [if_pos hi]
      split at h7
      · cases h7
      · rename_i rc hrc
        split at h7
        · rename_i harr
          exact ⟨rc, hrc, harr, h7⟩
        · cases h7
    · rename_i hi
      rw [if_neg hi]
      cases h7
      rfl
  · split at h8
    · rename_i hi
      rw [if_pos hi]
      exact h8
    · rename_i hi
      rw [if_neg hi]
      cases h8
      rfl
  · split at h
    · rename_i hi
      rw [if_pos hi]
      split at h
      · cases h
      · rename_i d hd
        cases h
        exact ⟨d, hd, rfl⟩
    · rename_i hi
      rw [if_neg hi]
      cases h
      rfl

theorem has_item_of_get_item {j v : JsonObject} {key : String}
    (h : j.get_item key = .ok v) : j.has_item key = true := by
  unfold JsonObject.get_item at h
  unfold JsonObject.has_item
  split at h
  · split at h
    · rename_i hl
      simp [hl]
    · cases h
  · cases h

theorem initDeckNamesLoop_sizeFields {X : Extern} (l : List JsonObject) :
    ∀ (kw kw1 : ParserKeyword X), initDeckNamesLoop kw l = .ok kw1 →
      kw1.sizeFields = kw.sizeFields := by
  induction l with
  | nil =>
    intro kw kw1 h
    simp only [initDeckNamesLoop] at h
    cases h
    rfl
  | cons a rest ih =>
    intro kw kw1 h
    simp only [initDeckNamesLoop] at h
    split at h
    · cases h
    · split at h
      · cases h
      · have e := ih _ _ h
        rw [e]
        rfl

theorem initDeckNames_sizeFields {X : Extern} {kw kw1 : ParserKeyword X} {j : JsonObject}
    (h : kw.initDeckNames j = .ok kw1) : kw1.sizeFields = kw.sizeFields := by
  unfold initDeckNames at h
  split at h
  · cases h
    rfl
  · split at h
    · cases h
    · split at h
      · cases h
      · have := initDeckNamesLoop_sizeFields _ _ _ h
        rw [this]
        split <;> rfl

theorem initSectionNamesLoop_sizeFields {X : Extern} (l : List JsonObject) :
    ∀ (kw kw1 : ParserKeyword X), initSectionNamesLoop kw l = .ok kw1 →
      kw1.sizeFields = kw.sizeFields := by
  induction l with
  | nil =>
    intro kw kw1 h
    simp only [initSectionNamesLoop] at h
    cases h
    rfl
  | cons a rest ih =>
    intro kw kw1 h
    simp only [initSectionNamesLoop] at h
    split at h
    · cases h
    · split at h
      · cases h
      · have e := ih _ _ h
        rw [e]
        rfl

theorem initSectionNames_sizeFields {X : Extern} {kw kw1 : ParserKeyword X} {j : JsonObject}
    (h : kw.initSectionNames j = .ok kw1) : kw1.sizeFields = kw.sizeFields := by
  unfold initSectionNames at h
  split at h
  · cases h
  · split at h
    · cases h
    · split at h
      · cases h
      · have e := initSectionNamesLoop_sizeFields _ _ _ h
        rw [e]
        rfl

theorem setMatchRegex_sizeFields {X : Extern} (kw : ParserKeyword X) (s : String) :
    (kw.setMatchRegex s).sizeFields = kw.sizeFields := by
  unfold setMatchRegex
  split <;> rfl

theorem initMatchRegex_sizeFields {X : Extern} {kw kw1 : ParserKeyword X} {j : JsonObject}
    (h : kw.initMatchRegex j = .ok kw1) : kw1.sizeFields = kw.sizeFields := by
  unfold initMatchRegex at h
  split at h
  · cases h
    rfl
  · split at h
    · cases h
    · split at h
      · cases h
      · split at h
        · cases h
        · cases h
          exact setMatchRegex_sizeFields _ _

theorem addItems_sizeFields {X : Extern} {kw kw1 : ParserKeyword X} {j : JsonObject}
    (h : kw.addItems j = .ok kw1) : kw1.sizeFields = kw.sizeFields := by
  unfold addItems at h
  split at h
  · cases h
  · split at h
    · cases h
    · cases h
      rfl

theorem recordsLoop_sizeFields {X : Extern} (l : List JsonObject) :
    ∀ (kw kw1 : ParserKeyword X), recordsLoop kw l = .ok kw1 →
      kw1.sizeFields = kw.sizeFields := by
  induction l with
  | nil =>
    intro kw kw1 h
    simp only [recordsLoop] at h
    cases h
    rfl
  | cons a rest ih =>
    intro kw kw1 h
    simp only [recordsLoop] at h
    split at h
    · cases h
    · rename_i kw2 h2
      rw [ih _ _ h, addItems_sizeFields h2]

/-- A successful `initData` leaves the keyword with size type `FIXED` and fixed
size 1, and does not touch the keyword reference and the table-collection
flag. -/
theorem initData_sizeFields {X : Extern} {kw kw1 : ParserKeyword X} {j : JsonObject}
    (h : kw.initData j = .ok kw1) :
    kw1.sizeFields = (.FIXED, 1, kw.keyword_size, kw.m_isTableCollection) := by
  unfold initData at h
  simp only at h
  split at h
  · cases h
  · split at h
    · cases h
    · split at h
      · cases h
      · split at h
        · cases h
        · split at h
          · cases h
          · unfold addDataRecord at h
            split at h
            · cases h
              rfl
            · cases h

/-- The size strategy of a keyword built from a config is the one `initSize`
chose, unless the config has a `data` member; then it is `FIXED` with fixed
size 1. -/
theorem newJson_sizeFields {X : Extern} {jsonConfig : JsonObject} {kw : ParserKeyword X}
    (h : newJson X jsonConfig = .ok kw) :
    ∃ name kw2,
      jsonConfig.get_string "name" = .ok name ∧
      ParserKeyword.initSize
        (if jsonConfig.has_item "deck_names" || jsonConfig.has_item "deck_name_regex" then
          ((fresh X).commonInit name .UNKNOWN).clearDeckNames
         else (fresh X).commonInit name .UNKNOWN) jsonConfig = .ok kw2 ∧
      kw.sizeFields =
        (if jsonConfig.has_item "data" then (.FIXED, 1, kw2.keyword_size, kw2.m_isTableCollection)
         else kw2.sizeFields) := by
  obtain ⟨name, kw2, kw3, kw4, kw5, kw6, kw7, kw8, hname, h2, h3, h4, h5, _, h6, h7, h8, h9⟩ :=
    newJson_inv h
  refine ⟨name, kw2, hname, h2, ?_⟩
  have e3 := initDeckNames_sizeFields h3
  have e4 := initSectionNames_sizeFields h4
  have e5 := initMatchRegex_sizeFields h5
  have e6 : kw6.sizeFields = kw5.sizeFields := by
    split at h6
    · obtain ⟨_, _, h6⟩ := h6
      exact addItems_sizeFields h6
    · rw [h6]
  have e7 : kw7.sizeFields = kw6.sizeFields := by
    split at h7
    · obtain ⟨_, _, _, h7⟩ := h7
      exact recordsLoop_sizeFields _ _ _ h7
    · rw [h7]
  have e72 : kw7.sizeFields = kw2.sizeFields := by rw [e7, e6, e5, e4, e3]
  have e9 : kw.sizeFields = kw8.sizeFields := by
    split at h9
    · obtain ⟨_, _, h9⟩ := h9
      rw [h9]
      rfl
    · rw [h9]
  rw [e9]
  split at h8
  · rename_i hd
    rw [if_pos hd, initData_sizeFields h8]
    have := e72
    simp only [sizeFields, Prod.mk.injEq] at this
    simp [this.2.2.1, this.2.2.2]
  · rename_i hd
    rw [if_neg hd, h8, e72]

theorem toSizeT_of_nonneg (n : CInt) (h : 0 ≤ n.val) : n.toSizeT = n.val.toNat := by
  unfold CInt.toSizeT
  have h2 := n.hi
  rw [Int.emod_eq_of_lt h (by omega)]

/-- What `initSizeKeyword(sizeObject)` does on an object: the keyword reference
is the one the object gives, with shift 0 when it gives none. -/
theorem initSizeKeywordJson_object {X : Extern} {kw kw1 : ParserKeyword X} {o : JsonObject}
    (ho : o.is_object = true) (h : kw.initSizeKeywordJson o = .ok kw1) :
    ∃ k i s, o.get_string "keyword" = .ok k ∧ o.get_string "item" = .ok i ∧
      (if o.has_item "shift" then o.get_int "shift" = .ok s else s.val = 0) ∧
      kw1 = kw.initSizeKeyword k i s := by
  unfold initSizeKeywordJson at h
  rw [if_pos ho] at h
  split at h
  · cases h
  · rename_i k hk
    split at h
    · cases h
    · rename_i i hi
      split at h
      · rename_i hs
        split at h
        · cases h
        · rename_i s hsv
          cases h
          exact ⟨k, i, s, hk, hi, by rw [if_pos hs]; exact hsv, rfl⟩
      · rename_i hs
        cases h
        exact ⟨k, i, CInt.zero, hk, hi, by rw [if_neg hs]; rfl, rfl⟩

/-- C4: a schema built from a config with a numeric `size` of value `n ≥ 0` and
no `data` member has `hasFixedSize() == true` and `getFixedSize() == n`,
whatever the other members of the config are. -/
theorem newJson_size_number (X : Extern) (jsonConfig : JsonObject) (kw : ParserKeyword X)
    (n : CInt) (d : Double)
    (hsize : jsonConfig.get_item "size" = .ok (.number n d)) (hn : 0 ≤ n.val)
    (hdata : jsonConfig.has_item "data" = false)
    (hok : newJson X jsonConfig = .ok kw) :
    kw.hasFixedSize = true ∧ kw.getFixedSize = .ok n.val.toNat ∧
      ((n.val.toNat : Nat) : Int) = n.val := by
  obtain ⟨name, kw2, _, h2, hs⟩ := newJson_sizeFields hok
  rw [hdata] at hs
  simp only [Bool.false_eq_true, if_false] at hs
  unfold initSize at h2
  rw [if_pos (has_item_of_get_item hsize), hsize] at h2
  simp only [JsonObject.is_number, if_true, JsonObject.as_int] at h2
  cases h2
  simp only [sizeFields, Prod.mk.injEq] at hs
  have ht : kw.hasFixedSize = true := by simp [hasFixedSize, hs.1]
  refine ⟨ht, ?_, Int.toNat_of_nonneg hn⟩
  unfold getFixedSize
  simp [ht, hs.2.1, toSizeT_of_nonneg n hn]

theorem newJson_size_number_witness :
    (sampleBuild sampleConfigFixed).hasFixedSize = true ∧
      (sampleBuild sampleConfigFixed).getFixedSize = .ok 3 :=
  let h := newJson_size_number sampleExtern sampleConfigFixed (sampleBuild sampleConfigFixed)
    ⟨3, by decide, by decide⟩ ⟨0⟩ rfl (by decide) rfl rfl
  ⟨h.1, h.2.1⟩

/-- C5: a schema built from a config whose `size` is an object and that has no
`data` member has size type `OTHER_KEYWORD_IN_DECK`, its `getKeywordSize()`
holds the keyword and the item of that object, with the shift of the object or
0 when the object has none, and its table-collection flag is false, also when
the config has a `num_tables` member. -/
theorem newJson_size_object (X : Extern) (jsonConfig sizeObject : JsonObject)
    (kw : ParserKeyword X)
    (hsize : jsonConfig.get_item "size" = .ok sizeObject)
    (hobj : sizeObject.is_object = true)
    (hdata : jsonConfig.has_item "data" = false)
    (hok : newJson X jsonConfig = .ok kw) :
    kw.getSizeType = .OTHER_KEYWORD_IN_DECK ∧
    sizeObject.get_string "keyword" = .ok kw.getKeywordSize.keyword ∧
    sizeObject.get_string "item" = .ok kw.getKeywordSize.item ∧
    (if sizeObject.has_item "shift" then sizeObject.get_int "shift" = .ok kw.getKeywordSize.shift
     else kw.getKeywordSize.shift.val = 0) ∧
    kw.isTableCollection = false := by
  obtain ⟨name, kw2, _, h2, hs⟩ := newJson_sizeFields hok
  rw [hdata] at hs
  simp only [Bool.false_eq_true, if_false] at hs
  unfold initSize at h2
  rw [if_pos (has_item_of_get_item hsize), hsize] at h2
  have hnum : sizeObject.is_number = false := by
    cases sizeObject <;> first | rfl | simp [JsonObject.is_object] at hobj
  simp only [hnum, Bool.false_eq_true, if_false] at h2
  obtain ⟨k, i, s, hk, hi, hsft, hkw⟩ := initSizeKeywordJson_object hobj h2
  rw [hkw] at hs
  simp only [sizeFields, Prod.mk.injEq, initSizeKeyword] at hs
  obtain ⟨h1, _, h3, h4⟩ := hs
  refine ⟨h1, ?_, ?_, ?_, ?_⟩
  · show sizeObject.get_string "keyword" = .ok kw.keyword_size.keyword
    rw [h3]
    exact hk
  · show sizeObject.get_string "item" = .ok kw.keyword_size.item
    rw [h3]
    exact hi
  · show (if sizeObject.has_item "shift" then
        sizeObject.get_int "shift" = .ok kw.keyword_size.shift
      else kw.keyword_size.shift.val = 0)
    rw [h3]
    exact hsft
  · show kw.m_isTableCollection = false
    rw [h4]
    split <;> rfl

theorem newJson_size_object_witness :
    sampleConfigReference.has_item "num_tables" = true ∧
    (sampleBuild sampleConfigReference).getSizeType = .OTHER_KEYWORD_IN_DECK ∧
    (sampleBuild sampleConfigReference).getKeywordSize =
      ⟨"EQLDIMS", "NTEQUL", ⟨-1, by decide, by decide⟩⟩ ∧
    (sampleBuild sampleConfigReference).isTableCollection = false :=
  let h := newJson_size_object sampleExtern sampleConfigReference sampleReference
    (sampleBuild sampleConfigReference) rfl rfl rfl rfl
  ⟨rfl, h.1, rfl, h.2.2.2.2⟩

/-- C6: a schema built from a config without `size`, with a `num_tables` object
and without `data` member has size type `OTHER_KEYWORD_IN_DECK`, with the
keyword and the item of that object and with its shift, or 0 when the object
has none, and `isTableCollection()` is true. -/
theorem newJson_num_tables (X : Extern) (jsonConfig numTablesObject : JsonObject)
    (kw : ParserKeyword X)
    (hsize : jsonConfig.has_item "size" = false)
    (htab : jsonConfig.get_item "num_tables" = .ok numTablesObject)
    (hobj : numTablesObject.is_object = true)
    (hdata : jsonConfig.has_item "data" = false)
    (hok : newJson X jsonConfig = .ok kw) :
    kw.getSizeType = .OTHER_KEYWORD_IN_DECK ∧
    numTablesObject.get_string "keyword" = .ok kw.getKeywordSize.keyword ∧
    numTablesObject.get_string "item" = .ok kw.getKeywordSize.item ∧
    (if numTablesObject.has_item "shift" then
      numTablesObject.get_int "shift" = .ok kw.getKeywordSize.shift
     else kw.getKeywordSize.shift.val = 0) ∧
    kw.isTableCollection = true := by
  obtain ⟨name, kw2, _, h2, hs⟩ := newJson_sizeFields hok
  rw [hdata] at hs
  simp only [Bool.false_eq_true, if_false] at hs
  unfold initSize at h2
  rw [hsize] at h2
  simp only [Bool.false_eq_true, if_false] at h2
  rw [if_pos (has_item_of_get_item htab), htab] at h2
  simp only [hobj, Bool.not_true, Bool.false_eq_true, if_false] at h2
  split at h2
  · cases h2
  · rename_i kw1 h1
    cases h2
    obtain ⟨k, i, s, hk, hi, hsft, hkw⟩ := initSizeKeywordJson_object hobj h1
    rw [hkw] at hs
    simp only [sizeFields, Prod.mk.injEq, initSizeKeyword] at hs
    obtain ⟨h1, _, h3, h4⟩ := hs
    refine ⟨h1, ?_, ?_, ?_, h4⟩
    · show numTablesObject.get_string "keyword" = .ok kw.keyword_size.keyword
      rw [h3]
      exact hk
    · show numTablesObject.get_string "item" = .ok kw.keyword_size.item
      rw [h3]
      exact hi
    · show (if numTablesObject.has_item "shift" then
          numTablesObject.get_int "shift" = .ok kw.keyword_size.shift
        else kw.keyword_size.shift.val = 0)
      rw [h3]
      exact hsft

theorem newJson_num_tables_witness :
    (sampleBuild sampleConfigTables).getSizeType = .OTHER_KEYWORD_IN_DECK ∧
    (sampleBuild sampleConfigTables).getKeywordSize = ⟨"TABDIMS", "NTPVT", CInt.zero⟩ ∧
    (sampleBuild sampleConfigTables).isTableCollection = true :=
  let h := newJson_num_tables sampleExtern sampleConfigTables sampleTables
    (sampleBuild sampleConfigTables) rfl rfl rfl rfl rfl
  ⟨h.1, rfl, h.2.2.2.2⟩

/-- C7: a schema built from a config with neither `size` nor `num_tables` has
size type `SLASH_TERMINATED` when `items` or `records` is present and `data`
is not; it is `FIXED` with fixed size 1 when `data` is present; and it is
`FIXED` with fixed size 0 when none of `items`, `records` and `data` is
present. -/
theorem newJson_no_size (X : Extern) (jsonConfig : JsonObject) (kw : ParserKeyword X)
    (hsize : jsonConfig.has_item "size" = false)
    (htab : jsonConfig.has_item "num_tables" = false)
    (hok : newJson X jsonConfig = .ok kw) :
    ((jsonConfig.has_item "items" = true ∨ jsonConfig.has_item "records" = true) →
      jsonConfig.has_item "data" = false → kw.getSizeType = .SLASH_TERMINATED) ∧
    (jsonConfig.has_item "data" = true →
      kw.getSizeType = .FIXED ∧ kw.getFixedSize = .ok 1) ∧
    (jsonConfig.has_item "items" = false → jsonConfig.has_item "records" = false →
      jsonConfig.has_item "data" = false →
      kw.getSizeType = .FIXED ∧ kw.getFixedSize = .ok 0) := by
  obtain ⟨name, kw2, _, h2, hs⟩ := newJson_sizeFields hok
  unfold initSize at h2
  rw [hsize, htab] at h2
  simp only [Bool.false_eq_true, if_false] at h2
  refine ⟨?_, ?_, ?_⟩
  · intro hir hdata
    have : (jsonConfig.has_item "items" || jsonConfig.has_item "records") = true := by
      rcases hir with h | h <;> simp [h]
    rw [if_pos this] at h2
    cases h2
    rw [hdata] at hs
    simp only [Bool.false_eq_true, if_false, sizeFields, Prod.mk.injEq] at hs
    exact hs.1
  · intro hdata
    rw [if_pos hdata] at hs
    simp only [sizeFields, Prod.mk.injEq] at hs
    refine ⟨hs.1, ?_⟩
    simp [getFixedSize, hasFixedSize, hs.1, hs.2.1]
  · intro hi hr hdata
    rw [hi, hr, hdata] at h2
    simp only [Bool.or_self, Bool.false_eq_true, if_false] at h2
    cases h2
    rw [hdata] at hs
    simp only [Bool.false_eq_true, if_false, sizeFields, Prod.mk.injEq] at hs
    refine ⟨hs.1, ?_⟩
    simp [getFixedSize, hasFixedSize, hs.1, hs.2.1]

theorem newJson_no_size_witness :
    (sampleBuild sampleConfigItems).getSizeType = .SLASH_TERMINATED ∧
    ((sampleBuild sampleConfigData).getSizeType = .FIXED ∧
      (sampleBuild sampleConfigData).getFixedSize = .ok 1) ∧
    ((sampleBuild sampleConfigEmpty).getSizeType = .FIXED ∧
      (sampleBuild sampleConfigEmpty).getFixedSize = .ok 0) :=
  ⟨(newJson_no_size sampleExtern sampleConfigItems (sampleBuild sampleConfigItems)
      rfl rfl rfl).1 (Or.inl rfl) rfl,
   (newJson_no_size sampleExtern sampleConfigData (sampleBuild sampleConfigData)
      rfl rfl rfl).2.1 rfl,
   (newJson_no_size sampleExtern sampleConfigEmpty (sampleBuild sampleConfigEmpty)
      rfl rfl rfl).2.2 rfl rfl rfl⟩

/-! ### Equality -/

theorem std_equal_iff (xs : List ParserRecord) :
    ∀ ys, xs.length = ys.length → (std_equal xs ys = true ↔ xs = ys) := by
  induction xs with
  | nil =>
    intro ys h
    have : ys = [] := List.length_eq_zero.mp (by simpa using h.symm)
    simp [std_equal, this]
  | cons x xs ih =>
    intro ys h
    cases ys with
    | nil => simp at h
    | cons y ys =>
      have := ih ys (by simpa using h)
      simp [std_equal, this]

theorem list_eq_iff_pairwise (xs ys : List ParserRecord) :
    xs = ys ↔ (xs.length = ys.length ∧
      ∀ (i : Nat) ra rb, xs[i]? = some ra → ys[i]? = some rb → ra = rb) := by
  constructor
  · rintro rfl
    refine ⟨rfl, ?_⟩
    intro i ra rb ha hb
    rw [ha] at hb
    exact Option.some.inj hb
  · rintro ⟨hlen, h⟩
    apply List.ext_getElem hlen
    intro i h1 h2
    exact h i _ _ (List.getElem?_eq_getElem h1) (List.getElem?_eq_getElem h2)

/-- C8: `a == b` holds exactly when the deck-name sets are equal, the names,
regex source strings, size types, `isDataKeyword()` values and table-collection
flags are equal, the fixed sizes are equal when the size type is `FIXED`, the
keyword references (keyword, item, shift) are equal when it is
`OTHER_KEYWORD_IN_DECK`, and the record templates have the same number and are
pairwise equal in order; `a != b` is the negation of `a == b`. -/
theorem operatorEq_iff (X : Extern) (a b : ParserKeyword X) :
    (a.operatorEq b = true ↔
      (a.m_deckNames = b.m_deckNames ∧
       a.m_name = b.m_name ∧
       a.m_matchRegexString = b.m_matchRegexString ∧
       a.m_keywordSizeType = b.m_keywordSizeType ∧
       a.isDataKeyword = b.isDataKeyword ∧
       a.m_isTableCollection = b.m_isTableCollection ∧
       (a.m_keywordSizeType = .FIXED → a.m_fixedSize = b.m_fixedSize) ∧
       (a.m_keywordSizeType = .OTHER_KEYWORD_IN_DECK →
         a.keyword_size.keyword = b.keyword_size.keyword ∧
         a.keyword_size.item = b.keyword_size.item ∧
         a.keyword_size.shift = b.keyword_size.shift) ∧
       a.m_records.length = b.m_records.length ∧
       ∀ (i : Nat) ra rb, a.m_records[i]? = some ra → b.m_records[i]? = some rb → ra = rb)) ∧
    a.operatorNe b = !(a.operatorEq b) := by
  refine ⟨?_, rfl⟩
  have hks : a.keyword_size = b.keyword_size ↔
      (a.keyword_size.keyword = b.keyword_size.keyword ∧
       a.keyword_size.item = b.keyword_size.item ∧
       a.keyword_size.shift = b.keyword_size.shift) := by
    cases a.keyword_size
    cases b.keyword_size
    simp
  rw [← hks, ← list_eq_iff_pairwise]
  unfold operatorEq
  by_cases h1 : a.m_deckNames = b.m_deckNames
  swap
  · simp [h1]
  by_cases h2 : a.m_name = b.m_name
  swap
  · simp [h1, h2]
  by_cases h3 : a.m_matchRegexString = b.m_matchRegexString
  swap
  · simp [h1, h2, h3]
  by_cases h4 : a.m_keywordSizeType = b.m_keywordSizeType
  swap
  · simp [h1, h2, h3, h4]
  by_cases h5 : a.isDataKeyword = b.isDataKeyword
  swap
  · simp [h1, h2, h3, h4, h5]
  by_cases h6 : a.m_isTableCollection = b.m_isTableCollection
  swap
  · simp [h1, h2, h3, h4, h5, h6]
  by_cases h9 : a.m_records.length = b.m_records.length
  swap
  · have : a.m_records ≠ b.m_records := fun h => h9 (by rw [h])
    simp [h1, h2, h3, h4, h5, h6, h9, this]
  have hrec := std_equal_iff a.m_records b.m_records h9
  cases ht : a.m_keywordSizeType <;>
    simp [h1, h2, h3, h6, h9, hrec, ← h4, ht, ← h5]

theorem operatorEq_iff_witness :
    sampleNamesA.operatorEq sampleNamesB = true ∧
      sampleNamesA.operatorNe sampleNamesB = false :=
  ⟨((operatorEq_iff sampleExtern sampleNamesA sampleNamesB).1).2
      ⟨by decide, rfl, rfl, rfl, rfl, rfl, fun _ => rfl, fun _ => ⟨rfl, rfl, rfl⟩, rfl,
        fun i ra rb ha _ => by simp [sampleNamesA, ParserKeyword.new, addDeckName, commonInit,
          fresh] at ha⟩,
   by decide⟩

/-! ### Deck names -/

/-- The position `find_if` returns is the only one that has no separator
before it and is either the end of the list or the place of a separator. -/
theorem find_if_unique (p : Char → Bool) (l : List Char) (k : Nat)
    (hk : k ≤ l.length)
    (hbefore : ∀ i c, i < k → l[i]? = some c → p c = false)
    (hat : ∀ c, l[k]? = some c → p c = true) :
    find_if p l = k := by
  induction l generalizing k with
  | nil =>
    simp at hk
    simp [find_if, hk]
  | cons a rest ih =>
    unfold find_if
    cases k with
    | zero =>
      have := hat a (by simp)
      simp [this]
    | succ k =>
      have ha := hbefore 0 a (by omega) (by simp)
      simp only [ha, Bool.false_eq_true, if_false, Nat.add_right_cancel_iff]
      apply ih
      · simpa using hk
      · intro i c hi hc
        exact hbefore (i + 1) c (by omega) (by simpa using hc)
      · intro c hc
        exact hat c (by simpa using hc)

/-- C9: with `k` the position of the first separator of the token, or its
length when it has none, `getDeckName` returns the first `min k 9` characters;
"WATER1 REST" gives "WATER1" when the blank is a separator and no character
of "WATER1" is; a token of 9 or more characters without separator gives its
first 9 characters. -/
theorem getDeckName_eq_take (X : Extern) :
    (∀ (t : String) (k : Nat), k ≤ t.length →
      (∀ i c, i < k → t.data[i]? = some c → X.is_separator c = false) →
      (∀ c, t.data[k]? = some c → X.is_separator c = true) →
      getDeckName X t = ⟨t.data.take (min k 9)⟩) ∧
    (X.is_separator ' ' = true → (∀ c ∈ "WATER1".data, X.is_separator c = false) →
      getDeckName X "WATER1 REST" = "WATER1") ∧
    (∀ t : String, (∀ c ∈ t.data, X.is_separator c = false) → 9 ≤ t.length →
      getDeckName X t = ⟨t.data.take 9⟩) := by
  have main : ∀ (t : String) (k : Nat), k ≤ t.length →
      (∀ i c, i < k → t.data[i]? = some c → X.is_separator c = false) →
      (∀ c, t.data[k]? = some c → X.is_separator c = true) →
      getDeckName X t = ⟨t.data.take (min k 9)⟩ := by
    intro t k hk hbefore hat
    have hf := find_if_unique X.is_separator t.data k hk hbefore hat
    unfold getDeckName
    simp only [hf]
    by_cases h9 : k < 9
    · simp [h9, Nat.min_eq_left (Nat.le_of_lt h9)]
    · simp [h9, Nat.min_eq_right (Nat.le_of_not_lt h9)]
  refine ⟨main, ?_, ?_⟩
  · intro hsp hno
    have := main "WATER1 REST" 6 (by decide)
      (by
        intro i c hi hc
        apply hno
        have : i = 0 ∨ i = 1 ∨ i = 2 ∨ i = 3 ∨ i = 4 ∨ i = 5 := by omega
        rcases this with h | h | h | h | h | h <;> subst h <;> simp at hc <;> subst hc <;> decide)
      (by
        intro c hc
        simp at hc
        subst hc
        exact hsp)
    rw [this]
    decide
  · intro t hno h9
    have := main t t.length (Nat.le_refl _)
      (by
        intro i c _ hc
        exact hno c (List.mem_iff_getElem?.mpr ⟨i, hc⟩))
      (by
        intro c hc
        have : t.data[t.length]? = none := by
          apply List.getElem?_eq_none
          exact Nat.le_refl _
        rw [this] at hc
        cases hc)
    rw [this, Nat.min_eq_right h9]

theorem getDeckName_eq_take_witness :
    getDeckName sampleExtern "WATER1 REST" = "WATER1" ∧
      getDeckName sampleExtern "PERMXYZ12345" = "PERMXYZ12" :=
  ⟨(getDeckName_eq_take sampleExtern).2.1 (by decide) (by decide),
   (getDeckName_eq_take sampleExtern).2.2 "PERMXYZ12345" (by decide) (by decide)⟩

/-- C10: for a non-empty name `validDeckName` returns a boolean; it is true
exactly when `validNameStart` is true and every character after the first is
alphanumeric or one of `-`, `_`, `+`; and `validNameStart` is true exactly when
the length is at most `maxKeywordLength` and the first character is
alphabetic. -/
theorem validDeckName_iff (X : Extern) (name : String) (hne : name ≠ "") :
    (∃ b, validDeckName X name = some b) ∧
    (validDeckName X name = some true ↔
      (validNameStart X name = some true ∧
        ∀ c ∈ name.data.tail, isalnum c = true ∨ c = '-' ∨ c = '_' ∨ c = '+')) ∧
    (validNameStart X name = some true ↔
      (name.length ≤ X.maxKeywordLength ∧
        ∃ c, name.data.head? = some c ∧ isalpha c = true)) := by
  obtain ⟨l⟩ := name
  cases l with
  | nil => exact absurd rfl hne
  | cons a rest =>
    have hstart : validNameStart X ⟨a :: rest⟩ =
        some (decide ((a :: rest).length ≤ X.maxKeywordLength) && isalpha a) := by
      unfold validNameStart charAt
      have hlen : String.length ⟨a :: rest⟩ = (a :: rest).length := rfl
      rw [hlen]
      by_cases hl : (a :: rest).length ≤ X.maxKeywordLength
      · have h1 : ¬ ((a :: rest).length > X.maxKeywordLength) := by omega
        rw [if_neg h1]
        simp only [List.length_cons] at hl
        cases ha : isalpha a <;> simp [hl, ha]
      · have h1 : (a :: rest).length > X.maxKeywordLength := by omega
        rw [if_pos h1]
        simp only [List.length_cons] at hl
        simp [hl]
    have hdeck : validDeckName X ⟨a :: rest⟩ =
        some ((decide ((a :: rest).length ≤ X.maxKeywordLength) && isalpha a) &&
          rest.all (fun c => isalnum c || c == '-' || c == '_' || c == '+')) := by
      unfold validDeckName
      rw [hstart]
      cases hb : (decide ((a :: rest).length ≤ X.maxKeywordLength) && isalpha a) <;>
        simp [fromSecond]
    refine ⟨⟨_, hdeck⟩, ?_, ?_⟩
    · rw [hdeck, hstart]
      simp [List.all_eq_true, String.length, or_assoc]
    · rw [hstart]
      simp [String.length]

theorem validDeckName_iff_witness :
    validDeckName sampleExtern "WELL-A_1" = some true ∧
      validDeckName sampleExtern "WELL A" = some false :=
  ⟨((validDeckName_iff sampleExtern "WELL-A_1" (by decide)).2.1).2 (by decide),
   by decide⟩

/-! ### Internal names and totality of matching -/

/-- C11: `validInternalName(n)` is true exactly when `n` has at least 2
characters, its first character is alphabetic and every later character is
alphanumeric or an underscore; it is false for every name that starts with a
digit and for every name shorter than 2 characters, the empty name
included. -/
theorem validInternalName_iff (n : String) :
    (validInternalName n = true ↔
      (2 ≤ n.length ∧ (∃ c, n.data.head? = some c ∧ isalpha c = true) ∧
        ∀ c ∈ n.data.tail, isalnum c = true ∨ c = '_')) ∧
    (∀ (d : Char) (rest : List Char), d.isDigit = true →
      validInternalName ⟨d :: rest⟩ = false) ∧
    (n.length < 2 → validInternalName n = false) ∧
    validInternalName "" = false := by
  refine ⟨?_, ?_, ?_, by decide⟩
  · obtain ⟨l⟩ := n
    unfold validInternalName
    have hlen : String.length ⟨l⟩ = l.length := rfl
    rw [hlen]
    by_cases h2 : l.length < 2
    · rw [if_pos h2]
      simp only [Bool.false_eq_true, false_iff, not_and]
      intro h
      omega
    · rw [if_neg h2]
      cases l with
      | nil => simp at h2
      | cons a rest =>
        cases ha : isalpha a
        · simp [ha]
        · have h2' : 1 ≤ rest.length := by
            simp only [List.length_cons] at h2
            omega
          simp [ha, h2', List.all_eq_true]
  · intro d rest hd
    unfold validInternalName
    split
    · rfl
    · simp [isalpha_of_isDigit d hd]
  · intro h
    unfold validInternalName
    rw [if_pos h]

theorem validInternalName_iff_witness :
    validInternalName "A" = false ∧ validInternalName "9AB" = false :=
  ⟨(validInternalName_iff "A").2.2.1 (by decide),
   (validInternalName_iff "").2.1 '9' ['A', 'B'] (by decide)⟩

/-- C12, at the empty name: `validNameStart` reads `name[0]` of a view of length
0, a position outside the view, and so do `validDeckName` and `matches`, which
call it first; none of them returns a boolean there. -/
theorem matches_empty_reads_outside (X : Extern) (kw : ParserKeyword X) :
    charAt "" 0 = none ∧ validNameStart X "" = none ∧ validDeckName X "" = none ∧
      kw.matches "" = none := by
  have h1 : validNameStart X "" = none := by
    unfold validNameStart charAt
    simp
  have h2 : validDeckName X "" = none := by
    unfold validDeckName
    rw [h1]
  refine ⟨rfl, h1, h2, ?_⟩
  unfold ParserKeyword.matches
  rw [h2]

/-! ### Attaching a data record -/

/-- C15: `addDataRecord(record)` appends the record as the new last template
when the size type is `FIXED` and the fixed size is 1; in every other state it
raises an error and leaves the object as it was. -/
theorem addDataRecord_spec (X : Extern) (kw : ParserKeyword X) (record : ParserRecord) :
    (kw.m_keywordSizeType = .FIXED → kw.m_fixedSize = 1 →
      kw.addDataRecord record = .ok { kw with m_records := kw.m_records ++ [record] } ∧
      kw.addDataRecordAfter record = { kw with m_records := kw.m_records ++ [record] } ∧
      (kw.addDataRecordAfter record).m_records.getLast? = some record) ∧
    (¬ (kw.m_keywordSizeType = .FIXED ∧ kw.m_fixedSize = 1) →
      kw.addDataRecord record = .error .invalid_argument ∧
      kw.addDataRecordAfter record = kw) := by
  constructor
  · intro ht hn
    unfold addDataRecord addDataRecordAfter addRecord
    simp [ht, hn]
  · intro h
    have hc : (kw.m_keywordSizeType == .FIXED && kw.m_fixedSize == 1) = false := by
      cases hb : (kw.m_keywordSizeType == .FIXED && kw.m_fixedSize == 1)
      · rfl
      · exfalso
        apply h
        simpa using hb
    unfold addDataRecord addDataRecordAfter
    simp [hc]

theorem addDataRecord_spec_witness :
    (sampleFixedThree.addDataRecord sampleRecordOne = .error .invalid_argument ∧
      sampleFixedThree.addDataRecordAfter sampleRecordOne = sampleFixedThree) ∧
    ((sampleFixedThree.setFixedSize 1).addDataRecordAfter sampleRecordTwo).m_records.getLast? =
      some sampleRecordTwo :=
  ⟨(addDataRecord_spec sampleExtern sampleFixedThree sampleRecordOne).2 (by decide),
   ((addDataRecord_spec sampleExtern (sampleFixedThree.setFixedSize 1) sampleRecordTwo).1
      rfl rfl).2.2⟩

/-! ### The size flags of a parsed keyword -/

/-- A loop of `parse` that succeeds appends one record for every raw record and
changes nothing else of the keyword. -/
theorem parseLoop_inv {X : Extern} (kw : ParserKeyword X) (ctx : X.ParseContext) :
    ∀ (rest : List RawRecord) (n : Nat) (keyword k1 : DeckKeyword),
      parseLoop kw ctx rest n keyword = .ok k1 →
      ∃ outs : List DeckRecord, outs.length = rest.length ∧
        k1 = { keyword with records := keyword.records ++ outs } := by
  intro rest
  induction rest with
  | nil =>
    intro n keyword k1 h
    simp only [parseLoop] at h
    cases h
    exact ⟨[], rfl, by simp⟩
  | cons raw rest ih =>
    intro n keyword k1 h
    simp only [parseLoop] at h
    split at h
    · cases h
    · split at h
      · cases h
      · split at h
        · cases h
        · rename_i d _
          obtain ⟨outs, hlen, hk⟩ := ih _ _ _ h
          refine ⟨d :: outs, by simp [hlen], ?_⟩
          rw [hk]
          simp [DeckKeyword.addRecord]

/-- What a successful `parse` returns: one record for every raw record, the
name and the location of the raw occurrence, the data-keyword flag of the
schema, and the fixed-size flag set by one of the three tests at the end of
`parse`. -/
theorem parse_inv {X : Extern} {kw : ParserKeyword X} {ctx : X.ParseContext}
    {raw : RawKeyword} {k : DeckKeyword} (h : kw.parse ctx raw = .ok k) :
    raw.isFinished = true ∧ k.records.length = raw.records.length ∧
    k.name = raw.keywordName ∧ k.isDataKeyword = kw.isDataKeyword ∧
    k.fixedSize = (kw.hasFixedSize ||
      (kw.m_keywordSizeType == .OTHER_KEYWORD_IN_DECK && !kw.m_isTableCollection) ||
      kw.m_keywordSizeType == .UNKNOWN) := by
  unfold parse at h
  split at h
  · cases h
  · rename_i hfin
    simp only at h
    split at h
    · cases h
    · rename_i k1 hloop
      obtain ⟨outs, hlen, hk⟩ := parseLoop_inv kw ctx _ _ _ _ hloop
      cases h
      refine ⟨by simpa using hfin, ?_, ?_, ?_, ?_⟩
      · rw [hk]
        split_ifs <;>
          simp [DeckKeyword.setFixedSize, DeckKeyword.create, DeckKeyword.setLocation,
            DeckKeyword.setDataKeyword, hlen]
      · rw [hk]
        split_ifs <;> rfl
      · rw [hk]
        split_ifs <;> rfl
      · rw [hk]
        cases hf : kw.hasFixedSize <;> cases ht : kw.m_keywordSizeType <;>
          cases hc : kw.m_isTableCollection <;>
          simp [DeckKeyword.setFixedSize, DeckKeyword.create, DeckKeyword.setLocation,
            DeckKeyword.setDataKeyword]

/-- On a schema without record template the loop of `parse` raises an error at
the first raw record: "missing item information" when the record is not
empty, and the error of `getRecord` when it is. -/
theorem parseLoop_no_template {X : Extern} (kw : ParserKeyword X) (ctx : X.ParseContext)
    (h0 : kw.m_records = []) (a : RawRecord) (rest : List RawRecord) (n : Nat)
    (keyword : DeckKeyword) :
    parseLoop kw ctx (a :: rest) n keyword = .error .invalid_argument := by
  have hget : kw.getRecord n = .error .invalid_argument := by
    unfold getRecord
    simp [h0]
  simp only [parseLoop, hget]
  split <;> rfl

/-- C17: `parse` raises an error and returns no output keyword when the raw
occurrence is not finished, whatever its records are, and when the schema has
no record template and some raw record of the occurrence is not empty. -/
theorem parse_structural_error (X : Extern) (kw : ParserKeyword X) (ctx : X.ParseContext)
    (raw : RawKeyword) :
    (raw.isFinished = false → kw.parse ctx raw = .error .invalid_argument) ∧
    (kw.m_records = [] → (∃ r ∈ raw.records, 0 < r.size) →
      kw.parse ctx raw = .error .invalid_argument) := by
  constructor
  · intro hfin
    unfold parse
    simp [hfin]
  · intro h0 hex
    obtain ⟨r, hr, _⟩ := hex
    unfold parse
    split
    · rfl
    · cases hrec : raw.records with
      | nil =>
        rw [hrec] at hr
        cases hr
      | cons a rest =>
        simp only [parseLoop_no_template kw ctx h0 a rest]

theorem parse_structural_error_witness :
    sampleFixedThree.parse () sampleRawOpen = .error .invalid_argument ∧
    (ParserKeyword.new sampleExtern "OIL").parse () sampleRawShort = .error .invalid_argument :=
  ⟨(parse_structural_error sampleExtern sampleFixedThree () sampleRawOpen).1 rfl,
   (parse_structural_error sampleExtern (ParserKeyword.new sampleExtern "OIL") ()
     sampleRawShort).2 rfl ⟨⟨["2000"]⟩, by decide, by decide⟩⟩

/-- C18, the claim at a concrete input: a schema of fixed size 3 parses a
finished raw occurrence with one record into an output keyword with one
record, not three. -/
theorem parse_fixed_counterexample :
    sampleFixedThree.getFixedSize = .ok 3 ∧ sampleRawShort.isFinished = true ∧
    ∃ k, sampleFixedThree.parse () sampleRawShort = .ok k ∧ k.records.length = 1 ∧
      k.records.length ≠ 3 :=
  ⟨rfl, rfl, _, rfl, rfl, by decide⟩

/-- C18, amended: on a schema of size type `FIXED` a successful `parse` of a
finished raw occurrence returns an output keyword with as many records as the
raw occurrence has, and with the fixed-size flag set. -/
theorem parse_fixed (X : Extern) (kw : ParserKeyword X) (ctx : X.ParseContext)
    (raw : RawKeyword) (k : DeckKeyword)
    (ht : kw.m_keywordSizeType = .FIXED) (hok : kw.parse ctx raw = .ok k) :
    k.records.length = raw.records.length ∧ k.fixedSize = true := by
  obtain ⟨_, hlen, _, _, hfix⟩ := parse_inv hok
  refine ⟨hlen, ?_⟩
  rw [hfix]
  simp [hasFixedSize, ht]

theorem parse_fixed_witness :
    ∃ k, sampleFixedThree.parse () sampleRawShort = .ok k ∧
      k.records.length = sampleRawShort.records.length ∧ k.fixedSize = true :=
  ⟨_, rfl, parse_fixed sampleExtern sampleFixedThree () sampleRawShort _ rfl rfl⟩

/-- C19, the claim at a concrete input: a `SLASH_TERMINATED` schema that is no
table collection parses a finished raw occurrence into an output keyword whose
fixed-size flag is not set. -/
theorem parse_slash_counterexample :
    sampleKeyword.getSizeType = .SLASH_TERMINATED ∧ sampleKeyword.isTableCollection = false ∧
    sampleRaw.isFinished = true ∧
    ∃ k, sampleKeyword.parse () sampleRaw = .ok k ∧ k.fixedSize = false :=
  ⟨rfl, rfl, rfl, _, rfl, rfl⟩

/-- C19, amended: on a `SLASH_TERMINATED` schema a successful `parse` of a
finished raw occurrence returns an output keyword with as many records as the
raw occurrence has, and does not set its fixed-size flag, whatever the
table-collection flag of the schema is. -/
theorem parse_slash (X : Extern) (kw : ParserKeyword X) (ctx : X.ParseContext)
    (raw : RawKeyword) (k : DeckKeyword)
    (ht : kw.m_keywordSizeType = .SLASH_TERMINATED) (hok : kw.parse ctx raw = .ok k) :
    k.records.length = raw.records.length ∧ k.fixedSize = false := by
  obtain ⟨_, hlen, _, _, hfix⟩ := parse_inv hok
  refine ⟨hlen, ?_⟩
  rw [hfix]
  simp [hasFixedSize, ht]

theorem parse_slash_witness :
    ∃ k, sampleKeyword.parse () sampleRaw = .ok k ∧
      k.records.length = sampleRaw.records.length ∧ k.fixedSize = false :=
  ⟨_, rfl, parse_slash sampleExtern sampleKeyword () sampleRaw _ rfl rfl⟩

/-- C20: after a successful `parse` the fixed-size flag of the output keyword is
set when the size type of the schema is `UNKNOWN` or `OTHER_KEYWORD_IN_DECK`
and its table-collection flag is false, and it is not set when the size type
is `OTHER_KEYWORD_IN_DECK` and the table-collection flag is true. -/
theorem parse_sized_flag (X : Extern) (kw : ParserKeyword X) (ctx : X.ParseContext)
    (raw : RawKeyword) (k : DeckKeyword) (hok : kw.parse ctx raw = .ok k) :
    ((kw.m_keywordSizeType = .UNKNOWN ∨ kw.m_keywordSizeType = .OTHER_KEYWORD_IN_DECK) →
      kw.m_isTableCollection = false → k.fixedSize = true) ∧
    (kw.m_keywordSizeType = .OTHER_KEYWORD_IN_DECK → kw.m_isTableCollection = true →
      k.fixedSize = false) := by
  obtain ⟨_, _, _, _, hfix⟩ := parse_inv hok
  rw [hfix]
  constructor
  · intro ht hc
    rcases ht with ht | ht <;> simp [hasFixedSize, ht, hc]
  · intro ht hc
    simp [hasFixedSize, ht, hc]

theorem parse_sized_flag_witness :
    (∃ k, sampleSized.parse () sampleRawShort = .ok k ∧ k.fixedSize = true) ∧
    (∃ k, sampleTableCollection.parse () sampleRawShort = .ok k ∧ k.fixedSize = false) :=
  ⟨⟨_, rfl, (parse_sized_flag sampleExtern sampleSized () sampleRawShort _ rfl).1
      (Or.inr rfl) rfl⟩,
   ⟨_, rfl, (parse_sized_flag sampleExtern sampleTableCollection () sampleRawShort _ rfl).2
      rfl rfl⟩⟩

/-! ### Construction from a config: names and regex -/

theorem initSizeKeywordJson_matchFields {X : Extern} {kw kw1 : ParserKeyword X} {o : JsonObject}
    (h : kw.initSizeKeywordJson o = .ok kw1) : kw1.matchFields = kw.matchFields := by
  unfold initSizeKeywordJson at h
  split at h
  · split at h
    · cases h
    · split at h
      · cases h
      · split at h
        · split at h
          · cases h
          · cases h
            rfl
        · cases h
          rfl
  · split at h
    · cases h
    · split at h
      · cases h
      · cases h
        rfl

theorem initSize_matchFields {X : Extern} {kw kw1 : ParserKeyword X} {j : JsonObject}
    (h : kw.initSize j = .ok kw1) : kw1.matchFields = kw.matchFields := by
  unfold initSize at h
  split at h
  · split at h
    · cases h
    · split at h
      · split at h
        · cases h
        · cases h
          rfl
      · exact initSizeKeywordJson_matchFields h
  · split at h
    · split at h
      · cases h
      · split at h
        · cases h
        · split at h
          · cases h
          · rename_i kw2 h2
            cases h
            have e := initSizeKeywordJson_matchFields h2
            rw [← e]
            rfl
    · split at h
      · cases h
        rfl
      · split at h
        · cases h
          rfl
        · cases h
          rfl

theorem initSectionNamesLoop_matchFields {X : Extern} (l : List JsonObject) :
    ∀ (kw kw1 : ParserKeyword X), initSectionNamesLoop kw l = .ok kw1 →
      kw1.matchFields = kw.matchFields := by
  induction l with
  | nil =>
    intro kw kw1 h
    simp only [initSectionNamesLoop] at h
    cases h
    rfl
  | cons a rest ih =>
    intro kw kw1 h
    simp only [initSectionNamesLoop] at h
    split at h
    · cases h
    · split at h
      · cases h
      · have e := ih _ _ h
        rw [e]
        rfl

theorem initSectionNames_matchFields {X : Extern} {kw kw1 : ParserKeyword X} {j : JsonObject}
    (h : kw.initSectionNames j = .ok kw1) : kw1.matchFields = kw.matchFields := by
  unfold initSectionNames at h
  split at h
  · cases h
  · split at h
    · cases h
    · split at h
      · cases h
      · have e := initSectionNamesLoop_matchFields _ _ _ h
        rw [e]
        rfl

theorem addItems_matchFields {X : Extern} {kw kw1 : ParserKeyword X} {j : JsonObject}
    (h : kw.addItems j = .ok kw1) : kw1.matchFields = kw.matchFields := by
  unfold addItems at h
  split at h
  · cases h
  · split at h
    · cases h
    · cases h
      rfl

theorem recordsLoop_matchFields {X : Extern} (l : List JsonObject) :
    ∀ (kw kw1 : ParserKeyword X), recordsLoop kw l = .ok kw1 →
      kw1.matchFields = kw.matchFields := by
  induction l with
  | nil =>
    intro kw kw1 h
    simp only [recordsLoop] at h
    cases h
    rfl
  | cons a rest ih =>
    intro kw kw1 h
    simp only [recordsLoop] at h
    split at h
    · cases h
    · rename_i kw2 h2
      rw [ih _ _ h, addItems_matchFields h2]

theorem initData_matchFields {X : Extern} {kw kw1 : ParserKeyword X} {j : JsonObject}
    (h : kw.initData j = .ok kw1) : kw1.matchFields = kw.matchFields := by
  unfold initData at h
  simp only at h
  split at h
  · cases h
  · split at h
    · cases h
    · split at h
      · cases h
      · split at h
        · cases h
        · split at h
          · cases h
          · unfold addDataRecord at h
            split at h
            · cases h
              rfl
            · cases h

/-- The loop of `initDeckNames` adds the strings of the list to the deck names
and changes neither the name nor the regex. -/
theorem initDeckNamesLoop_spec {X : Extern} (l : List JsonObject) :
    ∀ (kw kw1 : ParserKeyword X), initDeckNamesLoop kw l = .ok kw1 →
      kw1.m_name = kw.m_name ∧ kw1.m_matchRegexString = kw.m_matchRegexString ∧
      kw1.m_matchRegex = kw.m_matchRegex ∧
      ∀ s, s ∈ kw1.m_deckNames ↔ (s ∈ kw.m_deckNames ∨ JsonObject.string s ∈ l) := by
  induction l with
  | nil =>
    intro kw kw1 h
    simp only [initDeckNamesLoop] at h
    cases h
    simp
  | cons a rest ih =>
    intro kw kw1 h
    simp only [initDeckNamesLoop] at h
    split at h
    · cases h
    · split at h
      · cases h
      · rename_i deckName hname
        obtain ⟨h1, h2, h3, h4⟩ := ih _ _ h
        refine ⟨h1, h2, h3, ?_⟩
        intro s
        rw [h4]
        have ha : a = JsonObject.string deckName := by
          cases a <;> simp [JsonObject.as_string] at hname
          rw [hname]
        subst ha
        simp only [addDeckName, Finset.mem_insert, List.mem_cons, JsonObject.string.injEq]
        tauto

/-- What `initDeckNames` does to the deck names: nothing without a `deck_names`
member; with a list, the strings of the list are the deck names, next to
the former deck names when the list is empty. -/
theorem initDeckNames_spec {X : Extern} {kw kw1 : ParserKeyword X} {j : JsonObject}
    (h : kw.initDeckNames j = .ok kw1) :
    kw1.m_name = kw.m_name ∧ kw1.m_matchRegexString = kw.m_matchRegexString ∧
    kw1.m_matchRegex = kw.m_matchRegex ∧
    (j.has_item "deck_names" = false → kw1.m_deckNames = kw.m_deckNames) ∧
    (∀ l, j.get_item "deck_names" = .ok (.array l) →
      ∀ s, s ∈ kw1.m_deckNames ↔ ((l = [] ∧ s ∈ kw.m_deckNames) ∨ JsonObject.string s ∈ l)) := by
  unfold initDeckNames at h
  split at h
  · rename_i hno
    cases h
    refine ⟨rfl, rfl, rfl, fun _ => rfl, ?_⟩
    intro l hl
    have := has_item_of_get_item hl
    simp [this] at hno
  · rename_i hhas
    split at h
    · cases h
    · rename_i namesObject hget
      split at h
      · cases h
      · obtain ⟨h1, h2, h3, h4⟩ := initDeckNamesLoop_spec _ _ _ h
        refine ⟨?_, ?_, ?_, ?_, ?_⟩
        · rw [h1]
          split <;> rfl
        · rw [h2]
          split <;> rfl
        · rw [h3]
          split <;> rfl
        · intro hno
          simp [hno] at hhas
        · intro l hl s
          rw [hl] at hget
          cases hget
          rw [h4]
          simp only [JsonObject.elements?, JsonObject.size]
          cases l with
          | nil => simp
          | cons a rest => simp

/-- What `initMatchRegex` does: nothing without a `deck_name_regex` member; with
a string, what `setMatchRegex` does with it. -/
theorem initMatchRegex_spec {X : Extern} {kw kw1 : ParserKeyword X} {j : JsonObject}
    (h : kw.initMatchRegex j = .ok kw1) :
    kw1.m_name = kw.m_name ∧ kw1.m_deckNames = kw.m_deckNames ∧
    (j.has_item "deck_name_regex" = false → kw1 = kw) ∧
    (∀ p, j.get_item "deck_name_regex" = .ok (.string p) → kw1 = kw.setMatchRegex p) := by
  unfold initMatchRegex at h
  split at h
  · rename_i hno
    cases h
    refine ⟨rfl, rfl, fun _ => rfl, ?_⟩
    intro p hp
    have := has_item_of_get_item hp
    simp [this] at hno
  · rename_i hhas
    split at h
    · cases h
    · rename_i o hget
      split at h
      · cases h
      · split at h
        · cases h
        · rename_i str hstr
          cases h
          refine ⟨?_, ?_, ?_, ?_⟩
          · unfold setMatchRegex
            split <;> rfl
          · unfold setMatchRegex
            split <;> rfl
          · intro hno
            simp [hno] at hhas
          · intro p hp
            rw [hp] at hget
            cases hget
            simp only [JsonObject.as_string] at hstr
            cases hstr
            rfl

/-- The names and the regex of a keyword built from a config are those that
`initDeckNames` and `initMatchRegex` leave; no other step of the constructor
touches them. -/
theorem newJson_matchFields {X : Extern} {jsonConfig : JsonObject} {kw : ParserKeyword X}
    (h : newJson X jsonConfig = .ok kw) :
    ∃ (name : String) (kw2 kw3 kw4 kw5 : ParserKeyword X),
      jsonConfig.get_string "name" = .ok name ∧
      kw2.matchFields =
        (if jsonConfig.has_item "deck_names" || jsonConfig.has_item "deck_name_regex" then
          ((fresh X).commonInit name .UNKNOWN).clearDeckNames
         else (fresh X).commonInit name .UNKNOWN).matchFields ∧
      kw2.initDeckNames jsonConfig = .ok kw3 ∧
      kw4.matchFields = kw3.matchFields ∧
      kw4.initMatchRegex jsonConfig = .ok kw5 ∧
      kw.matchFields = kw5.matchFields := by
  obtain ⟨name, kw2, kw3, kw4, kw5, kw6, kw7, kw8, hname, h2, h3, h4, h5, _, h6, h7, h8, h9⟩ :=
    newJson_inv h
  refine ⟨name, kw2, kw3, kw4, kw5, hname, initSize_matchFields h2, h3,
    initSectionNames_matchFields h4, h5, ?_⟩
  have e6 : kw6.matchFields = kw5.matchFields := by
    split at h6
    · obtain ⟨_, _, h6⟩ := h6
      exact addItems_matchFields h6
    · rw [h6]
  have e7 : kw7.matchFields = kw6.matchFields := by
    split at h7
    · obtain ⟨_, _, _, h7⟩ := h7
      exact recordsLoop_matchFields _ _ _ h7
    · rw [h7]
  have e8 : kw8.matchFields = kw7.matchFields := by
    split at h8
    · exact initData_matchFields h8
    · rw [h8]
  have e9 : kw.matchFields = kw8.matchFields := by
    split at h9
    · obtain ⟨_, _, h9⟩ := h9
      rw [h9]
      rfl
    · rw [h9]
  rw [e9, e8, e7, e6]

theorem has_item_of_get_string {j : JsonObject} {key s : String}
    (h : j.get_string key = .ok s) : j.has_item key = true := by
  unfold JsonObject.get_string at h
  split at h
  · rename_i v hv
    exact has_item_of_get_item hv
  · cases h

/-- The converse of `newJson_inv`: when every step of the constructor succeeds,
the constructor returns the keyword the last step leaves. -/
theorem newJson_intro {X : Extern} {jsonConfig : JsonObject} {kw : ParserKeyword X}
    (name : String) (kw2 kw3 kw4 kw5 kw6 kw7 kw8 : ParserKeyword X)
    (hname : jsonConfig.get_string "name" = .ok name)
    (h2 : ParserKeyword.initSize
        (if jsonConfig.has_item "deck_names" || jsonConfig.has_item "deck_name_regex" then
          ((fresh X).commonInit name .UNKNOWN).clearDeckNames
         else (fresh X).commonInit name .UNKNOWN) jsonConfig = .ok kw2)
    (h3 : kw2.initDeckNames jsonConfig = .ok kw3)
    (h4 : kw3.initSectionNames jsonConfig = .ok kw4)
    (h5 : kw4.initMatchRegex jsonConfig = .ok kw5)
    (hir : (jsonConfig.has_item "items" && jsonConfig.has_item "records") = false)
    (h6 : if jsonConfig.has_item "items" then
        ∃ itemsConfig, jsonConfig.get_item "items" = .ok itemsConfig ∧
          kw5.addItems itemsConfig = .ok kw6
       else kw6 = kw5)
    (h7 : if jsonConfig.has_item "records" then
        ∃ recordsConfig, jsonConfig.get_item "records" = .ok recordsConfig ∧
          recordsConfig.is_array = true ∧ recordsLoop kw6 recordsConfig.elements? = .ok kw7
       else kw7 = kw6)
    (h8 : if jsonConfig.has_item "data" then kw7.initData jsonConfig = .ok kw8 else kw8 = kw7)
    (h9 : if jsonConfig.has_item "description" then
        ∃ description, jsonConfig.get_string "description" = .ok description ∧
          kw = { kw8 with m_Description := description }
       else kw = kw8) :
    newJson X jsonConfig = .ok kw := by
  unfold newJson
  have hn := has_item_of_get_string hname
  simp only [hn, Bool.not_true, Bool.false_eq_true, if_false, hname, h2, h3, h4, h5, hir]
  have e6 : (if jsonConfig.has_item "items" = true then
      match jsonConfig.get_item "items" with
      | .error e => .error e
      | .ok itemsConfig => kw5.addItems itemsConfig
    else .ok kw5 : Except Error (ParserKeyword X)) = .ok kw6 := by
    split at h6
    · rename_i hi
      obtain ⟨ic, hic, ha⟩ := h6
      simp only [hi, if_true, hic, ha]
    · rename_i hi
      rw [if_neg hi, h6]
  have e7 : (if jsonConfig.has_item "records" = true then
      match jsonConfig.get_item "records" with
      | .error e => .error e
      | .ok recordsConfig =>
        if recordsConfig.is_array = true then recordsLoop kw6 recordsConfig.elements?
        else .error .invalid_argument
    else .ok kw6 : Except Error (ParserKeyword X)) = .ok kw7 := by
    split at h7
    · rename_i hi
      obtain ⟨rc, hrc, harr, ha⟩ := h7
      simp only [hi, if_true, hrc, harr, ha]
    · rename_i hi
      rw [if_neg hi, h7]
  have e8 : (if jsonConfig.has_item "data" = true then kw7.initData jsonConfig else .ok kw7 :
      Except Error (ParserKeyword X)) = .ok kw8 := by
    split at h8
    · rename_i hi
      simp only [hi, if_true, h8]
    · rename_i hi
      rw [if_neg hi, h8]
  simp only [e6, e7, e8]
  split at h9
  · rename_i hi
    obtain ⟨d, hd, hk⟩ := h9
    simp only [hi, if_true, hd, hk]
  · rename_i hi
    rw [if_neg hi, h9]

/-- C13: on a keyword built from a config, the accepted deck names are exactly
the name of the keyword when the config has neither `deck_names` nor
`deck_name_regex`, and exactly the entries of `deck_names` when that is a
non-empty list. -/
theorem newJson_deckNames (X : Extern) (jsonConfig : JsonObject) (kw : ParserKeyword X)
    (hok : newJson X jsonConfig = .ok kw) :
    (jsonConfig.has_item "deck_names" = false →
      jsonConfig.has_item "deck_name_regex" = false →
      ∃ name, jsonConfig.get_string "name" = .ok name ∧ kw.m_deckNames = {name}) ∧
    (∀ l, jsonConfig.get_item "deck_names" = .ok (.array l) → l ≠ [] →
      (∀ s, s ∈ kw.m_deckNames ↔ JsonObject.string s ∈ l) ∧
      (kw.m_name ∈ kw.m_deckNames ↔ JsonObject.string kw.m_name ∈ l)) := by
  obtain ⟨name, kw2, kw3, kw4, kw5, hname, e2, h3, e4, h5, e⟩ := newJson_matchFields hok
  obtain ⟨_, _, _, hno, hlist⟩ := initDeckNames_spec h3
  obtain ⟨_, hd5, _, _⟩ := initMatchRegex_spec h5
  simp only [matchFields, Prod.mk.injEq] at e e2 e4
  have hkw : kw.m_deckNames = kw3.m_deckNames := by rw [e.2.1, hd5, e4.2.1]
  constructor
  · intro h1 h2
    refine ⟨name, hname, ?_⟩
    rw [hkw, hno h1, e2.2.1]
    simp [h1, h2, commonInit, fresh]
  · intro l hl hne
    have hall : ∀ s, s ∈ kw.m_deckNames ↔ JsonObject.string s ∈ l := by
      intro s
      rw [hkw, hlist l hl s]
      simp [hne]
    exact ⟨hall, hall _⟩

theorem newJson_deckNames_witness :
    (sampleBuild sampleConfigEmpty).m_deckNames = {"OIL"} ∧
    (∀ s, s ∈ (sampleBuild sampleConfigNames).m_deckNames ↔
      JsonObject.string s ∈ [JsonObject.string "SWATINIT", JsonObject.string "SWL"]) ∧
    "SWAT" ∉ (sampleBuild sampleConfigNames).m_deckNames :=
  ⟨by decide,
   ((newJson_deckNames sampleExtern sampleConfigNames (sampleBuild sampleConfigNames) rfl).2
     _ rfl (by simp)).1,
   by decide⟩

/-- C14: when `deck_name_regex` is a string that does not compile,
`initMatchRegex` returns and leaves the keyword as it is, so the constructor
succeeds whenever its other steps do; the keyword built has
`hasMatchRegex() == false`, and `matches(c)` is true exactly when
`validDeckName(c)` holds and `c` is an accepted deck name. -/
theorem newJson_malformed_regex (X : Extern) (jsonConfig : JsonObject) (p : String)
    (hre : jsonConfig.get_item "deck_name_regex" = .ok (.string p))
    (hbad : X.compile p = none) :
    (∀ kw : ParserKeyword X, kw.initMatchRegex jsonConfig = .ok kw) ∧
    (∀ (name : String) (kw2 kw3 kw4 kw6 kw7 kw8 kw : ParserKeyword X),
      jsonConfig.get_string "name" = .ok name →
      ParserKeyword.initSize (((fresh X).commonInit name .UNKNOWN).clearDeckNames) jsonConfig =
        .ok kw2 →
      kw2.initDeckNames jsonConfig = .ok kw3 →
      kw3.initSectionNames jsonConfig = .ok kw4 →
      (jsonConfig.has_item "items" && jsonConfig.has_item "records") = false →
      (if jsonConfig.has_item "items" then
        ∃ itemsConfig, jsonConfig.get_item "items" = .ok itemsConfig ∧
          kw4.addItems itemsConfig = .ok kw6
       else kw6 = kw4) →
      (if jsonConfig.has_item "records" then
        ∃ recordsConfig, jsonConfig.get_item "records" = .ok recordsConfig ∧
          recordsConfig.is_array = true ∧ recordsLoop kw6 recordsConfig.elements? = .ok kw7
       else kw7 = kw6) →
      (if jsonConfig.has_item "data" then kw7.initData jsonConfig = .ok kw8 else kw8 = kw7) →
      (if jsonConfig.has_item "description" then
        ∃ description, jsonConfig.get_string "description" = .ok description ∧
          kw = { kw8 with m_Description := description }
       else kw = kw8) →
      newJson X jsonConfig = .ok kw) ∧
    (∀ kw, newJson X jsonConfig = .ok kw →
      kw.hasMatchRegex = false ∧
      ∀ c, (kw.matches c = some true ↔
        (validDeckName X c = some true ∧ c ∈ kw.m_deckNames))) := by
  have hhas := has_item_of_get_item hre
  have hstep : ∀ kw : ParserKeyword X, kw.initMatchRegex jsonConfig = .ok kw := by
    intro kw
    unfold initMatchRegex
    simp only [hhas, Bool.not_true, Bool.false_eq_true, if_false, hre, JsonObject.is_string,
      JsonObject.as_string]
    unfold setMatchRegex
    rw [hbad]
  refine ⟨hstep, ?_, ?_⟩
  · intro name kw2 kw3 kw4 kw6 kw7 kw8 kw hname h2 h3 h4 hir h6 h7 h8 h9
    apply newJson_intro name kw2 kw3 kw4 kw4 kw6 kw7 kw8 hname _ h3 h4 (hstep kw4) hir h6 h7 h8 h9
    simp only [hhas, Bool.or_true, if_true]
    exact h2
  · intro kw hok
    obtain ⟨name, kw2, kw3, kw4, kw5, hname, e2, h3, e4, h5, e⟩ := newJson_matchFields hok
    obtain ⟨_, hr3, _, _, _⟩ := initDeckNames_spec h3
    rw [hstep kw4] at h5
    cases h5
    simp only [matchFields, Prod.mk.injEq] at e e2 e4
    have hstr : kw.m_matchRegexString = "" := by
      rw [e.2.2.1, e4.2.2.1, hr3, e2.2.2.1]
      split <;> rfl
    have hno : kw.hasMatchRegex = false := by
      unfold hasMatchRegex
      rw [hstr]
      rfl
    refine ⟨hno, ?_⟩
    intro c
    unfold ParserKeyword.matches
    constructor
    · intro h
      split at h
      · cases h
      · cases h
      · rename_i hv
        refine ⟨hv, ?_⟩
        by_cases hm : c ∈ kw.m_deckNames
        · exact hm
        · simp [hm, hno] at h
    · rintro ⟨hv, hm⟩
      rw [hv]
      simp [hm]

theorem newJson_malformed_regex_witness :
    sampleExtern.compile "TVDP(" = none ∧
    ParserKeyword.newJson sampleExtern sampleConfigBadRegex =
      .ok (sampleBuild sampleConfigBadRegex) ∧
    (sampleBuild sampleConfigBadRegex).hasMatchRegex = false ∧
    (sampleBuild sampleConfigBadRegex).matches "TVDPF" = some true :=
  ⟨rfl, rfl,
   ((newJson_malformed_regex sampleExtern sampleConfigBadRegex "TVDP(" rfl rfl).2.2
     (sampleBuild sampleConfigBadRegex) rfl).1,
   by decide⟩

/-- When `initData` succeeds: exactly when the `data` member has a `value_type`
that names a value type and the record for it can be built; the keyword it
leaves is `FIXED` with fixed size 1 and has that record as its last one.  The
size the keyword had plays no part. -/
theorem initData_ok_iff {X : Extern} (kw kw1 : ParserKeyword X) (jsonConfig : JsonObject) :
    kw.initData jsonConfig = .ok kw1 ↔
      ∃ dataConfig str valueType record,
        jsonConfig.get_item "data" = .ok dataConfig ∧
        dataConfig.has_item "value_type" = true ∧
        dataConfig.get_string "value_type" = .ok str ∧
        X.ParserValueTypeEnumFromString str = .ok valueType ∧
        initDataRecord dataConfig valueType = .ok record ∧
        kw1 = { kw with m_fixedSize := 1, m_keywordSizeType := .FIXED,
                        m_records := kw.m_records ++ [record] } := by
  constructor
  · intro h
    unfold initData at h
    simp only at h
    split at h
    · cases h
    · rename_i dataConfig hd
      split at h
      · cases h
      · rename_i hv
        split at h
        · cases h
        · rename_i str hstr
          split at h
          · cases h
          · rename_i valueType hvt
            split at h
            · cases h
            · rename_i record hrec
              refine ⟨dataConfig, str, valueType, record, hd, by simpa using hv, hstr, hvt,
                hrec, ?_⟩
              simp only [addDataRecord, beq_self_eq_true, Bool.and_self, if_true] at h
              cases h
              rfl
  · rintro ⟨dataConfig, str, valueType, record, hd, hv, hstr, hvt, hrec, hk⟩
    unfold initData
    simp only [hd, hv, Bool.not_true, Bool.false_eq_true, if_false, hstr, hvt, hrec,
      addDataRecord, beq_self_eq_true, Bool.and_self, if_true, hk]
    rfl

/-- C16, the claim at a concrete input: a config with `data`, a numeric `size`
of 3 and `items` is built into a schema. -/
theorem newJson_data_with_size_counterexample :
    sampleConfigSizeData.has_item "data" = true ∧
    sampleConfigSizeData.has_item "items" = true ∧
    sampleConfigSizeData.get_item "size" =
      .ok (.number ⟨3, by decide, by decide⟩ ⟨0⟩) ∧
    ∃ kw, ParserKeyword.newJson sampleExtern sampleConfigSizeData = .ok kw ∧
      kw.getFixedSize = .ok 1 :=
  ⟨rfl, rfl, rfl, _, rfl, rfl⟩

/-- C16, amended: `initData` sets the size to `FIXED` with fixed size 1 before it
attaches the data record, so the size that `size`, `num_tables`, `items` or
`records` chose makes neither its success nor its result different: it
succeeds exactly when the `data` member is well-formed, and a keyword built
from a config with `data` is `FIXED` with fixed size 1. -/
theorem newJson_data_overrides_size (X : Extern) (jsonConfig : JsonObject) :
    (∀ (kw : ParserKeyword X) (t : ParserKeywordSizeEnum) (n : Nat),
      ParserKeyword.initData { kw with m_keywordSizeType := t, m_fixedSize := n } jsonConfig =
        kw.initData jsonConfig) ∧
    (∀ kw : ParserKeyword X, (∃ kw1, kw.initData jsonConfig = .ok kw1) ↔
      ∃ dataConfig str valueType record,
        jsonConfig.get_item "data" = .ok dataConfig ∧
        dataConfig.has_item "value_type" = true ∧
        dataConfig.get_string "value_type" = .ok str ∧
        X.ParserValueTypeEnumFromString str = .ok valueType ∧
        initDataRecord dataConfig valueType = .ok record) ∧
    (∀ kw : ParserKeyword X, jsonConfig.has_item "data" = true →
      newJson X jsonConfig = .ok kw →
      kw.getSizeType = .FIXED ∧ kw.getFixedSize = .ok 1) := by
  refine ⟨?_, ?_, ?_⟩
  · intro kw t n
    rfl
  · intro kw
    constructor
    · rintro ⟨kw1, h⟩
      obtain ⟨d, s, v, r, h1, h2, h3, h4, h5, _⟩ := (initData_ok_iff kw kw1 jsonConfig).mp h
      exact ⟨d, s, v, r, h1, h2, h3, h4, h5⟩
    · rintro ⟨d, s, v, r, h1, h2, h3, h4, h5⟩
      exact ⟨_, (initData_ok_iff kw _ jsonConfig).mpr ⟨d, s, v, r, h1, h2, h3, h4, h5, rfl⟩⟩
  · intro kw hdata hok
    obtain ⟨name, kw2, _, h2, hs⟩ := newJson_sizeFields hok
    rw [if_pos hdata] at hs
    simp only [sizeFields, Prod.mk.injEq] at hs
    refine ⟨hs.1, ?_⟩
    simp [getFixedSize, hasFixedSize, hs.1, hs.2.1]

theorem newJson_data_overrides_size_witness :
    (sampleBuild sampleConfigSizeData).getSizeType = .FIXED ∧
      (sampleBuild sampleConfigSizeData).getFixedSize = .ok 1 :=
  (newJson_data_overrides_size sampleExtern sampleConfigSizeData).2.2
    (sampleBuild sampleConfigSizeData) rfl rfl

/-! ### The data-keyword flag -/

/-- C21: after a successful `parse` the data-keyword flag of the output keyword
is `isDataKeyword()` of the schema, which is true exactly when the schema has
a first record template and that is a data record; it is false for a schema
without record template. -/
theorem parse_dataKeyword (X : Extern) (kw : ParserKeyword X) (ctx : X.ParseContext)
    (raw : RawKeyword) (k : DeckKeyword) (hok : kw.parse ctx raw = .ok k) :
    k.isDataKeyword = kw.isDataKeyword ∧
    (k.isDataKeyword = true ↔
      ∃ r rest, kw.m_records = r :: rest ∧ r.isDataRecord = true) ∧
    (kw.m_records = [] → k.isDataKeyword = false) := by
  obtain ⟨_, _, _, hdata, _⟩ := parse_inv hok
  refine ⟨hdata, ?_, ?_⟩
  · rw [hdata]
    unfold isDataKeyword
    cases h : kw.m_records with
    | nil => simp
    | cons r rest => simp
  · intro h0
    rw [hdata]
    unfold isDataKeyword
    rw [h0]

theorem parse_dataKeyword_witness :
    (∃ k, sampleDataKeyword.parse () sampleRawShort = .ok k ∧ k.isDataKeyword = true) ∧
    (∃ k, sampleKeyword.parse () sampleRaw = .ok k ∧ k.isDataKeyword = false) :=
  ⟨⟨_, rfl, ((parse_dataKeyword sampleExtern sampleDataKeyword () sampleRawShort _ rfl).2.1).2
      ⟨_, _, rfl, rfl⟩⟩,
   ⟨_, rfl, (parse_dataKeyword sampleExtern sampleKeyword () sampleRaw _ rfl).1⟩⟩

/-! ### Construction from a config: invariants and errors -/

/-- C27: the constructor fails on every config that has both an `items` and a
`records` member. -/
theorem newJson_items_and_records (X : Extern) (jsonConfig : JsonObject)
    (hi : jsonConfig.has_item "items" = true) (hr : jsonConfig.has_item "records" = true) :
    (∃ e, newJson X jsonConfig = .error e) ∧ ∀ kw, newJson X jsonConfig ≠ .ok kw := by
  have hno : ∀ kw, newJson X jsonConfig ≠ .ok kw := by
    intro kw h
    obtain ⟨_, _, _, _, _, _, _, _, _, _, _, _, _, hir, _⟩ := newJson_inv h
    simp [hi, hr] at hir
  refine ⟨?_, hno⟩
  cases h : newJson X jsonConfig with
  | error e => exact ⟨e, rfl⟩
  | ok kw => exact absurd h (hno kw)

theorem newJson_items_and_records_witness :
    ∃ e, ParserKeyword.newJson sampleExtern sampleConfigItemsRecords = .error e :=
  (newJson_items_and_records sampleExtern sampleConfigItemsRecords rfl rfl).1

theorem initDeckNamesLoop_strings {X : Extern} (l : List JsonObject) :
    ∀ (kw kw1 : ParserKeyword X), initDeckNamesLoop kw l = .ok kw1 →
      ∀ e ∈ l, e.is_string = true := by
  induction l with
  | nil =>
    intro kw kw1 _ e he
    cases he
  | cons a rest ih =>
    intro kw kw1 h e he
    simp only [initDeckNamesLoop] at h
    split at h
    · cases h
    · rename_i ha
      split at h
      · cases h
      · rcases List.mem_cons.mp he with rfl | hr
        · simpa using ha
        · exact ih _ _ h e hr

/-- When `initDeckNames` succeeds, every entry of the `deck_names` list is a
string. -/
theorem initDeckNames_strings {X : Extern} {kw kw1 : ParserKeyword X} {j : JsonObject}
    (h : kw.initDeckNames j = .ok kw1) :
    ∀ l, j.get_item "deck_names" = .ok (.array l) → ∀ e ∈ l, e.is_string = true := by
  intro l hl
  unfold initDeckNames at h
  rw [has_item_of_get_item hl, hl] at h
  simp only [Bool.not_true, Bool.false_eq_true, if_false, JsonObject.is_array,
    JsonObject.elements?] at h
  exact initDeckNamesLoop_strings _ _ _ h

/-- C23, the claim at a concrete input: a config with a `deck_name_regex` and
without `deck_names` is built into a schema with no accepted deck name. -/
theorem newJson_no_deckName_counterexample :
    ∃ kw, ParserKeyword.newJson sampleExtern sampleConfigRegexOnly = .ok kw ∧
      kw.m_deckNames = ∅ :=
  ⟨_, rfl, by decide⟩

/-- C23, amended: a schema built from a config has an accepted deck name when
the config has neither `deck_names` nor `deck_name_regex`, and when
`deck_names` is a non-empty list; it has none when the config has a
`deck_name_regex` and no `deck_names`, and when `deck_names` is an empty
list. -/
theorem newJson_deckNames_nonempty (X : Extern) (jsonConfig : JsonObject)
    (kw : ParserKeyword X) (hok : newJson X jsonConfig = .ok kw) :
    (jsonConfig.has_item "deck_names" = false →
      jsonConfig.has_item "deck_name_regex" = false → kw.m_deckNames.Nonempty) ∧
    (∀ l, jsonConfig.get_item "deck_names" = .ok (.array l) → l ≠ [] →
      kw.m_deckNames.Nonempty) ∧
    (jsonConfig.has_item "deck_names" = false →
      jsonConfig.has_item "deck_name_regex" = true → kw.m_deckNames = ∅) ∧
    (jsonConfig.get_item "deck_names" = .ok (.array []) → kw.m_deckNames = ∅) := by
  obtain ⟨name, kw2, kw3, kw4, kw5, hname, e2, h3, e4, h5, e⟩ := newJson_matchFields hok
  obtain ⟨_, _, _, hno, hlist⟩ := initDeckNames_spec h3
  obtain ⟨_, hd5, _, _⟩ := initMatchRegex_spec h5
  simp only [matchFields, Prod.mk.injEq] at e e2 e4
  have hkw : kw.m_deckNames = kw3.m_deckNames := by rw [e.2.1, hd5, e4.2.1]
  refine ⟨?_, ?_, ?_, ?_⟩
  · intro h1 h2
    rw [hkw, hno h1, e2.2.1]
    simp [h1, h2, commonInit, fresh]
  · intro l hl hne
    cases l with
    | nil => exact absurd rfl hne
    | cons a rest =>
      obtain ⟨hstr, _, _, _, _⟩ := initDeckNames_spec h3
      have hmem := hlist (a :: rest) hl
      have ha : ∃ s, a = JsonObject.string s := by
        have hall := initDeckNames_strings h3 (a :: rest) hl a (by simp)
        cases a <;> simp [JsonObject.is_string] at hall
        exact ⟨_, rfl⟩
      obtain ⟨s, rfl⟩ := ha
      exact ⟨s, by rw [hkw, hmem s]; simp⟩
  · intro h1 h2
    rw [hkw, hno h1, e2.2.1]
    simp [h1, h2, commonInit, fresh, clearDeckNames]
  · intro hl
    have hhas := has_item_of_get_item hl
    apply Finset.eq_empty_of_forall_not_mem
    intro s hs
    rw [hkw, hlist [] hl s, e2.2.1] at hs
    simp [hhas, clearDeckNames] at hs

theorem newJson_deckNames_nonempty_witness :
    (sampleBuild sampleConfigNames).m_deckNames.Nonempty ∧
    (sampleBuild sampleConfigNoNames).m_deckNames = ∅ :=
  ⟨(newJson_deckNames_nonempty sampleExtern sampleConfigNames (sampleBuild sampleConfigNames)
      rfl).2.1 _ rfl (by simp),
   (newJson_deckNames_nonempty sampleExtern sampleConfigNoNames (sampleBuild sampleConfigNoNames)
      rfl).2.2.2 rfl⟩

/-! ### Construction from a config: sections -/

theorem initSectionNamesLoop_spec {X : Extern} (l : List JsonObject) :
    ∀ (kw kw1 : ParserKeyword X), initSectionNamesLoop kw l = .ok kw1 →
      (∀ e ∈ l, e.is_string = true) ∧
      ∀ s, s ∈ kw1.m_validSectionNames ↔
        (s ∈ kw.m_validSectionNames ∨ JsonObject.string s ∈ l) := by
  induction l with
  | nil =>
    intro kw kw1 h
    simp only [initSectionNamesLoop] at h
    cases h
    simp
  | cons a rest ih =>
    intro kw kw1 h
    simp only [initSectionNamesLoop] at h
    split at h
    · cases h
    · rename_i hstr
      split at h
      · cases h
      · rename_i sectionName hname
        obtain ⟨h1, h2⟩ := ih _ _ h
        have ha : a = JsonObject.string sectionName := by
          cases a <;> simp [JsonObject.as_string] at hname
          rw [hname]
        subst ha
        constructor
        · intro e he
          rcases List.mem_cons.mp he with rfl | hr
          · rfl
          · exact h1 e hr
        · intro s
          rw [h2]
          simp only [addValidSectionName, Finset.mem_insert, List.mem_cons,
            JsonObject.string.injEq]
          tauto

/-- The loop of `initSectionNames` fails on a list that has an entry that is
not a string. -/
theorem initSectionNamesLoop_error {X : Extern} (l : List JsonObject) :
    ∀ (kw : ParserKeyword X), (∃ e ∈ l, e.is_string = false) →
      initSectionNamesLoop kw l = .error .invalid_argument := by
  induction l with
  | nil =>
    intro kw h
    obtain ⟨e, he, _⟩ := h
    cases he
  | cons a rest ih =>
    intro kw h
    simp only [initSectionNamesLoop]
    cases ha : a.is_string
    · simp
    · have hs : ∃ s, a = JsonObject.string s := by
        cases a <;> simp [JsonObject.is_string] at ha
        exact ⟨_, rfl⟩
      obtain ⟨s, rfl⟩ := hs
      simp only [Bool.not_true, Bool.false_eq_true, if_false, JsonObject.as_string]
      apply ih
      obtain ⟨e, he, hfalse⟩ := h
      rcases List.mem_cons.mp he with rfl | hr
      · simp [JsonObject.is_string] at hfalse
      · exact ⟨e, hr, hfalse⟩

/-- The loop of `initSectionNames` succeeds on a list of strings. -/
theorem initSectionNamesLoop_ok {X : Extern} (l : List JsonObject) :
    ∀ (kw : ParserKeyword X), (∀ e ∈ l, e.is_string = true) →
      ∃ kw1, initSectionNamesLoop kw l = .ok kw1 := by
  induction l with
  | nil =>
    intro kw _
    exact ⟨kw, rfl⟩
  | cons a rest ih =>
    intro kw h
    have ha := h a (by simp)
    have hs : ∃ s, a = JsonObject.string s := by
      cases a <;> simp [JsonObject.is_string] at ha
      exact ⟨_, rfl⟩
    obtain ⟨s, rfl⟩ := hs
    simp only [initSectionNamesLoop, JsonObject.is_string, Bool.not_true, Bool.false_eq_true,
      if_false, JsonObject.as_string]
    exact ih _ (fun e he => h e (List.mem_cons_of_mem _ he))

/-- What a successful `initSectionNames` found and left: `sections` is a list of
strings, and they are the valid sections. -/
theorem initSectionNames_spec {X : Extern} {kw kw1 : ParserKeyword X} {j : JsonObject}
    (h : kw.initSectionNames j = .ok kw1) :
    ∃ l, j.get_item "sections" = .ok (.array l) ∧ (∀ e ∈ l, e.is_string = true) ∧
      ∀ s, s ∈ kw1.m_validSectionNames ↔ JsonObject.string s ∈ l := by
  unfold initSectionNames at h
  split at h
  · cases h
  · split at h
    · cases h
    · rename_i o hget
      split at h
      · cases h
      · rename_i harr
        have ho : ∃ l, o = JsonObject.array l := by
          cases o <;> simp [JsonObject.is_array] at harr
          exact ⟨_, rfl⟩
        obtain ⟨l, rfl⟩ := ho
        obtain ⟨h1, h2⟩ := initSectionNamesLoop_spec _ _ _ h
        refine ⟨l, hget, h1, ?_⟩
        intro s
        rw [h2]
        simp [clearValidSectionNames, JsonObject.elements?]

theorem setMatchRegex_sections {X : Extern} (kw : ParserKeyword X) (s : String) :
    (kw.setMatchRegex s).m_validSectionNames = kw.m_validSectionNames ∧
    (kw.setMatchRegex s).m_records = kw.m_records := by
  unfold setMatchRegex
  split <;> exact ⟨rfl, rfl⟩

theorem initMatchRegex_sections {X : Extern} {kw kw1 : ParserKeyword X} {j : JsonObject}
    (h : kw.initMatchRegex j = .ok kw1) :
    kw1.m_validSectionNames = kw.m_validSectionNames ∧ kw1.m_records = kw.m_records := by
  unfold initMatchRegex at h
  split at h
  · cases h
    exact ⟨rfl, rfl⟩
  · split at h
    · cases h
    · split at h
      · cases h
      · split at h
        · cases h
        · cases h
          exact setMatchRegex_sections _ _

theorem addItems_sections {X : Extern} {kw kw1 : ParserKeyword X} {j : JsonObject}
    (h : kw.addItems j = .ok kw1) : kw1.m_validSectionNames = kw.m_validSectionNames := by
  unfold addItems at h
  split at h
  · cases h
  · split at h
    · cases h
    · cases h
      rfl

theorem recordsLoop_sections {X : Extern} (l : List JsonObject) :
    ∀ (kw kw1 : ParserKeyword X), recordsLoop kw l = .ok kw1 →
      kw1.m_validSectionNames = kw.m_validSectionNames := by
  induction l with
  | nil =>
    intro kw kw1 h
    simp only [recordsLoop] at h
    cases h
    rfl
  | cons a rest ih =>
    intro kw kw1 h
    simp only [recordsLoop] at h
    split at h
    · cases h
    · rename_i kw2 h2
      rw [ih _ _ h, addItems_sections h2]

/-- The valid sections of a keyword built from a config are those that
`initSectionNames` leaves. -/
theorem newJson_sections {X : Extern} {jsonConfig : JsonObject} {kw : ParserKeyword X}
    (h : newJson X jsonConfig = .ok kw) :
    ∃ kw3 kw4 : ParserKeyword X, kw3.initSectionNames jsonConfig = .ok kw4 ∧
      kw.m_validSectionNames = kw4.m_validSectionNames := by
  obtain ⟨name, kw2, kw3, kw4, kw5, kw6, kw7, kw8, hname, h2, h3, h4, h5, _, h6, h7, h8, h9⟩ :=
    newJson_inv h
  refine ⟨kw3, kw4, h4, ?_⟩
  have e5 := (initMatchRegex_sections h5).1
  have e6 : kw6.m_validSectionNames = kw5.m_validSectionNames := by
    split at h6
    · obtain ⟨_, _, h6⟩ := h6
      exact addItems_sections h6
    · rw [h6]
  have e7 : kw7.m_validSectionNames = kw6.m_validSectionNames := by
    split at h7
    · obtain ⟨_, _, _, h7⟩ := h7
      exact recordsLoop_sections _ _ _ h7
    · rw [h7]
  have e8 : kw8.m_validSectionNames = kw7.m_validSectionNames := by
    split at h8
    · obtain ⟨_, _, _, _, _, _, _, _, _, hk⟩ := (initData_ok_iff _ _ _).mp h8
      rw [hk]
    · rw [h8]
  have e9 : kw.m_validSectionNames = kw8.m_validSectionNames := by
    split at h9
    · obtain ⟨_, _, h9⟩ := h9
      rw [h9]
    · rw [h9]
  rw [e9, e8, e7, e6, e5]

/-- C25: the constructor fails when `sections` is absent, is not a list, or has
an entry that is not a string; on a list of strings `initSectionNames` does
not fail, and the valid sections of the schema built are exactly the entries
of the list. -/
theorem newJson_sections_spec (X : Extern) (jsonConfig : JsonObject) :
    ((jsonConfig.has_item "sections" = false ∨
      (∃ o, jsonConfig.get_item "sections" = .ok o ∧ o.is_array = false) ∨
      (∃ l e, jsonConfig.get_item "sections" = .ok (.array l) ∧ e ∈ l ∧ e.is_string = false)) →
      (∀ kw : ParserKeyword X, kw.initSectionNames jsonConfig = .error .invalid_argument) ∧
      (∃ e, newJson X jsonConfig = .error e) ∧ ∀ kw, newJson X jsonConfig ≠ .ok kw) ∧
    (∀ l, jsonConfig.get_item "sections" = .ok (.array l) → (∀ e ∈ l, e.is_string = true) →
      (∀ kw : ParserKeyword X, ∃ kw1, kw.initSectionNames jsonConfig = .ok kw1) ∧
      ∀ kw, newJson X jsonConfig = .ok kw →
        ∀ s, s ∈ kw.m_validSectionNames ↔ JsonObject.string s ∈ l) := by
  constructor
  · intro hbad
    have hstep : ∀ kw : ParserKeyword X,
        kw.initSectionNames jsonConfig = .error .invalid_argument := by
      intro kw
      unfold initSectionNames
      rcases hbad with h | ⟨o, ho, harr⟩ | ⟨l, e, hl, he, hstr⟩
      · simp [h]
      · simp [has_item_of_get_item ho, ho, harr]
      · simp only [has_item_of_get_item hl, hl, Bool.not_true, Bool.false_eq_true, if_false,
          JsonObject.is_array, JsonObject.elements?]
        exact initSectionNamesLoop_error l _ ⟨e, he, hstr⟩
    have hno : ∀ kw, newJson X jsonConfig ≠ .ok kw := by
      intro kw h
      obtain ⟨kw3, kw4, h4, _⟩ := newJson_sections h
      rw [hstep kw3] at h4
      cases h4
    refine ⟨hstep, ?_, hno⟩
    cases h : newJson X jsonConfig with
    | error e => exact ⟨e, rfl⟩
    | ok kw => exact absurd h (hno kw)
  · intro l hl hall
    constructor
    · intro kw
      unfold initSectionNames
      simp only [has_item_of_get_item hl, hl, Bool.not_true, Bool.false_eq_true, if_false,
        JsonObject.is_array, JsonObject.elements?]
      exact initSectionNamesLoop_ok l _ hall
    · intro kw hok s
      obtain ⟨kw3, kw4, h4, e⟩ := newJson_sections hok
      obtain ⟨l1, hl1, _, hmem⟩ := initSectionNames_spec h4
      rw [hl] at hl1
      cases hl1
      rw [e, hmem]

theorem newJson_sections_spec_witness :
    (∃ e, ParserKeyword.newJson sampleExtern sampleConfigNoSections = .error e) ∧
    (∃ e, ParserKeyword.newJson sampleExtern sampleConfigBadSections = .error e) ∧
    (∀ s, s ∈ (sampleBuild sampleConfigSections).m_validSectionNames ↔
      JsonObject.string s ∈ [JsonObject.string "SOLUTION", JsonObject.string "PROPS"]) :=
  ⟨((newJson_sections_spec sampleExtern sampleConfigNoSections).1 (Or.inl rfl)).2.1,
   ((newJson_sections_spec sampleExtern sampleConfigBadSections).1
      (Or.inr (Or.inr ⟨_, .null, rfl, by simp, rfl⟩))).2.1,
   ((newJson_sections_spec sampleExtern sampleConfigSections).2 _ rfl
      (by
        intro e he
        simp at he
        rcases he with rfl | rfl <;> rfl)).2 (sampleBuild sampleConfigSections) rfl⟩

/-- C26: `isValidSection(s)` is true exactly when the schema has no valid section
or `s` is one of them; a schema built from a config with an empty `sections`
list is valid in every section. -/
theorem isValidSection_iff (X : Extern) (kw : ParserKeyword X) (s : String) :
    (kw.isValidSection s = true ↔ (kw.m_validSectionNames = ∅ ∨ s ∈ kw.m_validSectionNames)) ∧
    (∀ jsonConfig, jsonConfig.get_item "sections" = .ok (.array []) →
      newJson X jsonConfig = .ok kw → kw.isValidSection s = true) := by
  have hiff : kw.isValidSection s = true ↔
      (kw.m_validSectionNames = ∅ ∨ s ∈ kw.m_validSectionNames) := by
    unfold isValidSection
    simp [Finset.card_eq_zero]
  refine ⟨hiff, ?_⟩
  intro jsonConfig hl hok
  rw [hiff]
  left
  obtain ⟨kw3, kw4, h4, e⟩ := newJson_sections hok
  obtain ⟨l1, hl1, _, hmem⟩ := initSectionNames_spec h4
  rw [hl] at hl1
  cases hl1
  apply Finset.eq_empty_of_forall_not_mem
  intro t ht
  rw [e, hmem] at ht
  cases ht

theorem isValidSection_iff_witness :
    (sampleBuild sampleConfigFixed).isValidSection "SCHEDULE" = true ∧
    (sampleBuild sampleConfigSections).isValidSection "SCHEDULE" = false :=
  ⟨(isValidSection_iff sampleExtern (sampleBuild sampleConfigFixed) "SCHEDULE").2
      sampleConfigFixed rfl rfl,
   by decide⟩

/-! ### Configs that differ in the order of `deck_names` -/

theorem lookup_replace_ne (key k : String) (v1 v2 : JsonObject)
    (pre post : List (String × JsonObject)) (hk : k ≠ key) :
    (pre ++ (key, v1) :: post).lookup k = (pre ++ (key, v2) :: post).lookup k := by
  induction pre with
  | nil =>
    have hb : (k == key) = false := by simpa using hk
    simp [List.lookup, hb]
  | cons a rest ih =>
    obtain ⟨ak, av⟩ := a
    simp only [List.cons_append, List.lookup]
    split
    · rfl
    · exact ih

theorem lookup_replace_eq (key : String) (v1 : JsonObject)
    (pre post : List (String × JsonObject)) :
    (pre ++ (key, v1) :: post).lookup key =
      match pre.lookup key with
      | some v => some v
      | none => some v1 := by
  induction pre with
  | nil => simp [List.lookup]
  | cons a rest ih =>
    obtain ⟨ak, av⟩ := a
    simp only [List.cons_append, List.lookup]
    split
    · rfl
    · exact ih

theorem initDeckNamesLoop_cons {X : Extern} (kw : ParserKeyword X) (a : JsonObject)
    (rest : List JsonObject) :
    initDeckNamesLoop kw (a :: rest) =
      match a with
      | .string s => initDeckNamesLoop (kw.addDeckName s) rest
      | _ => .error .invalid_argument := by
  cases a <;> simp [initDeckNamesLoop, JsonObject.is_string, JsonObject.as_string]

theorem addDeckName_comm {X : Extern} (kw : ParserKeyword X) (a b : String) :
    (kw.addDeckName a).addDeckName b = (kw.addDeckName b).addDeckName a := by
  unfold addDeckName
  simp only
  rw [Finset.Insert.comm]

/-- The loop of `initDeckNames` gives the same result on two lists with the same
entries in a different order. -/
theorem initDeckNamesLoop_perm {X : Extern} {l1 l2 : List JsonObject} (h : l1.Perm l2) :
    ∀ kw : ParserKeyword X, initDeckNamesLoop kw l1 = initDeckNamesLoop kw l2 := by
  induction h with
  | nil =>
    intro kw
    rfl
  | cons x _ ih =>
    intro kw
    rw [initDeckNamesLoop_cons, initDeckNamesLoop_cons]
    cases x <;> simp only []
    exact ih _
  | swap x y l =>
    intro kw
    rw [initDeckNamesLoop_cons, initDeckNamesLoop_cons]
    cases x <;> cases y <;> simp only [initDeckNamesLoop_cons]
    rw [addDeckName_comm]
  | trans _ _ ih1 ih2 =>
    intro kw
    rw [ih1, ih2]

theorem operatorEq_refl {X : Extern} (kw : ParserKeyword X) : kw.operatorEq kw = true := by
  have hrec := (std_equal_iff kw.m_records kw.m_records rfl).mpr rfl
  unfold operatorEq
  cases ht : kw.m_keywordSizeType <;> simp [hrec]

/-- The constructor gives the same result on two configs that differ only in the
order of the entries of `deck_names`. -/
theorem newJson_perm {X : Extern} (pre post : List (String × JsonObject))
    (l1 l2 : List JsonObject) (hperm : l1.Perm l2) :
    newJson X (.object (pre ++ ("deck_names", .array l1) :: post)) =
      newJson X (.object (pre ++ ("deck_names", .array l2) :: post)) := by
  have Hh : ∀ k, (JsonObject.object (pre ++ ("deck_names", .array l1) :: post)).has_item k =
      (JsonObject.object (pre ++ ("deck_names", .array l2) :: post)).has_item k := by
    intro k
    unfold JsonObject.has_item
    simp only
    by_cases hk : k = "deck_names"
    · subst hk
      rw [lookup_replace_eq, lookup_replace_eq]
      cases pre.lookup "deck_names" <;> rfl
    · rw [lookup_replace_ne "deck_names" k _ (.array l2) pre post hk]
  have Hg : ∀ k, k ≠ "deck_names" →
      (JsonObject.object (pre ++ ("deck_names", .array l1) :: post)).get_item k =
      (JsonObject.object (pre ++ ("deck_names", .array l2) :: post)).get_item k := by
    intro k hk
    unfold JsonObject.get_item
    simp only
    rw [lookup_replace_ne "deck_names" k _ (.array l2) pre post hk]
  have Hs : ∀ k, k ≠ "deck_names" →
      (JsonObject.object (pre ++ ("deck_names", .array l1) :: post)).get_string k =
      (JsonObject.object (pre ++ ("deck_names", .array l2) :: post)).get_string k := by
    intro k hk
    unfold JsonObject.get_string
    rw [Hg k hk]
  have Hsize : ∀ kw : ParserKeyword X,
      kw.initSize (.object (pre ++ ("deck_names", .array l1) :: post)) =
      kw.initSize (.object (pre ++ ("deck_names", .array l2) :: post)) := by
    intro kw
    unfold initSize
    simp only [Hh, Hg "size" (by decide), Hg "num_tables" (by decide)]
  have Hsec : ∀ kw : ParserKeyword X,
      kw.initSectionNames (.object (pre ++ ("deck_names", .array l1) :: post)) =
      kw.initSectionNames (.object (pre ++ ("deck_names", .array l2) :: post)) := by
    intro kw
    unfold initSectionNames
    simp only [Hh, Hg "sections" (by decide)]
  have Hre : ∀ kw : ParserKeyword X,
      kw.initMatchRegex (.object (pre ++ ("deck_names", .array l1) :: post)) =
      kw.initMatchRegex (.object (pre ++ ("deck_names", .array l2) :: post)) := by
    intro kw
    unfold initMatchRegex
    simp only [Hh, Hg "deck_name_regex" (by decide)]
  have Hdata : ∀ kw : ParserKeyword X,
      kw.initData (.object (pre ++ ("deck_names", .array l1) :: post)) =
      kw.initData (.object (pre ++ ("deck_names", .array l2) :: post)) := by
    intro kw
    unfold initData
    simp only [Hg "data" (by decide)]
  have Hnames : ∀ kw : ParserKeyword X,
      kw.initDeckNames (.object (pre ++ ("deck_names", .array l1) :: post)) =
      kw.initDeckNames (.object (pre ++ ("deck_names", .array l2) :: post)) := by
    intro kw
    unfold initDeckNames
    simp only [Hh]
    unfold JsonObject.get_item
    simp only [lookup_replace_eq]
    cases pre.lookup "deck_names" with
    | some v => rfl
    | none =>
      simp only [JsonObject.is_array, JsonObject.size, JsonObject.elements?, hperm.length_eq,
        initDeckNamesLoop_perm hperm]
  unfold newJson
  simp only [Hh, Hs "name" (by decide), Hsize, Hnames, Hsec, Hre, Hdata,
    Hg "items" (by decide), Hg "records" (by decide), Hs "description" (by decide)]

/-- C22: when a config is built into a schema, the config that differs from it
only in the order of the entries of `deck_names` is built into a schema too,
and the two schemas compare equal under `operator==`. -/
theorem newJson_deckNames_order (X : Extern) (pre post : List (String × JsonObject))
    (l1 l2 : List JsonObject) (hperm : l1.Perm l2) (kw1 : ParserKeyword X)
    (h1 : newJson X (.object (pre ++ ("deck_names", .array l1) :: post)) = .ok kw1) :
    ∃ kw2, newJson X (.object (pre ++ ("deck_names", .array l2) :: post)) = .ok kw2 ∧
      kw1.operatorEq kw2 = true ∧ kw2.operatorEq kw1 = true ∧
      kw1.operatorNe kw2 = false := by
  rw [newJson_perm pre post l1 l2 hperm] at h1
  refine ⟨kw1, h1, operatorEq_refl kw1, operatorEq_refl kw1, ?_⟩
  unfold operatorNe
  rw [operatorEq_refl]
  rfl

theorem newJson_deckNames_order_witness :
    ∃ kw2, ParserKeyword.newJson sampleExtern (.object
        ([("name", .string "SWAT"), ("sections", .array [.string "SOLUTION"])] ++
          ("deck_names", .array [.string "SWL", .string "SWATINIT"]) :: [])) = .ok kw2 ∧
      (sampleBuild sampleConfigNames).operatorEq kw2 = true ∧
      kw2.operatorEq (sampleBuild sampleConfigNames) = true ∧
      (sampleBuild sampleConfigNames).operatorNe kw2 = false :=
  newJson_deckNames_order sampleExtern
    [("name", .string "SWAT"), ("sections", .array [.string "SOLUTION"])] []
    [.string "SWATINIT", .string "SWL"] [.string "SWL", .string "SWATINIT"]
    (List.Perm.swap _ _ _) (sampleBuild sampleConfigNames) rfl

/-! ### Construction from a config: the data record -/

theorem initSizeKeywordJson_records {X : Extern} {kw kw1 : ParserKeyword X} {o : JsonObject}
    (h : kw.initSizeKeywordJson o = .ok kw1) : kw1.m_records = kw.m_records := by
  unfold initSizeKeywordJson at h
  split at h
  · split at h
    · cases h
    · split at h
      · cases h
      · split at h
        · split at h
          · cases h
          · cases h
            rfl
        · cases h
          rfl
  · split at h
    · cases h
    · split at h
      · cases h
      · cases h
        rfl

theorem initSize_records {X : Extern} {kw kw1 : ParserKeyword X} {j : JsonObject}
    (h : kw.initSize j = .ok kw1) : kw1.m_records = kw.m_records := by
  unfold initSize at h
  split at h
  · split at h
    · cases h
    · split at h
      · split at h
        · cases h
        · cases h
          rfl
      · exact initSizeKeywordJson_records h
  · split at h
    · split at h
      · cases h
      · split at h
        · cases h
        · split at h
          · cases h
          · rename_i kw2 h2
            cases h
            have e := initSizeKeywordJson_records h2
            rw [← e]
    · split at h
      · cases h
        rfl
      · split at h
        · cases h
          rfl
        · cases h
          rfl

theorem initDeckNamesLoop_records {X : Extern} (l : List JsonObject) :
    ∀ (kw kw1 : ParserKeyword X), initDeckNamesLoop kw l = .ok kw1 →
      kw1.m_records = kw.m_records ∧ kw1.m_validSectionNames = kw.m_validSectionNames := by
  induction l with
  | nil =>
    intro kw kw1 h
    simp only [initDeckNamesLoop] at h
    cases h
    exact ⟨rfl, rfl⟩
  | cons a rest ih =>
    intro kw kw1 h
    simp only [initDeckNamesLoop] at h
    split at h
    · cases h
    · split at h
      · cases h
      · have e := ih _ _ h
        rw [e.1, e.2]
        exact ⟨rfl, rfl⟩

theorem initDeckNames_records {X : Extern} {kw kw1 : ParserKeyword X} {j : JsonObject}
    (h : kw.initDeckNames j = .ok kw1) : kw1.m_records = kw.m_records := by
  unfold initDeckNames at h
  split at h
  · cases h
    rfl
  · split at h
    · cases h
    · split at h
      · cases h
      · have e := (initDeckNamesLoop_records _ _ _ h).1
        rw [e]
        split <;> rfl

theorem initSectionNamesLoop_records {X : Extern} (l : List JsonObject) :
    ∀ (kw kw1 : ParserKeyword X), initSectionNamesLoop kw l = .ok kw1 →
      kw1.m_records = kw.m_records := by
  induction l with
  | nil =>
    intro kw kw1 h
    simp only [initSectionNamesLoop] at h
    cases h
    rfl
  | cons a rest ih =>
    intro kw kw1 h
    simp only [initSectionNamesLoop] at h
    split at h
    · cases h
    · split at h
      · cases h
      · have e := ih _ _ h
        rw [e]
        rfl

theorem initSectionNames_records {X : Extern} {kw kw1 : ParserKeyword X} {j : JsonObject}
    (h : kw.initSectionNames j = .ok kw1) : kw1.m_records = kw.m_records := by
  unfold initSectionNames at h
  split at h
  · cases h
  · split at h
    · cases h
    · split at h
      · cases h
      · have e := initSectionNamesLoop_records _ _ _ h
        rw [e]
        rfl

/-- The record templates of a keyword built from a config: the constructor
starts without any, `items` and `records` add theirs, and `data` adds the
record of `initDataRecord` last. -/
theorem newJson_records {X : Extern} {jsonConfig : JsonObject} {kw : ParserKeyword X}
    (h : newJson X jsonConfig = .ok kw) :
    ∃ kw5 kw6 kw7 kw8 : ParserKeyword X,
      kw5.m_records = [] ∧
      (if jsonConfig.has_item "items" then
        ∃ itemsConfig, jsonConfig.get_item "items" = .ok itemsConfig ∧
          kw5.addItems itemsConfig = .ok kw6
       else kw6 = kw5) ∧
      (if jsonConfig.has_item "records" then
        ∃ recordsConfig, jsonConfig.get_item "records" = .ok recordsConfig ∧
          recordsConfig.is_array = true ∧ recordsLoop kw6 recordsConfig.elements? = .ok kw7
       else kw7 = kw6) ∧
      (if jsonConfig.has_item "data" then kw7.initData jsonConfig = .ok kw8 else kw8 = kw7) ∧
      kw.m_records = kw8.m_records := by
  obtain ⟨name, kw2, kw3, kw4, kw5, kw6, kw7, kw8, hname, h2, h3, h4, h5, _, h6, h7, h8, h9⟩ :=
    newJson_inv h
  refine ⟨kw5, kw6, kw7, kw8, ?_, h6, h7, h8, ?_⟩
  · rw [(initMatchRegex_sections h5).2, initSectionNames_records h4, initDeckNames_records h3,
      initSize_records h2]
    split <;> rfl
  · split at h9
    · obtain ⟨_, _, h9⟩ := h9
      rw [h9]
    · rw [h9]

theorem set_dimensionsLoop_spec (l : List JsonObject) :
    ∀ (item item1 : ParserItem), set_dimensionsLoop item l = .ok item1 →
      item1.m_name = item.m_name ∧ item1.m_sizeType = item.m_sizeType ∧
      item1.m_type = item.m_type ∧ item1.m_default = item.m_default := by
  induction l with
  | nil =>
    intro item item1 h
    simp only [set_dimensionsLoop] at h
    cases h
    exact ⟨rfl, rfl, rfl, rfl⟩
  | cons a rest ih =>
    intro item item1 h
    simp only [set_dimensionsLoop] at h
    split at h
    · cases h
    · obtain ⟨e1, e2, e3, e4⟩ := ih _ _ h
      exact ⟨e1, e2, e3, e4⟩

/-- The function `set_dimensions` changes nothing of an item but its
dimensions. -/
theorem set_dimensions_spec {item item1 : ParserItem} {json : JsonObject}
    (h : set_dimensions item json = .ok item1) :
    item1.m_name = item.m_name ∧ item1.m_sizeType = item.m_sizeType ∧
    item1.m_type = item.m_type ∧ item1.m_default = item.m_default := by
  unfold set_dimensions at h
  split at h
  · cases h
    exact ⟨rfl, rfl, rfl, rfl⟩
  · split at h
    · cases h
    · split at h
      · split at h
        · cases h
        · cases h
          exact ⟨rfl, rfl, rfl, rfl⟩
      · split at h
        · exact set_dimensionsLoop_spec _ _ _ h
        · cases h

/-- The record `initDataRecord` builds: one item named "data" that takes all
tokens, of the value type asked for; the record is marked as a data record for
INT and DOUBLE, where the item is added with `addDataItem`, and is not for
STRING, where it is added with `addItem`. -/
theorem initDataRecord_spec {dataConfig : JsonObject} {valueType : ParserValueTypeEnum}
    {record : ParserRecord} (h : initDataRecord dataConfig valueType = .ok record) :
    ∃ item, record.m_items = [item] ∧ item.m_name = "data" ∧ item.m_sizeType = .ALL ∧
      item.m_type = some valueType ∧
      record.m_dataRecord = (valueType != .STRING) ∧
      (dataConfig.has_item "default" = false → item.m_default = none) ∧
      (valueType = .INT → dataConfig.has_item "default" = true →
        ∃ d, dataConfig.get_int "default" = .ok d ∧ item.m_default = some (.int d)) ∧
      (valueType ≠ .DOUBLE → item.m_dimensions = []) := by
  unfold initDataRecord at h
  simp only at h
  cases valueType with
  | INT =>
    simp only at h
    split at h
    · rename_i hdef
      split at h
      · cases h
      · rename_i d hd
        simp only [ParserRecord.addDataItem, ParserRecord.addItem, ParserRecord.empty,
          List.any_nil, Bool.false_eq_true, if_false, List.nil_append] at h
        cases h
        exact ⟨_, rfl, rfl, rfl, rfl, rfl, by simp [hdef], fun _ _ => ⟨d, hd, rfl⟩, fun _ => rfl⟩
    · rename_i hdef
      simp only [ParserRecord.addDataItem, ParserRecord.addItem, ParserRecord.empty,
        List.any_nil, Bool.false_eq_true, if_false, List.nil_append] at h
      cases h
      exact ⟨_, rfl, rfl, rfl, rfl, rfl, fun _ => rfl, fun _ hd => absurd hd hdef, fun _ => rfl⟩
  | STRING =>
    simp only at h
    split at h
    · rename_i hdef
      split at h
      · cases h
      · simp only [ParserRecord.addItem, ParserRecord.empty,
          List.any_nil, Bool.false_eq_true, if_false, List.nil_append] at h
        cases h
        exact ⟨_, rfl, rfl, rfl, rfl, rfl, by simp [hdef], (fun hv => by cases hv), fun _ => rfl⟩
    · simp only [ParserRecord.addItem, ParserRecord.empty,
        List.any_nil, Bool.false_eq_true, if_false, List.nil_append] at h
      cases h
      exact ⟨_, rfl, rfl, rfl, rfl, rfl, fun _ => rfl, (fun hv => by cases hv), fun _ => rfl⟩
  | DOUBLE =>
    simp only at h
    split at h
    · rename_i hdef
      split at h
      · cases h
      · split at h
        · cases h
        · rename_i item2 hdim
          obtain ⟨e1, e2, e3, e4⟩ := set_dimensions_spec hdim
          simp only [ParserRecord.addDataItem, ParserRecord.addItem, ParserRecord.empty,
            List.any_nil, Bool.false_eq_true, if_false, List.nil_append] at h
          cases h
          exact ⟨_, rfl, e1, e2, e3, rfl, by simp [hdef], (fun hv => by cases hv),
            fun hv => absurd rfl hv⟩
    · rename_i hdef
      split at h
      · cases h
      · rename_i item2 hdim
        obtain ⟨e1, e2, e3, e4⟩ := set_dimensions_spec hdim
        simp only [ParserRecord.addDataItem, ParserRecord.addItem, ParserRecord.empty,
          List.any_nil, Bool.false_eq_true, if_false, List.nil_append] at h
        cases h
        exact ⟨_, rfl, e1, e2, e3, rfl, fun _ => e4, (fun hv => by cases hv),
          fun hv => absurd rfl hv⟩

/-- The record templates of a keyword built from a config with `data` and
without `items` and `records`: the one record `initDataRecord` builds.  It is
a data record, and the keyword a data keyword, for the value types INT and
DOUBLE, and it is none for STRING. -/
theorem newJson_data_record {X : Extern} {jsonConfig : JsonObject} {kw : ParserKeyword X}
    (h : newJson X jsonConfig = .ok kw)
    (hi : jsonConfig.has_item "items" = false) (hr : jsonConfig.has_item "records" = false)
    (hd : jsonConfig.has_item "data" = true) :
    ∃ dataConfig str valueType record,
      jsonConfig.get_item "data" = .ok dataConfig ∧
      dataConfig.get_string "value_type" = .ok str ∧
      X.ParserValueTypeEnumFromString str = .ok valueType ∧
      initDataRecord dataConfig valueType = .ok record ∧
      kw.m_records = [record] ∧
      kw.isDataKeyword = (valueType != .STRING) := by
  obtain ⟨kw5, kw6, kw7, kw8, h5, h6, h7, h8, e⟩ := newJson_records h
  rw [hi] at h6
  rw [hr] at h7
  rw [hd] at h8
  simp only [Bool.false_eq_true, if_false, if_true] at h6 h7 h8
  obtain ⟨dataConfig, str, valueType, record, h1, _, h3, h4, hrec, hk⟩ :=
    (initData_ok_iff _ _ _).mp h8
  have hrecs : kw.m_records = [record] := by
    rw [e, hk, h7, h6]
    simp [h5]
  refine ⟨dataConfig, str, valueType, record, h1, h3, h4, hrec, hrecs, ?_⟩
  obtain ⟨_, _, _, _, _, hflag, _⟩ := initDataRecord_spec hrec
  unfold isDataKeyword
  rw [hrecs]
  exact hflag

/-- C28, at a concrete input: the config with `data` of value type STRING and
without `items` and `records` is built into a schema with one record template
that holds the one item "data"; the template is no data record and
`isDataKeyword()` is false, while the same config with value type INT gives a
data keyword. -/
theorem newJson_data_string_not_data_keyword :
    (∃ kw, ParserKeyword.newJson sampleExtern sampleConfigDataString = .ok kw ∧
      kw.m_records =
        [{ m_dataRecord := false
           m_items := [(ParserItem.create "data" .ALL).setType .STRING] }] ∧
      kw.isDataKeyword = false) ∧
    (∃ kw, ParserKeyword.newJson sampleExtern sampleConfigData = .ok kw ∧
      kw.isDataKeyword = true) :=
  ⟨⟨_, rfl, rfl, rfl⟩, ⟨_, rfl, rfl⟩⟩

/-! ### The round trip through `createCode` -/

theorem hasMatchRegex_false_iff {X : Extern} (kw : ParserKeyword X) :
    kw.hasMatchRegex = false ↔ kw.m_matchRegexString = "" := by
  unfold hasMatchRegex
  rw [← String.isEmpty_iff]
  simp

theorem getRecord_congr {X : Extern} (a b : ParserKeyword X) (h : a.m_records = b.m_records)
    (n : Nat) : a.getRecord n = b.getRecord n := by
  obtain ⟨a1, a2, a3, a4, a5, a6, a7, a8, a9, a10, a11⟩ := a
  obtain ⟨b1, b2, b3, b4, b5, b6, b7, b8, b9, b10, b11⟩ := b
  simp only at h
  subst h
  rfl

theorem parseLoop_congr {X : Extern} (a b : ParserKeyword X) (h : a.m_records = b.m_records)
    (ctx : X.ParseContext) :
    ∀ (rest : List RawRecord) (n : Nat) (keyword : DeckKeyword),
      parseLoop a ctx rest n keyword = parseLoop b ctx rest n keyword := by
  intro rest
  induction rest with
  | nil =>
    intro n keyword
    rfl
  | cons raw rest ih =>
    intro n keyword
    simp only [parseLoop, h, getRecord_congr a b h, ih]

/-- Two schemas with the same record templates, size type and table-collection
flag parse every raw occurrence alike. -/
theorem parse_congr {X : Extern} (a b : ParserKeyword X) (hr : a.m_records = b.m_records)
    (ht : a.m_keywordSizeType = b.m_keywordSizeType)
    (hc : a.m_isTableCollection = b.m_isTableCollection)
    (ctx : X.ParseContext) (raw : RawKeyword) : a.parse ctx raw = b.parse ctx raw := by
  unfold parse
  simp only [parseLoop_congr a b hr, isDataKeyword, hasFixedSize, hr, ht, hc]

theorem initSizeKeywordJson_table {X : Extern} {kw kw1 : ParserKeyword X} {o : JsonObject}
    (h : kw.initSizeKeywordJson o = .ok kw1) :
    kw1.m_isTableCollection = kw.m_isTableCollection := by
  unfold initSizeKeywordJson at h
  split at h
  · split at h
    · cases h
    · split at h
      · cases h
      · split at h
        · split at h
          · cases h
          · cases h
            rfl
        · cases h
          rfl
  · split at h
    · cases h
    · split at h
      · cases h
      · cases h
        rfl

/-- The table-collection flag after `initSize`: it is set only by the
`num_tables` branch, which also makes the size type `OTHER_KEYWORD_IN_DECK`. -/
theorem initSize_table {X : Extern} {kw kw1 : ParserKeyword X} {j : JsonObject}
    (h : kw.initSize j = .ok kw1) (h0 : kw.m_isTableCollection = false)
    (ht : kw1.m_isTableCollection = true) :
    kw1.m_keywordSizeType = .OTHER_KEYWORD_IN_DECK ∧ j.has_item "size" = false ∧
      j.has_item "num_tables" = true := by
  unfold initSize at h
  split at h
  · split at h
    · cases h
    · split at h
      · split at h
        · cases h
        · cases h
          simp only at ht
          rw [h0] at ht
          cases ht
      · have e := initSizeKeywordJson_table h
        rw [e, h0] at ht
        cases ht
  · rename_i hsize
    split at h
    · rename_i htab
      split at h
      · cases h
      · rename_i o ho
        split at h
        · cases h
        · rename_i hobj
          split at h
          · cases h
          · rename_i kw2 h2
            cases h
            obtain ⟨k, i, s, _, _, _, hk⟩ :=
              initSizeKeywordJson_object (by simpa using hobj) h2
            rw [hk]
            exact ⟨rfl, by simpa using hsize, htab⟩
    · split at h
      · cases h
        simp only at ht
        rw [h0] at ht
        cases ht
      · split at h
        · cases h
          simp only at ht
          rw [h0] at ht
          cases ht
        · cases h
          simp only at ht
          rw [h0] at ht
          cases ht

/-- C34: when the constructor succeeds on a config with a `data` member, the
keyword has size type FIXED and fixed size 1, whatever `size`, `num_tables`,
`items` and `records` say, and its last record template is the record
`initDataRecord` builds from `data` for the value type it names. -/
theorem newJson_data_fixed_last_record {X : Extern} {jsonConfig : JsonObject}
    {kw : ParserKeyword X} (h : newJson X jsonConfig = .ok kw)
    (hd : jsonConfig.has_item "data" = true) :
    kw.getSizeType = .FIXED ∧ kw.getFixedSize = .ok 1 ∧
    ∃ dataConfig str valueType record,
      jsonConfig.get_item "data" = .ok dataConfig ∧
      dataConfig.get_string "value_type" = .ok str ∧
      X.ParserValueTypeEnumFromString str = .ok valueType ∧
      initDataRecord dataConfig valueType = .ok record ∧
      kw.m_records.getLast? = some record := by
  obtain ⟨name, kw2, _, _, hs⟩ := newJson_sizeFields h
  rw [hd, if_pos rfl] at hs
  simp only [sizeFields, Prod.mk.injEq] at hs
  obtain ⟨k5, k6, k7, k8, _, _, _, h8, hrec⟩ := newJson_records h
  rw [hd, if_pos rfl] at h8
  obtain ⟨dataConfig, str, valueType, record, hg, _, hstr, hty, hr, hk⟩ :=
    (initData_ok_iff k7 k8 jsonConfig).mp h8
  refine ⟨hs.1, ?_, dataConfig, str, valueType, record, hg, hstr, hty, hr, ?_⟩
  · unfold getFixedSize hasFixedSize
    rw [hs.1, hs.2.1]
    rfl
  · rw [hrec, hk]
    simp only [List.getLast?_append, List.getLast?_singleton]
    rfl

theorem newJson_data_fixed_last_record_witness :
    (sampleBuild sampleConfigSizeData).getSizeType = .FIXED ∧
    (sampleBuild sampleConfigSizeData).getFixedSize = .ok 1 ∧
    ∃ dataConfig str valueType record,
      sampleConfigSizeData.get_item "data" = .ok dataConfig ∧
      dataConfig.get_string "value_type" = .ok str ∧
      sampleExtern.ParserValueTypeEnumFromString str = .ok valueType ∧
      initDataRecord dataConfig valueType = .ok record ∧
      (sampleBuild sampleConfigSizeData).m_records.getLast? = some record :=
  newJson_data_fixed_last_record
    (show newJson sampleExtern sampleConfigSizeData = .ok (sampleBuild sampleConfigSizeData)
      from rfl) rfl

/-! ### Schemas without record template -/

/-- C35: on a schema without record template, `parse` of a finished raw
occurrence succeeds exactly when the occurrence has no raw record, and the
output keyword then has no record; with at least one raw record, empty or
not, it raises `invalid_argument`. -/
theorem parse_no_template_iff {X : Extern} (kw : ParserKeyword X) (ctx : X.ParseContext)
    (raw : RawKeyword) (h0 : kw.m_records = []) (hf : raw.isFinished = true) :
    ((∃ k, kw.parse ctx raw = .ok k) ↔ raw.records = []) ∧
    (raw.records = [] → ∃ k, kw.parse ctx raw = .ok k ∧ k.records = []) ∧
    (raw.records ≠ [] → kw.parse ctx raw = .error .invalid_argument) := by
  have hnil : raw.records = [] → ∃ k, kw.parse ctx raw = .ok k ∧ k.records = [] := by
    intro hr
    have hex : ∃ k, kw.parse ctx raw = .ok k := by
      unfold parse
      rw [hf, hr]
      exact ⟨_, rfl⟩
    obtain ⟨k, hk⟩ := hex
    refine ⟨k, hk, ?_⟩
    have hl := (parse_inv hk).2.1
    rw [hr] at hl
    exact List.length_eq_zero.mp hl
  have hcons : raw.records ≠ [] → kw.parse ctx raw = .error .invalid_argument := by
    intro hr
    cases hrec : raw.records with
    | nil => exact absurd hrec hr
    | cons a rest =>
      unfold parse
      rw [hf, hrec]
      simp only [Bool.not_true, Bool.false_eq_true, if_false]
      rw [parseLoop_no_template kw ctx h0]
  refine ⟨⟨?_, fun hr => ?_⟩, hnil, hcons⟩
  · rintro ⟨k, hk⟩
    by_contra hr
    rw [hcons hr] at hk
    cases hk
  · obtain ⟨k, hk, _⟩ := hnil hr
    exact ⟨k, hk⟩

theorem parse_no_template_iff_witness :
    (ParserKeyword.new sampleExtern "OIL").parse () sampleRawEmptyRecord
        = .error .invalid_argument ∧
    ∃ k, (ParserKeyword.new sampleExtern "OIL").parse () sampleRawNoRecords = .ok k ∧
      k.records = [] :=
  ⟨(parse_no_template_iff (ParserKeyword.new sampleExtern "OIL") () sampleRawEmptyRecord
      rfl rfl).2.2 (by simp [sampleRawEmptyRecord]),
   (parse_no_template_iff (ParserKeyword.new sampleExtern "OIL") () sampleRawNoRecords
      rfl rfl).2.1 rfl⟩

/-! ### `getDeckName` applied twice -/

theorem find_if_le (p : Char → Bool) (l : List Char) : find_if p l ≤ l.length := by
  induction l with
  | nil => exact Nat.le_refl 0
  | cons c rest ih =>
    unfold find_if
    split
    · exact Nat.zero_le _
    · simp only [List.length_cons]
      omega

theorem find_if_take_le (p : Char → Bool) (l : List Char) :
    ∀ n, n ≤ find_if p l → ∀ c ∈ l.take n, p c = false := by
  induction l with
  | nil =>
    intro n _ c hc
    simp only [List.take_nil, List.not_mem_nil] at hc
  | cons a rest ih =>
    intro n hn c hc
    cases n with
    | zero => simp only [List.take_zero, List.not_mem_nil] at hc
    | succ m =>
      unfold find_if at hn
      by_cases ha : p a = true
      · rw [if_pos ha] at hn
        omega
      · rw [if_neg ha] at hn
        simp only [List.take_succ_cons, List.mem_cons] at hc
        rcases hc with hc | hc
        · rw [hc]
          exact Bool.eq_false_iff.mpr ha
        · exact ih m (by omega) c hc

theorem find_if_all_false (p : Char → Bool) (l : List Char) (h : ∀ c ∈ l, p c = false) :
    find_if p l = l.length := by
  induction l with
  | nil => rfl
  | cons a rest ih =>
    unfold find_if
    rw [h a (List.mem_cons_self a rest)]
    simp only [Bool.false_eq_true, if_false, List.length_cons]
    rw [ih (fun c hc => h c (List.mem_cons_of_mem a hc))]

/-- The result of `getDeckName` as one `take`. -/
theorem getDeckName_min (X : Extern) (t : String) :
    getDeckName X t = ⟨t.data.take (min (find_if X.is_separator t.data) 9)⟩ := by
  unfold getDeckName
  simp only
  split
  · rename_i h
    rw [Nat.min_eq_left (Nat.le_of_lt h)]
  · rename_i h
    rw [Nat.min_eq_right (Nat.le_of_not_lt h)]

/-- C37: for every token `t`, `getDeckName(t)` is a prefix of `t` of at most 9
characters none of which is a separator, and `getDeckName` applied to it
gives it back. -/
theorem getDeckName_idempotent (X : Extern) (t : String) :
    (getDeckName X t).data <+: t.data ∧ (getDeckName X t).length ≤ 9 ∧
    (∀ c ∈ (getDeckName X t).data, X.is_separator c = false) ∧
    getDeckName X (getDeckName X t) = getDeckName X t := by
  have hle := find_if_le X.is_separator t.data
  have hsep : ∀ c ∈ t.data.take (min (find_if X.is_separator t.data) 9),
      X.is_separator c = false :=
    find_if_take_le X.is_separator t.data _ (Nat.min_le_left _ _)
  have hlen : (t.data.take (min (find_if X.is_separator t.data) 9)).length
      = min (find_if X.is_separator t.data) 9 := by
    rw [List.length_take]
    omega
  refine ⟨?_, ?_, ?_, ?_⟩
  · rw [getDeckName_min]
    exact List.take_prefix _ _
  · rw [getDeckName_min]
    show (t.data.take (min (find_if X.is_separator t.data) 9)).length ≤ 9
    rw [hlen]
    exact Nat.min_le_right _ _
  · rw [getDeckName_min]
    exact hsep
  · rw [getDeckName_min X t, getDeckName_min]
    simp only [find_if_all_false X.is_separator _ hsep, hlen, List.take_take]
    congr 2
    omega

/-! ### `setMatchRegex` -/

/-- C38: a pattern that does not compile leaves the schema as it is, so that
`hasMatchRegex()` and `matches(c)` answer as before; a pattern that compiles
becomes the regex source string, its compiled form the compiled regex, and
`hasMatchRegex()` is then true exactly when the pattern is not empty. -/
theorem setMatchRegex_spec {X : Extern} (kw : ParserKeyword X) (p : String) :
    (X.compile p = none →
      kw.setMatchRegex p = kw ∧ (kw.setMatchRegex p).hasMatchRegex = kw.hasMatchRegex ∧
      ∀ c, (kw.setMatchRegex p).matches c = kw.matches c) ∧
    (∀ r, X.compile p = some r →
      (kw.setMatchRegex p).m_matchRegexString = p ∧ (kw.setMatchRegex p).m_matchRegex = r ∧
      ((kw.setMatchRegex p).hasMatchRegex = true ↔ p ≠ "")) := by
  constructor
  · intro hc
    have he : kw.setMatchRegex p = kw := by
      unfold setMatchRegex
      rw [hc]
    rw [he]
    exact ⟨rfl, rfl, fun _ => rfl⟩
  · intro r hc
    have he : kw.setMatchRegex p = { kw with m_matchRegex := r, m_matchRegexString := p } := by
      unfold setMatchRegex
      rw [hc]
    rw [he]
    refine ⟨rfl, rfl, ?_⟩
    have hf := hasMatchRegex_false_iff
      ({ kw with m_matchRegex := r, m_matchRegexString := p } : ParserKeyword X)
    constructor
    · intro ht hp
      have hfalse := hf.mpr hp
      rw [ht] at hfalse
      cases hfalse
    · intro hp
      cases hb : ParserKeyword.hasMatchRegex
        ({ kw with m_matchRegex := r, m_matchRegexString := p } : ParserKeyword X) with
      | true => rfl
      | false => exact absurd (hf.mp hb) hp

theorem setMatchRegex_spec_witness :
    ((sampleNamesA.setMatchRegex "SWA").setMatchRegex "SW(" = sampleNamesA.setMatchRegex "SWA" ∧
      ((sampleNamesA.setMatchRegex "SWA").setMatchRegex "SW(").hasMatchRegex
        = (sampleNamesA.setMatchRegex "SWA").hasMatchRegex ∧
      ∀ c, ((sampleNamesA.setMatchRegex "SWA").setMatchRegex "SW(").matches c
        = (sampleNamesA.setMatchRegex "SWA").matches c) ∧
    ((sampleNamesA.setMatchRegex "SWA").m_matchRegexString = "SWA" ∧
      (sampleNamesA.setMatchRegex "SWA").m_matchRegex = "SWA" ∧
      ((sampleNamesA.setMatchRegex "SWA").hasMatchRegex = true ↔ "SWA" ≠ "")) :=
  ⟨(setMatchRegex_spec (sampleNamesA.setMatchRegex "SWA") "SW(").1 rfl,
   (setMatchRegex_spec sampleNamesA "SWA").2 "SWA" rfl⟩

/-! ### Equality and matching -/

/-- A keyword with the regex source string and the compiled regex of another
one that has its regex compiled has its regex compiled. -/
theorem regexCompiled_of_eq {X : Extern} {kw kw1 : ParserKeyword X}
    (hs : kw1.m_matchRegexString = kw.m_matchRegexString)
    (hr : kw1.m_matchRegex = kw.m_matchRegex) (h : regexCompiled kw) : regexCompiled kw1 := by
  unfold regexCompiled hasMatchRegex at *
  rw [hs, hr]
  exact h

theorem regexCompiled_of_matchFields {X : Extern} {kw kw1 : ParserKeyword X}
    (hm : kw1.matchFields = kw.matchFields) (h : regexCompiled kw) : regexCompiled kw1 := by
  simp only [matchFields, Prod.mk.injEq] at hm
  exact regexCompiled_of_eq hm.2.2.1 hm.2.2.2 h

theorem regexCompiled_of_empty {X : Extern} {kw : ParserKeyword X}
    (h : kw.m_matchRegexString = "") : regexCompiled kw := by
  intro ht
  rw [(hasMatchRegex_false_iff kw).mpr h] at ht
  cases ht

theorem setMatchRegex_regexCompiled {X : Extern} {kw : ParserKeyword X} (p : String)
    (h : regexCompiled kw) : regexCompiled (kw.setMatchRegex p) := by
  unfold setMatchRegex
  cases hc : X.compile p with
  | none => exact h
  | some r =>
    intro _
    exact hc

theorem initMatchRegex_regexCompiled {X : Extern} {kw kw1 : ParserKeyword X} {j : JsonObject}
    (hk : kw.initMatchRegex j = .ok kw1) (h : regexCompiled kw) : regexCompiled kw1 := by
  unfold initMatchRegex at hk
  split at hk
  · cases hk
    exact h
  · split at hk
    · cases hk
    · split at hk
      · cases hk
      · split at hk
        · cases hk
        · cases hk
          exact setMatchRegex_regexCompiled _ h

theorem addDataRecord_matchFields {X : Extern} {kw kw1 : ParserKeyword X} {r : ParserRecord}
    (h : kw.addDataRecord r = .ok kw1) : kw1.matchFields = kw.matchFields := by
  unfold addDataRecord at h
  split at h
  · cases h
    rfl
  · cases h

/-- Every schema a client can build has the compiled form of its regex source
string as its compiled regex, when it has a regex at all. -/
theorem Reachable.regexCompiled {X : Extern} {kw : ParserKeyword X} (h : Reachable kw) :
    Opm.regexCompiled kw := by
  induction h with
  | new name => exact regexCompiled_of_empty rfl
  | newSized => exact regexCompiled_of_empty rfl
  | newJson hk =>
    obtain ⟨name, kw2, kw3, kw4, kw5, _, h2, h3, h4, h5, h6⟩ := newJson_matchFields hk
    have e2 : Opm.regexCompiled kw2 := by
      apply regexCompiled_of_empty
      simp only [matchFields, Prod.mk.injEq] at h2
      rw [h2.2.2.1]
      split <;> rfl
    have hd := initDeckNames_spec h3
    have e3 : Opm.regexCompiled kw3 := regexCompiled_of_eq hd.2.1 hd.2.2.1 e2
    have e4 : Opm.regexCompiled kw4 := regexCompiled_of_matchFields h4 e3
    exact regexCompiled_of_matchFields h6 (initMatchRegex_regexCompiled h5 e4)
  | setSizeType _ _ ih => exact regexCompiled_of_eq rfl rfl ih
  | setFixedSize _ _ ih => exact regexCompiled_of_eq rfl rfl ih
  | setTableCollection _ _ ih => exact regexCompiled_of_eq rfl rfl ih
  | commonInit _ _ _ ih => exact regexCompiled_of_eq rfl rfl ih
  | clearDeckNames _ ih => exact regexCompiled_of_eq rfl rfl ih
  | addDeckName _ _ ih => exact regexCompiled_of_eq rfl rfl ih
  | setDescription _ _ ih => exact regexCompiled_of_eq rfl rfl ih
  | initSize _ _ hk ih => exact regexCompiled_of_matchFields (initSize_matchFields hk) ih
  | initSizeKeyword _ _ _ _ ih => exact regexCompiled_of_eq rfl rfl ih
  | initSizeKeywordJson _ _ hk ih =>
    exact regexCompiled_of_matchFields (initSizeKeywordJson_matchFields hk) ih
  | initDeckNames _ _ hk ih =>
    have hd := initDeckNames_spec hk
    exact regexCompiled_of_eq hd.2.1 hd.2.2.1 ih
  | initSectionNames _ _ hk ih =>
    exact regexCompiled_of_matchFields (initSectionNames_matchFields hk) ih
  | initMatchRegex _ _ hk ih => exact initMatchRegex_regexCompiled hk ih
  | addItems _ _ hk ih => exact regexCompiled_of_matchFields (addItems_matchFields hk) ih
  | initData _ _ hk ih => exact regexCompiled_of_matchFields (initData_matchFields hk) ih
  | addRecord _ _ ih => exact regexCompiled_of_eq rfl rfl ih
  | addDataRecord _ _ hk ih =>
    exact regexCompiled_of_matchFields (addDataRecord_matchFields hk) ih
  | clearValidSectionNames _ ih => exact regexCompiled_of_eq rfl rfl ih
  | addValidSectionName _ _ ih => exact regexCompiled_of_eq rfl rfl ih
  | setMatchRegex p _ ih => exact setMatchRegex_regexCompiled p ih
  | getRecord _ _ _ ih => exact regexCompiled_of_eq rfl rfl ih

/-- C36: two schemas a client can build that compare equal with `==` give the
same answer of `matches` on every name: each of them has the compiled form
of its regex source string as its compiled regex, and `==` compares the
accepted deck names and the regex source strings. -/
theorem operatorEq_matches {X : Extern} {a b : ParserKeyword X} (ha : Reachable a)
    (hb : Reachable b) (h : a.operatorEq b = true) :
    (∀ c, a.matches c = b.matches c) ∧ regexCompiled a ∧ regexCompiled b := by
  have hfields : a.m_deckNames = b.m_deckNames ∧ a.m_matchRegexString = b.m_matchRegexString := by
    unfold operatorEq at h
    split at h
    · cases h
    · rename_i hdn
      split at h
      · cases h
      · rename_i hor
        simp only [bne_iff_ne, ne_eq, not_not] at hdn
        simp only [Bool.or_eq_true, bne_iff_ne, ne_eq, not_or, not_not] at hor
        exact ⟨hdn, hor.1.1.1.2⟩
  obtain ⟨hdn, hstr⟩ := hfields
  have hhas : a.hasMatchRegex = b.hasMatchRegex := by
    unfold hasMatchRegex
    rw [hstr]
  refine ⟨fun c => ?_, ha.regexCompiled, hb.regexCompiled⟩
  unfold ParserKeyword.matches
  rw [hdn, hhas]
  cases hb1 : b.hasMatchRegex with
  | false => rfl
  | true =>
    have h1 := ha.regexCompiled (hhas.trans hb1)
    have h2 := hb.regexCompiled hb1
    rw [hstr, h2] at h1
    rw [Option.some.inj h1]

theorem operatorEq_matches_witness :
    (∀ c, sampleRegexA.matches c = sampleRegexB.matches c) ∧
    regexCompiled sampleRegexA ∧ regexCompiled sampleRegexB :=
  operatorEq_matches (.setMatchRegex "SWA" (.addDeckName "SWATINIT" (.new "SWAT")))
    (.setMatchRegex "SWA" (.addDeckName "SWAT" (.addDeckName "SWATINIT" (.clearDeckNames
      (.new "SWAT"))))) (by decide)

/-! ### The size taken from another keyword -/

/-- The loop of `parse` succeeds when the schema has a record template and the
record-level parse succeeds on every raw record with every template. -/
theorem parseLoop_succeeds {X : Extern} (kw : ParserKeyword X) (ctx : X.ParseContext)
    (hT : kw.m_records ≠ []) :
    ∀ (rest : List RawRecord),
      (∀ r ∈ rest, ∀ tpl ∈ kw.m_records, ∃ d, X.recordParse ctx tpl r = .ok d) →
      ∀ (n : Nat) (keyword : DeckKeyword), ∃ k, parseLoop kw ctx rest n keyword = .ok k := by
  intro rest
  induction rest with
  | nil =>
    intro _ n keyword
    exact ⟨keyword, rfl⟩
  | cons r rest ih =>
    intro h n keyword
    have hget : ∃ tpl, kw.getRecord n = .ok tpl ∧ tpl ∈ kw.m_records := by
      unfold getRecord
      simp only [hT, dite_false]
      split
      · exact ⟨_, rfl, List.getLast_mem hT⟩
      · exact ⟨_, rfl, List.get_mem _ _ _⟩
    obtain ⟨tpl, hg, hmem⟩ := hget
    obtain ⟨d, hd⟩ := h r (List.mem_cons_self _ _) tpl hmem
    have hlen : (kw.m_records.length == 0) = false := by
      cases hm : kw.m_records with
      | nil => exact absurd hm hT
      | cons _ _ => rfl
    simp only [parseLoop, hlen, Bool.false_and, Bool.false_eq_true, if_false, hg, hd]
    exact ih (fun r1 h1 => h r1 (List.mem_cons_of_mem _ h1)) _ _

/-- C31 (counterexample): the schema with the size reference keyword "FOO",
item "N" and shift -1 parses an occurrence with one record; `parse` is given
the schema, a parse context and the raw occurrence, and no keyword parsed
before. -/
theorem parse_size_reference_counterexample :
    sampleDependent.getSizeType = .OTHER_KEYWORD_IN_DECK ∧
    sampleDependent.getKeywordSize = ⟨"FOO", "N", ⟨-1, by decide, by decide⟩⟩ ∧
    ∃ k, sampleDependent.parse () sampleRawDependent = .ok k ∧ k.records.length = 1 :=
  ⟨rfl, rfl, _, rfl, rfl⟩

/-- C31 (amended): `initSizeKeyword` stores the keyword K, the item I and the
shift s under the size type `OTHER_KEYWORD_IN_DECK`, and `parse` does not
resolve them: its result is the same whatever K, I and s are, a successful
parse has one output record for each raw record, and the parse of a finished
occurrence succeeds whenever the schema has a record template and the
record-level parse succeeds on every raw record. -/
theorem parse_size_reference {X : Extern} (kw : ParserKeyword X) (K I : String) (s : CInt)
    (ctx : X.ParseContext) (raw : RawKeyword) :
    ((kw.initSizeKeyword K I s).getSizeType = .OTHER_KEYWORD_IN_DECK ∧
      (kw.initSizeKeyword K I s).getKeywordSize = ⟨K, I, s⟩) ∧
    (∀ K1 I1 s1, (kw.initSizeKeyword K1 I1 s1).parse ctx raw
      = (kw.initSizeKeyword K I s).parse ctx raw) ∧
    (∀ k, (kw.initSizeKeyword K I s).parse ctx raw = .ok k →
      k.records.length = raw.records.length) ∧
    (raw.isFinished = true → kw.m_records ≠ [] →
      (∀ r ∈ raw.records, ∀ tpl ∈ kw.m_records, ∃ d, X.recordParse ctx tpl r = .ok d) →
      ∃ k, (kw.initSizeKeyword K I s).parse ctx raw = .ok k) := by
  refine ⟨⟨rfl, rfl⟩, ?_, ?_, ?_⟩
  · intro K1 I1 s1
    exact parse_congr (kw.initSizeKeyword K1 I1 s1) (kw.initSizeKeyword K I s) rfl rfl rfl
      ctx raw
  · intro k hk
    exact (parse_inv hk).2.1
  · intro hf hT hall
    obtain ⟨k, hk⟩ := parseLoop_succeeds (kw.initSizeKeyword K I s) ctx hT raw.records hall 0
      (((DeckKeyword.create raw.keywordName).setLocation raw.filename raw.lineNR).setDataKeyword
        (kw.initSizeKeyword K I s).isDataKeyword)
    unfold parse
    simp only [hf, Bool.not_true, Bool.false_eq_true, if_false, hk]
    exact ⟨_, rfl⟩

theorem parse_size_reference_witness :
    ∃ k, sampleDependent.parse () sampleRawDependent = .ok k :=
  (parse_size_reference
    ((ParserKeyword.newSized sampleExtern "BAR" "FOO" "N" ⟨-1, by decide, by decide⟩
      false).addRecord sampleRecordOne) "FOO" "N" ⟨-1, by decide, by decide⟩ ()
    sampleRawDependent).2.2.2 rfl (by decide)
    (fun r hr tpl ht => by
      simp only [sampleRawDependent, List.mem_singleton] at hr
      simp only [ParserKeyword.addRecord, ParserKeyword.newSized, ParserKeyword.initSizeKeyword,
        ParserKeyword.commonInit, ParserKeyword.fresh, List.nil_append,
        List.mem_singleton] at ht
      subst hr ht
      exact ⟨_, rfl⟩)

/-! ### The saturation function family -/

open EndpointInitializer

/-- The result of `getSaturationFunctionFamily` by the two flags it computes. -/
theorem getSaturationFunctionFamily_cases (tables : TableManager) :
    getSaturationFunctionFamily tables =
      match ((!tables.sgofTables.isEmpty || !tables.slgofTables.isEmpty)
          && !tables.swofTables.isEmpty),
        (!tables.swfnTables.isEmpty && !tables.sgfnTables.isEmpty
          && !tables.sof3Tables.isEmpty) with
      | true, true => .error .invalid_argument
      | false, false => .error .invalid_argument
      | true, false => .ok .FamilyI
      | false, true => .ok .FamilyII := by
  unfold getSaturationFunctionFamily
  simp only
  cases ((!tables.sgofTables.isEmpty || !tables.slgofTables.isEmpty)
      && !tables.swofTables.isEmpty) <;>
    cases (!tables.swfnTables.isEmpty && !tables.sgfnTables.isEmpty
      && !tables.sof3Tables.isEmpty) <;> rfl

/-- C32: `getSaturationFunctionFamily` returns `FamilyI` when SWOF tables and
SGOF or SLGOF tables are specified and one of SWFN, SGFN, SOF3 is not, and
returns `FamilyII` when SWFN, SGFN and SOF3 tables are all specified and
family I is not completely specified. -/
theorem getSaturationFunctionFamily_returns (tables : TableManager) :
    (tables.swofTables ≠ [] ∧ (tables.sgofTables ≠ [] ∨ tables.slgofTables ≠ []) →
      (tables.swfnTables = [] ∨ tables.sgfnTables = [] ∨ tables.sof3Tables = []) →
      getSaturationFunctionFamily tables = .ok .FamilyI) ∧
    (tables.swfnTables ≠ [] ∧ tables.sgfnTables ≠ [] ∧ tables.sof3Tables ≠ [] →
      (tables.swofTables = [] ∨ (tables.sgofTables = [] ∧ tables.slgofTables = [])) →
      getSaturationFunctionFamily tables = .ok .FamilyII) := by
  rw [getSaturationFunctionFamily_cases]
  obtain ⟨swof, sgof, slgof, sof3, swfn, sgfn⟩ := tables
  simp only
  constructor
  · rintro ⟨h1, h2⟩ h3
    cases swof <;> cases sgof <;> cases slgof <;> cases sof3 <;> cases swfn <;> cases sgfn <;>
      simp_all [List.isEmpty]
  · rintro ⟨h1, h2, h3⟩ h4
    cases swof <;> cases sgof <;> cases slgof <;> cases sof3 <;> cases swfn <;> cases sgfn <;>
      simp_all [List.isEmpty]

theorem getSaturationFunctionFamily_returns_witness :
    getSaturationFunctionFamily (sampleTableManager true false true false true false)
      = .ok .FamilyI ∧
    getSaturationFunctionFamily (sampleTableManager true false false true true true)
      = .ok .FamilyII :=
  ⟨(getSaturationFunctionFamily_returns
      (sampleTableManager true false true false true false)).1
      ⟨by decide, Or.inr (by decide)⟩ (Or.inr (Or.inl rfl)),
   (getSaturationFunctionFamily_returns
      (sampleTableManager true false false true true true)).2
      ⟨by decide, by decide, by decide⟩ (Or.inr ⟨rfl, rfl⟩)⟩

/-- C33 (counterexample): with SWOF and SGOF tables together with SWFN tables
in the deck, `getSaturationFunctionFamily` raises nothing and returns
`FamilyI`. -/
theorem getSaturationFunctionFamily_mixed_counterexample :
    (sampleTableManager true true false false true false).swofTables ≠ [] ∧
    (sampleTableManager true true false false true false).sgofTables ≠ [] ∧
    (sampleTableManager true true false false true false).swfnTables ≠ [] ∧
    getSaturationFunctionFamily (sampleTableManager true true false false true false)
      = .ok .FamilyI :=
  ⟨by decide, by decide, by decide, rfl⟩

/-- C33 (amended): `getSaturationFunctionFamily` raises exactly when neither
family I (SWOF with SGOF or SLGOF) nor family II (SWFN, SGFN, SOF3) is
completely specified, or both are completely specified; the exception is
`invalid_argument`.  A completely specified family next to a part of the
other one is no error. -/
theorem getSaturationFunctionFamily_raises (tables : TableManager) :
    (getSaturationFunctionFamily tables = .error .invalid_argument ↔
      ((tables.swofTables ≠ [] ∧ (tables.sgofTables ≠ [] ∨ tables.slgofTables ≠ [])) ↔
        (tables.swfnTables ≠ [] ∧ tables.sgfnTables ≠ [] ∧ tables.sof3Tables ≠ []))) ∧
    (∀ e, getSaturationFunctionFamily tables = .error e → e = .invalid_argument) := by
  rw [getSaturationFunctionFamily_cases]
  obtain ⟨swof, sgof, slgof, sof3, swfn, sgfn⟩ := tables
  simp only
  constructor
  · cases swof <;> cases sgof <;> cases slgof <;> cases sof3 <;> cases swfn <;> cases sgfn <;>
      simp [List.isEmpty]
  · intro e
    cases swof <;> cases sgof <;> cases slgof <;> cases sof3 <;> cases swfn <;> cases sgfn <;>
      simp [List.isEmpty] <;> exact fun h => h.symm

theorem getSaturationFunctionFamily_raises_witness :
    getSaturationFunctionFamily (sampleTableManager true false false false true true)
      = .error .invalid_argument ∧
    getSaturationFunctionFamily (sampleTableManager true true false true true true)
      = .error .invalid_argument :=
  ⟨(getSaturationFunctionFamily_raises
      (sampleTableManager true false false false true true)).1.mpr (by decide),
   (getSaturationFunctionFamily_raises
      (sampleTableManager true true false true true true)).2 _ rfl ▸ rfl⟩

/-- C39: whatever containers are empty, `getSaturationFunctionFamily` raises
`invalid_argument` or returns `FamilyI` or `FamilyII`; it never returns
`noFamily`, and a `switch` over its result never enters the `default:`
branch. -/
theorem getSaturationFunctionFamily_never_noFamily (tables : TableManager) :
    getSaturationFunctionFamily tables ≠ .ok .noFamily ∧
    (getSaturationFunctionFamily tables = .error .invalid_argument ∨
      getSaturationFunctionFamily tables = .ok .FamilyI ∨
      getSaturationFunctionFamily tables = .ok .FamilyII) ∧
    enteredBranch tables ≠ .ok .caseDefault := by
  unfold enteredBranch
  rw [getSaturationFunctionFamily_cases]
  cases ((!tables.sgofTables.isEmpty || !tables.slgofTables.isEmpty)
      && !tables.swofTables.isEmpty) <;>
    cases (!tables.swfnTables.isEmpty && !tables.sgfnTables.isEmpty
      && !tables.sof3Tables.isEmpty) <;>
    simp [switchBranch]

/-! ### The reads of `findCriticalPoints` -/

theorem firstPositiveRow_lt (col : List Double) :
    ∀ rowIdx, firstPositiveRow col = some rowIdx → rowIdx < col.length := by
  induction col with
  | nil =>
    intro rowIdx h
    cases h
  | cons x rest ih =>
    intro rowIdx h
    unfold firstPositiveRow at h
    split at h
    · cases h
      exact Nat.succ_pos _
    · cases hr : firstPositiveRow rest with
      | none =>
        rw [hr] at h
        cases h
      | some r =>
        rw [hr] at h
        cases h
        exact Nat.succ_lt_succ (ih r hr)

/-- A read under `if (rowIdx > 0)` is a read of a row of the table. -/
theorem guardedReadBefore_inRows (col : List Double) (index : Int)
    (h : guardedReadBefore col = some index) : inRows col.length index = true := by
  unfold guardedReadBefore at h
  cases hr : firstPositiveRow col with
  | none =>
    rw [hr] at h
    cases h
  | some r =>
    rw [hr] at h
    have hlt := firstPositiveRow_lt col r hr
    simp only at h
    split at h
    · cases h
      simp only [inRows, Bool.and_eq_true, decide_eq_true_eq]
      omega
    · cases h

/-- Without `NDEBUG`, a read behind `assert(rowIdx < numRows - 1)` is a read of
a row of the table. -/
theorem assertedReadAfterLast_inRows (col : List Double) (index : Int)
    (h : assertedReadAfterLast false col = .read index) : inRows col.length index = true := by
  unfold assertedReadAfterLast at h
  cases hr : lastPositiveRow col with
  | none =>
    rw [hr] at h
    cases h
  | some r =>
    rw [hr] at h
    simp only at h
    split at h
    · cases h
    · rename_i hcond
      cases h
      simp only [Bool.not_false, Bool.true_and, Bool.not_eq_true', decide_eq_false_iff_not,
        not_not] at hcond
      simp only [inRows, Bool.and_eq_true, decide_eq_true_eq]
      omega

/-- C40: `findCriticalPoints` reads saturation columns outside the rows of the
table.  On an SWOF table of two rows whose last row has a positive KROW the
backward loop reads index 2; on an SOF3 table of two rows whose first row
has positive KROG and KROW the two loops read index `2^64 - 1`; on an SLGOF
table of two rows of which only the last has a positive KROG the forward
loop reads index 2, after the backward loop read index 1, with and without
`NDEBUG`. -/
theorem findCriticalPoints_reads_outside :
    (sampleSwof.numRows = 2 ∧ swofReads sampleSwof = [0, 2] ∧
      (swofReads sampleSwof).all (inRows sampleSwof.numRows) = false) ∧
    (sampleSof3.numRows = 2 ∧
      sof3Reads sampleSof3 = [18446744073709551615, 18446744073709551615] ∧
      (sof3Reads sampleSof3).all (inRows sampleSof3.numRows) = false) ∧
    (sampleSlgof.numRows = 2 ∧ ∀ ndebug, slgofReads ndebug sampleSlgof = [1, 2] ∧
      (slgofReads ndebug sampleSlgof).all (inRows sampleSlgof.numRows) = false) := by
  refine ⟨⟨rfl, ?_, ?_⟩, ⟨rfl, ?_, ?_⟩, ⟨rfl, ?_⟩⟩
  · decide
  · decide
  · decide
  · decide
  · intro ndebug
    cases ndebug <;> exact ⟨by decide, by decide⟩

end Opm
